import Mathlib

set_option maxHeartbeats 1000000

/-
Verification of the Vikunja to Google Calendar reconciler (src/index.js).

The reconciler is a batch function (`run`, lines 183-322 of src/index.js)
that fetches projects and tasks from the task source, lists managed
calendars, provisions one calendar per project, shares each managed
calendar with a configured principal, indexes all remote events by the
embedded task identifier, diffs the uncompleted tasks against the index,
and finally deletes events whose task is gone.

The shallow embedding below models the Google Calendar sink as an explicit
state (`GState`): a list of calendars, a flat list of events tagged with
their owning calendar identifier, fresh-identifier counters, and a server
clock used to stamp the `updated` field of created and updated events.
All-day dates are modelled as day numbers, UTC timestamps as naturals.
Every remote call in the success path is modelled exactly; each phase also
emits a trace of the mutating calls and pacing delays it performs, in
order, so that temporal claims about the call sequence can be stated.
-/

namespace VikunjaGcalSync

/-- A Vikunja project: identifier and title (the title derives the
calendar display name). -/
structure Project where
  id : Nat
  title : String
deriving DecidableEq

/-- A Vikunja task as consumed by the reconciler: identifier, title,
optional description, optional due date (a day number; `none` models a
null due date), completion flag, last-modified timestamp (UTC instant),
owning project identifier and an optionally inlined project object. -/
structure Task where
  id : Nat
  title : String
  description : Option String
  due_date : Option Nat
  done : Bool
  updated_at : Nat
  project_id : Nat
  project : Option Project
deriving DecidableEq

/-- The event payload built by `buildGoogleEvent` (src/index.js lines
163-178): summary, description, all-day start and end dates, transparency
flag and the private extended property carrying the task identifier. -/
structure EventPayload where
  summary : String
  description : String
  startDate : Nat
  endDate : Nat
  transparency : String
  vikunjaTaskId : String
deriving DecidableEq

/-- A remote Google Calendar event: sink-assigned identifier, owning
calendar identifier, content fields, the optional private task-identifier
property, and the sink-maintained last-modified timestamp. -/
structure GEvent where
  id : Nat
  calendarId : Nat
  summary : String
  description : String
  startDate : Nat
  endDate : Nat
  transparency : String
  vikunjaTaskId : Option String
  updated : Nat
deriving DecidableEq

/-- A Google calendar: sink-assigned identifier, display name (summary),
and the set of principals its ACL already grants access to. -/
structure Cal where
  id : Nat
  summary : String
  shared : List String
deriving DecidableEq

/-- The state of the Google Calendar sink: calendars, events (each tagged
with its owning calendar identifier), fresh-identifier counters for
calendars and events, and the server clock stamped onto created and
updated events as their `updated` timestamp. -/
structure GState where
  calendars : List Cal
  events : List GEvent
  nextCalId : Nat
  nextEventId : Nat
  now : Nat
deriving DecidableEq

/-- Configuration: CALENDAR_PREFIX, VIKUNJA_FRONTEND_URL and
GOOGLE_CALENDAR_SHARE_WITH_EMAIL from the environment. -/
structure Config where
  pfx : String
  frontendUrl : String
  shareEmail : String
deriving DecidableEq

/-- One remote call of interest emitted by the cycle: the five mutating
sink calls plus the pacing delay (`delay(ms)`, src/index.js line 48). -/
inductive Action where
  | createCalendar (name : String)
  | aclInsert (calId : Nat) (email : String)
  | insertEvent (calId : Nat) (payload : EventPayload)
  | updateEvent (calId : Nat) (eventId : Nat) (payload : EventPayload)
  | deleteEvent (calId : Nat) (eventId : Nat)
  | sleep (ms : Nat)
deriving DecidableEq

/-- Whether an action is a mutating sink call (everything except the
pacing delay). -/
def Action.isMutating : Action → Bool
  | .sleep _ => false
  | _ => true

/-- JS `String.prototype.startsWith`: the receiver begins with the given
search string. -/
def jsStartsWith (s sub : String) : Bool :=
  sub.toList.isPrefixOf s.toList

/-- JS `Map.prototype.set` on an insertion-ordered association list:
overwrite in place when the key is present, append otherwise. -/
def mapSet (m : List (String × GEvent)) (k : String) (v : GEvent) :
    List (String × GEvent) :=
  if m.any (fun kv => kv.1 == k) then
    m.map (fun kv => if kv.1 == k then (k, v) else kv)
  else m ++ [(k, v)]

/-- JS `Map.prototype.get`. -/
def mapGet (m : List (String × GEvent)) (k : String) : Option GEvent :=
  (m.find? (fun kv => kv.1 == k)).map Prod.snd

/-- `getVikunjaProjects` (src/index.js lines 55-65): returns the fetched
projects, or the empty list when the transport call fails. -/
def getVikunjaProjects (resp : Except Unit (List Project)) : List Project :=
  match resp with
  | .ok ps => ps
  | .error _ => []

/-- `getVikunjaTasks` (src/index.js lines 67-99): returns all fetched
tasks filtered to those with a non-null due date, or the empty list when
the transport call fails. -/
def getVikunjaTasks (resp : Except Unit (List Task)) : List Task :=
  match resp with
  | .ok ts => ts.filter (fun t => t.due_date.isSome)
  | .error _ => []

/-- The managed-calendar name for a project title:
`CALENDAR_PREFIX ++ " " ++ title`. -/
def calName (cfg : Config) (title : String) : String :=
  cfg.pfx ++ " " ++ title

/-- `getManagedCalendars` (src/index.js lines 102-110): list the sink
calendars whose summary starts with the configured prefix, or the empty
list when the transport call fails. -/
def getManagedCalendars (ok : Bool) (cfg : Config) (st : GState) : List Cal :=
  if ok then st.calendars.filter (fun c => jsStartsWith c.summary cfg.pfx)
  else []

/-- `getGoogleEvents` (src/index.js lines 153-161): the events of one
calendar. -/
def getGoogleEvents (st : GState) (calId : Nat) : List GEvent :=
  st.events.filter (fun e => e.calendarId == calId)

/-- The task key used throughout the reconciler: `String(task.id)`. -/
def taskKey (t : Task) : String :=
  toString t.id

/-- `buildGoogleEvent` (src/index.js lines 163-178): the deterministic
event payload for a task. The deep link is
`VIKUNJA_FRONTEND_URL/projects/<project_id>/tasks/<id>`; the all-day span
is the due date with an exclusive end one day later; the transparency is
"opaque"; the private property carries the task identifier as a string. -/
def buildGoogleEvent (cfg : Config) (t : Task) : EventPayload :=
  let viewLink :=
    cfg.frontendUrl ++ "/projects/" ++ toString t.project_id
      ++ "/tasks/" ++ toString t.id
  { summary := t.title
    description := t.description.getD "" ++ "\n\nView in Vikunja: " ++ viewLink
    startDate := t.due_date.getD 0
    endDate := t.due_date.getD 0 + 1
    transparency := "opaque"
    vikunjaTaskId := toString t.id }

/-- The event record materialized by `calendar.events.insert`: a fresh
sink identifier, the payload fields, and the server clock as the
last-modified timestamp. -/
def payloadToEvent (st : GState) (calId : Nat) (p : EventPayload) : GEvent :=
  { id := st.nextEventId
    calendarId := calId
    summary := p.summary
    description := p.description
    startDate := p.startDate
    endDate := p.endDate
    transparency := p.transparency
    vikunjaTaskId := some p.vikunjaTaskId
    updated := st.now }

/-- Effect of `calendar.events.insert` on the sink state. -/
def applyInsertEvent (st : GState) (calId : Nat) (p : EventPayload) : GState :=
  { st with
    events := st.events ++ [payloadToEvent st calId p]
    nextEventId := st.nextEventId + 1 }

/-- Effect of `calendar.events.delete` on the sink state: remove the
event with the given identifier from the given calendar (no-op when it is
already gone, matching the tolerated "410 Gone" response). -/
def applyDeleteEvent (st : GState) (calId eventId : Nat) : GState :=
  { st with
    events := st.events.filter (fun e => !(e.calendarId == calId && e.id == eventId)) }

/-- The per-event effect of `calendar.events.update`: the addressed event
gets the payload body and the server clock as its new last-modified
timestamp; every other event is unchanged. -/
def updateEventBody (st : GState) (calId eventId : Nat) (p : EventPayload)
    (e : GEvent) : GEvent :=
  if e.calendarId == calId && e.id == eventId then
    { e with
      summary := p.summary
      description := p.description
      startDate := p.startDate
      endDate := p.endDate
      transparency := p.transparency
      vikunjaTaskId := some p.vikunjaTaskId
      updated := st.now }
  else e

/-- Effect of `calendar.events.update` on the sink state: replace the
body of the addressed event with the payload and stamp the server clock
as its new last-modified timestamp. -/
def applyUpdateEvent (st : GState) (calId eventId : Nat) (p : EventPayload) :
    GState :=
  { st with events := st.events.map (updateEventBody st calId eventId p) }

/-- `createGoogleCalendar` (src/index.js lines 112-127): create a sink
calendar named `CALENDAR_PREFIX ++ " " ++ projectName` (UTC timezone) and
return the created resource alongside the new state. -/
def createGoogleCalendar (cfg : Config) (st : GState) (projectName : String) :
    Cal × GState :=
  let c : Cal := { id := st.nextCalId, summary := calName cfg projectName, shared := [] }
  (c, { st with calendars := st.calendars ++ [c], nextCalId := st.nextCalId + 1 })

/-- One iteration of the calendar-provisioning loop (src/index.js lines
204-215): when no in-memory calendar carries the expected name, create
one, append it to the in-memory list and pace. -/
def ensureCalendarStep (cfg : Config) (acc : List Cal × GState × List Action)
    (p : Project) : List Cal × GState × List Action :=
  let expected := calName cfg p.title
  match acc.1.find? (fun c => c.summary == expected) with
  | some _ => acc
  | none =>
      let created := createGoogleCalendar cfg acc.2.1 p.title
      (acc.1 ++ [created.1], created.2,
       acc.2.2 ++ [Action.createCalendar expected, Action.sleep 200])

/-- The calendar-provisioning phase: fold `ensureCalendarStep` over all
projects, starting from the listed managed calendars. -/
def reconcileCalendars (cfg : Config) (projects : List Project)
    (gcals : List Cal) (st : GState) : List Cal × GState × List Action :=
  projects.foldl (ensureCalendarStep cfg) (gcals, st, [])

/-- `ensureCalendarIsShared` (src/index.js lines 129-150): read the ACL
of the calendar from the sink; when the configured principal holds no
rule, insert an owner grant for it. -/
def ensureCalendarIsShared (cfg : Config) (acc : GState × List Action)
    (c : Cal) : GState × List Action :=
  match acc.1.calendars.find? (fun x => x.id == c.id) with
  | none => acc
  | some sc =>
      if sc.shared.contains cfg.shareEmail then acc
      else
        ({ acc.1 with
            calendars := acc.1.calendars.map (fun x =>
              if x.id == c.id then { x with shared := x.shared ++ [cfg.shareEmail] }
              else x) },
         acc.2 ++ [Action.aclInsert c.id cfg.shareEmail])

/-- One iteration of the permission-verification loop (src/index.js lines
218-221): ensure the calendar is shared, then pace unconditionally. -/
def shareStep (cfg : Config) (acc : GState × List Action) (c : Cal) :
    GState × List Action :=
  let r := ensureCalendarIsShared cfg acc c
  (r.1, r.2 ++ [Action.sleep 200])

/-- The sharing phase: fold `shareStep` over the in-memory calendars. -/
def shareCalendars (cfg : Config) (gcals : List Cal) (st : GState) :
    GState × List Action :=
  gcals.foldl (shareStep cfg) (st, [])

/-- Registration of one listed event into the index (src/index.js lines
227-232): an event carrying the private task-identifier property is
stored under that identifier, spread with the calendar it was listed
from; an event without the property is skipped. -/
def registerEvent (cid : Nat) (m : List (String × GEvent)) (e : GEvent) :
    List (String × GEvent) :=
  match e.vikunjaTaskId with
  | some vid => mapSet m vid { e with calendarId := cid }
  | none => m

/-- One iteration of the event-indexing loop (src/index.js lines 224-234):
list the events of one calendar, register every event carrying the private
task-identifier property into the global map (tagging it with the calendar
it lives in), then pace. -/
def indexCalendarStep (st : GState) (acc : List (String × GEvent) × List Action)
    (c : Cal) : List (String × GEvent) × List Action :=
  let evs := getGoogleEvents st c.id
  (evs.foldl (registerEvent c.id) acc.1, acc.2 ++ [Action.sleep 200])

/-- The indexing phase: fold `indexCalendarStep` over the in-memory
calendars, producing the map from task identifier to remote event. -/
def indexEvents (st : GState) (gcals : List Cal) :
    List (String × GEvent) × List Action :=
  gcals.foldl (indexCalendarStep st) ([], [])

/-- `projectMap.get` (src/index.js line 201): a JS `Map` built from
`(p.id, p)` pairs, so a later duplicate identifier overwrites an earlier
one. -/
def projectMapGet (ps : List Project) (pid : Nat) : Option Project :=
  (ps.filter (fun p => p.id == pid)).getLast?

/-- Project resolution for a task (src/index.js line 242): the inlined
`task.project` when present, otherwise the project map entry for
`task.project_id`. -/
def resolveProject (ps : List Project) (t : Task) : Option Project :=
  match t.project with
  | some p => some p
  | none => projectMapGet ps t.project_id

/-- One iteration of the diff loop (src/index.js lines 238-302).
Resolve the project and target calendar (skipping the task when either is
missing); then: no indexed event means create; an indexed event in a
different calendar means delete it (the move) and create fresh in the
target; an indexed event in the target calendar that is stale
(task modified strictly later, UTC-compared, or transparency not
"opaque") means update in place; otherwise leave it alone. Every
mutating call is followed by the pacing delay. -/
def syncTaskStep (cfg : Config) (projects : List Project) (gcals : List Cal)
    (index : List (String × GEvent)) (acc : GState × List Action) (t : Task) :
    GState × List Action :=
  match resolveProject projects t with
  | none => acc
  | some proj =>
    match gcals.find? (fun c => c.summary == calName cfg proj.title) with
    | none => acc
    | some targetGCal =>
      let payload := buildGoogleEvent cfg t
      match mapGet index (taskKey t) with
      | some e =>
          let needsMove := e.calendarId != targetGCal.id
          if needsMove || decide (e.updated < t.updated_at)
              || e.transparency != "opaque" then
            if needsMove then
              (applyInsertEvent (applyDeleteEvent acc.1 e.calendarId e.id)
                 targetGCal.id payload,
               acc.2 ++ [Action.deleteEvent e.calendarId e.id, Action.sleep 200,
                         Action.insertEvent targetGCal.id payload, Action.sleep 200])
            else
              (applyUpdateEvent acc.1 e.calendarId e.id payload,
               acc.2 ++ [Action.updateEvent e.calendarId e.id payload,
                         Action.sleep 200])
          else acc
      | none =>
          (applyInsertEvent acc.1 targetGCal.id payload,
           acc.2 ++ [Action.insertEvent targetGCal.id payload, Action.sleep 200])

/-- The diff phase: fold `syncTaskStep` over the uncompleted tasks in
source enumeration order. -/
def syncTasks (cfg : Config) (projects : List Project) (gcals : List Cal)
    (index : List (String × GEvent)) (tasks : List Task) (st : GState) :
    GState × List Action :=
  tasks.foldl (syncTaskStep cfg projects gcals index) (st, [])

/-- One iteration of the cleanup loop (src/index.js lines 304-320): when
the indexed task identifier is absent from the uncompleted-task map,
delete the indexed event and pace. -/
def cleanupStep (uncompleted : List Task) (acc : GState × List Action)
    (kv : String × GEvent) : GState × List Action :=
  if uncompleted.any (fun t => taskKey t == kv.1) then acc
  else
    (applyDeleteEvent acc.1 kv.2.calendarId kv.2.id,
     acc.2 ++ [Action.deleteEvent kv.2.calendarId kv.2.id, Action.sleep 200])

/-- The cleanup phase: fold `cleanupStep` over the (stale snapshot of
the) event index. -/
def cleanupEvents (uncompleted : List Task) (index : List (String × GEvent))
    (st : GState) : GState × List Action :=
  index.foldl (cleanupStep uncompleted) (st, [])

/-- The delete error handler (src/index.js line 315): an error code is
logged as a failure exactly when it is not 410 ("already gone"), which is
swallowed as success. -/
def deleteErrorLogged (code : Nat) : Bool :=
  code != 410

/-- The uncompleted task list of a cycle (src/index.js line 195): the
due-date-filtered tasks with `done == false`. -/
def uncompletedTasks (tResp : Except Unit (List Task)) : List Task :=
  (getVikunjaTasks tResp).filter (fun t => !t.done)

/-- Provisioning phase of a cycle: the in-memory calendar list, the sink
state and the trace after reconciling calendars. -/
def cycleProvision (cfg : Config) (pResp : Except Unit (List Project))
    (ok : Bool) (st0 : GState) : List Cal × GState × List Action :=
  reconcileCalendars cfg (getVikunjaProjects pResp)
    (getManagedCalendars ok cfg st0) st0

/-- The in-memory managed-calendar list of a cycle after provisioning. -/
def cycleGcals (cfg : Config) (pResp : Except Unit (List Project)) (ok : Bool)
    (st0 : GState) : List Cal :=
  (cycleProvision cfg pResp ok st0).1

/-- Sharing phase of a cycle. -/
def cycleShare (cfg : Config) (pResp : Except Unit (List Project)) (ok : Bool)
    (st0 : GState) : GState × List Action :=
  shareCalendars cfg (cycleGcals cfg pResp ok st0) (cycleProvision cfg pResp ok st0).2.1

/-- Indexing phase of a cycle. -/
def cycleIndexed (cfg : Config) (pResp : Except Unit (List Project)) (ok : Bool)
    (st0 : GState) : List (String × GEvent) × List Action :=
  indexEvents (cycleShare cfg pResp ok st0).1 (cycleGcals cfg pResp ok st0)

/-- The event index of a cycle: task identifier to remote event. -/
def cycleIndex (cfg : Config) (pResp : Except Unit (List Project)) (ok : Bool)
    (st0 : GState) : List (String × GEvent) :=
  (cycleIndexed cfg pResp ok st0).1

/-- Diff phase of a cycle. -/
def cycleDiff (cfg : Config) (pResp : Except Unit (List Project))
    (tResp : Except Unit (List Task)) (ok : Bool) (st0 : GState) :
    GState × List Action :=
  syncTasks cfg (getVikunjaProjects pResp) (cycleGcals cfg pResp ok st0)
    (cycleIndex cfg pResp ok st0) (uncompletedTasks tResp)
    (cycleShare cfg pResp ok st0).1

/-- Cleanup phase of a cycle. -/
def cycleCleanup (cfg : Config) (pResp : Except Unit (List Project))
    (tResp : Except Unit (List Task)) (ok : Bool) (st0 : GState) :
    GState × List Action :=
  cleanupEvents (uncompletedTasks tResp) (cycleIndex cfg pResp ok st0)
    (cycleDiff cfg pResp tResp ok st0).1

/-- One full sync cycle (`run`, src/index.js lines 183-322) in the
success path: the final sink state and the ordered trace of mutating
calls and pacing delays. -/
def runSync (cfg : Config) (pResp : Except Unit (List Project))
    (tResp : Except Unit (List Task)) (ok : Bool) (st0 : GState) :
    GState × List Action :=
  ((cycleCleanup cfg pResp tResp ok st0).1,
   (cycleProvision cfg pResp ok st0).2.2
     ++ (cycleShare cfg pResp ok st0).2
     ++ (cycleIndexed cfg pResp ok st0).2
     ++ (cycleDiff cfg pResp tResp ok st0).2
     ++ (cycleCleanup cfg pResp tResp ok st0).2)

/-- The calendars of a state whose summary starts with the configured
prefix: the managed calendars in the sense of the listing convention. -/
def managedCals (cfg : Config) (st : GState) : List Cal :=
  st.calendars.filter (fun c => jsStartsWith c.summary cfg.pfx)

/-- The identifiers of the managed calendars of a state. -/
def managedIds (cfg : Config) (st : GState) : List Nat :=
  (managedCals cfg st).map Cal.id

/-- The live remote events of a state that carry the given task
identifier and live in a managed calendar. -/
def eventsForKey (cfg : Config) (st : GState) (k : String) : List GEvent :=
  st.events.filter (fun e =>
    e.vikunjaTaskId == some k && (managedIds cfg st).contains e.calendarId)

/-- The events of a state that carry no task-identifier property: the
events not created by the reconciler. -/
def keylessEvents (st : GState) : List GEvent :=
  st.events.filter (fun e => e.vikunjaTaskId == (none : Option String))

/-- Sink-state well-formedness, the data-model invariants maintained by
the sink itself: calendar and event identifiers are distinct and below
the fresh counters, and every event lives in an existing calendar. -/
structure GState.WF (st : GState) : Prop where
  calsNodup : (st.calendars.map Cal.id).Nodup
  eventsNodup : (st.events.map GEvent.id).Nodup
  eventsLt : ∀ e ∈ st.events, e.id < st.nextEventId
  calsLt : ∀ c ∈ st.calendars, c.id < st.nextCalId
  eventsCal : ∀ e ∈ st.events, ∃ c ∈ st.calendars, e.calendarId = c.id

/-- The correspondence invariant: at most one live remote event per task
identifier across all managed calendars. -/
def atMostOnePerKey (cfg : Config) (st : GState) : Prop :=
  ∀ k : String, (eventsForKey cfg st k).length ≤ 1

/-- Whether the matching fields of a remote event agree with a payload. -/
def matchesPayload (e : GEvent) (p : EventPayload) : Prop :=
  e.summary = p.summary ∧ e.description = p.description ∧
  e.startDate = p.startDate ∧ e.endDate = p.endDate ∧
  e.transparency = p.transparency ∧ e.vikunjaTaskId = some p.vikunjaTaskId

/-- Whether a trace begins with the fixed 200 ms pacing delay. -/
def nextIsSleep (l : List Action) : Bool :=
  match l with
  | a :: _ => a == Action.sleep 200
  | [] => false

/-- A trace is paced when every mutating call is immediately followed by
the fixed 200 ms pacing delay (in particular a delay separates any two
mutating calls, and no mutating call ends the trace). -/
def paced : List Action → Bool
  | [] => true
  | a :: rest => (!a.isMutating || nextIsSleep rest) && paced rest

/-- Whether the last element of a trace is non-mutating (vacuously true
for the empty trace); the invariant that lets paced chunks concatenate. -/
def lastCalm : List Action → Bool
  | [] => true
  | [a] => !a.isMutating
  | _ :: rest => lastCalm rest

/-- A trace chunk that is paced and does not end in a mutating call. -/
def goodTrace (t : List Action) : Prop :=
  paced t = true ∧ lastCalm t = true

/-- Well-formedness of an event-index entry with respect to the state and
calendar list it was built from: the entry holds a live event of the
state, carrying exactly the entry key as its task identifier, and living
in one of the enumerated calendars. -/
def indexEntryOk (st : GState) (gcals : List Cal) (kv : String × GEvent) : Prop :=
  kv.2 ∈ st.events ∧ kv.2.vikunjaTaskId = some kv.1 ∧
    ∃ c ∈ gcals, kv.2.calendarId = c.id

/-- The effect of the provisioning phase on the sink state: the calendars
grow by a delta of freshly created, prefix-named, unshared calendars with
fresh distinct identifiers; events and the clock are untouched. -/
def provisionDelta (cfg : Config) (st0 : GState) (st : GState) (d : List Cal) : Prop :=
  st.calendars = st0.calendars ++ d ∧ st.events = st0.events ∧
  st.nextEventId = st0.nextEventId ∧ st.now = st0.now ∧
  st0.nextCalId ≤ st.nextCalId ∧
  (∀ c ∈ d, (∃ ti, c.summary = calName cfg ti) ∧ c.shared = [] ∧
    st0.nextCalId ≤ c.id ∧ c.id < st.nextCalId) ∧
  (d.map Cal.id).Nodup

/-- Invariant of the diff loop over the uncompleted tasks, relative to the
state `st2` at which the event index was built: the calendars, clock and
calendar counter are untouched; event identifiers stay distinct and below
the counter; events for any not-yet-processed task identifier are exactly
the ones of `st2`; events without a task identifier are untouched; and
every live event either is freshly created (identifier at least the old
counter) or inherits identifier and task identifier from an `st2` event. -/
structure DiffInv (cfg : Config) (st2 : GState) (doneKeys : List String)
    (st : GState) : Prop where
  cals : st.calendars = st2.calendars
  nowEq : st.now = st2.now
  nextCal : st.nextCalId = st2.nextCalId
  nextEv : st2.nextEventId ≤ st.nextEventId
  nodup : (st.events.map GEvent.id).Nodup
  evLt : ∀ e ∈ st.events, e.id < st.nextEventId
  evCal : ∀ e ∈ st.events, ∃ c ∈ st.calendars, e.calendarId = c.id
  frame : ∀ k, k ∉ doneKeys → eventsForKey cfg st k = eventsForKey cfg st2 k
  keyless : keylessEvents st = keylessEvents st2
  origin : ∀ x ∈ st.events, st2.nextEventId ≤ x.id ∨
    ∃ y ∈ st2.events, y.id = x.id ∧ y.vikunjaTaskId = x.vikunjaTaskId

/-- The outcome of the diff step for one task, relative to the state
`st2` at which the index was built: a skipped task leaves its events
alone; a created, moved or updated task ends with exactly one event, in
the target calendar, carrying the payload built from the task and stamped
with the cycle clock; a fresh task (no move, not stale) keeps exactly its
indexed event. -/
def outcomeFor (cfg : Config) (projects : List Project) (gcals : List Cal)
    (index : List (String × GEvent)) (st2 : GState) (t : Task) (st : GState) :
    Prop :=
  match resolveProject projects t with
  | none => eventsForKey cfg st (taskKey t) = eventsForKey cfg st2 (taskKey t)
  | some proj =>
    match gcals.find? (fun c => c.summary == calName cfg proj.title) with
    | none => eventsForKey cfg st (taskKey t) = eventsForKey cfg st2 (taskKey t)
    | some g =>
      match mapGet index (taskKey t) with
      | none => ∃ e2, eventsForKey cfg st (taskKey t) = [e2] ∧
          e2.calendarId = g.id ∧ matchesPayload e2 (buildGoogleEvent cfg t) ∧
          e2.updated = st2.now
      | some e =>
        if e.calendarId != g.id || decide (e.updated < t.updated_at)
            || e.transparency != "opaque" then
          ∃ e2, eventsForKey cfg st (taskKey t) = [e2] ∧
            e2.calendarId = g.id ∧ matchesPayload e2 (buildGoogleEvent cfg t) ∧
            e2.updated = st2.now
        else eventsForKey cfg st (taskKey t) = [e]

/-- Whether the diff loop acts on a task at all: its project resolves and
its target calendar is found. -/
def taskActs (cfg : Config) (projects : List Project) (gcals : List Cal)
    (t : Task) : Prop :=
  ∃ p g, resolveProject projects t = some p ∧
    gcals.find? (fun c => c.summary == calName cfg p.title) = some g

/-- Every event-create or event-update action in a trace carries a
payload built from some acting task of the given list. -/
def insertUpdateFrom (cfg : Config) (projects : List Project)
    (gcals : List Cal) (ts : List Task) (a : Action) : Prop :=
  ∀ cid eid p,
    (a = Action.insertEvent cid p ∨ a = Action.updateEvent cid eid p) →
    ∃ t ∈ ts, taskActs cfg projects gcals t ∧ p = buildGoogleEvent cfg t

/-- Invariant of the cleanup loop, relative to the pre-diff state `st2`
and the pre-cleanup state `st3`: calendars and keyless events untouched;
events for identifiers of uncompleted tasks untouched; events for
unprocessed foreign identifiers untouched; events of already-processed
foreign identifiers gone; and event origin tracking preserved. -/
structure CleanInv (cfg : Config) (st2 st3 : GState) (u : List Task)
    (processedKeys : List String) (st : GState) : Prop where
  cals : st.calendars = st3.calendars
  keyless : keylessEvents st = keylessEvents st3
  frameKeep : ∀ k, (u.any fun t => taskKey t == k) = true →
    eventsForKey cfg st k = eventsForKey cfg st3 k
  frameTodo : ∀ k, (u.any fun t => taskKey t == k) = false → k ∉ processedKeys →
    eventsForKey cfg st k = eventsForKey cfg st3 k
  deleted : ∀ k ∈ processedKeys, (u.any fun t => taskKey t == k) = false →
    eventsForKey cfg st k = []
  origin : ∀ x ∈ st.events, st2.nextEventId ≤ x.id ∨
    ∃ y ∈ st2.events, y.id = x.id ∧ y.vikunjaTaskId = x.vikunjaTaskId

/-- Example configuration for concrete witnesses. -/
def exCfg : Config :=
  ⟨"VK", "F", "E"⟩

/-- Example project. -/
def exProj : Project :=
  ⟨7, "Ops"⟩

/-- Example uncompleted task with a due date, owned by `exProj`. -/
def exTask : Task :=
  ⟨42, "Report", none, some 5, false, 100, 7, none⟩

/-- Example empty sink state. -/
def exSt0 : GState :=
  ⟨[], [], 10, 20, 1000⟩

/-- Example managed calendar for `exProj`, already shared. -/
def exCal : Cal :=
  ⟨10, "VK Ops", ["E"]⟩

/-- Example sink state holding only `exCal`. -/
def exStCal : GState :=
  ⟨[exCal], [], 11, 20, 1000⟩

/-- Example event for `exTask` in the target calendar whose timestamp
equals the task timestamp but whose transparency is not "opaque". -/
def exEventTransparent : GEvent :=
  ⟨5, 10, "s", "d", 1, 2, "transparent", some "42", 100⟩

/-- Example event for `exTask` in the target calendar, "opaque" and newer
than the task, but with content that does not match the task. -/
def exEventWrong : GEvent :=
  ⟨0, 10, "WRONG", "x", 1, 2, "opaque", some "42", 1000⟩

/-- Example sink state holding `exEventWrong` in `exCal`. -/
def exStWrong : GState :=
  ⟨[exCal], [exEventWrong], 11, 1, 2000⟩

/-- Example pair of events in the same managed calendar carrying the same
task identifier "9" under two different event identifiers. -/
def exEventDupA : GEvent :=
  ⟨0, 10, "a", "", 1, 2, "opaque", some "9", 5⟩

/-- Second event of the duplicated pair. -/
def exEventDupB : GEvent :=
  ⟨1, 10, "a", "", 1, 2, "opaque", some "9", 5⟩

/-- Example sink state carrying two live events with the same task
identifier in one managed calendar. -/
def exStDup : GState :=
  ⟨[exCal], [exEventDupA, exEventDupB], 11, 2, 1000⟩

/-- Example foreign event: lives in the managed example calendar but
carries no task-identifier property (not created by the reconciler). -/
def exEventForeign : GEvent :=
  ⟨3, 10, "Lunch", "", 1, 2, "opaque", none, 50⟩

/-- Example sink state holding only the foreign event in `exCal`. -/
def exStForeign : GState :=
  ⟨[exCal], [exEventForeign], 11, 4, 1000⟩

/-- Failure-aware calendar-provisioning step (src/index.js lines
204-215): a thrown `calendars.insert` makes `createGoogleCalendar`
return null (lines 112-127), so the calendar is not appended and the
pacing delay, which lives in the `if (newCal)` success branch, is
skipped. The oracle argument tells whether the n-th attempted mutating
sink call of the cycle throws. -/
def ensureCalendarStepF (cfg : Config) (fails : Nat → Bool)
    (acc : List Cal × GState × Nat × List Action) (p : Project) :
    List Cal × GState × Nat × List Action :=
  let expected := calName cfg p.title
  match acc.1.find? (fun c => c.summary == expected) with
  | some _ => acc
  | none =>
      if fails acc.2.2.1 then
        (acc.1, acc.2.1, acc.2.2.1 + 1,
         acc.2.2.2 ++ [Action.createCalendar expected])
      else
        let created := createGoogleCalendar cfg acc.2.1 p.title
        (acc.1 ++ [created.1], created.2, acc.2.2.1 + 1,
         acc.2.2.2 ++ [Action.createCalendar expected, Action.sleep 200])

/-- Failure-aware sharing step (src/index.js lines 129-150 and 218-221):
a thrown `acl.insert` is swallowed inside `ensureCalendarIsShared`, and
the per-calendar pacing delay sits outside that try, in the loop body,
so it is emitted whether or not the insert throws. -/
def shareStepF (cfg : Config) (fails : Nat → Bool)
    (acc : GState × Nat × List Action) (c : Cal) : GState × Nat × List Action :=
  match acc.1.calendars.find? (fun x => x.id == c.id) with
  | none => (acc.1, acc.2.1, acc.2.2 ++ [Action.sleep 200])
  | some sc =>
      if sc.shared.contains cfg.shareEmail then
        (acc.1, acc.2.1, acc.2.2 ++ [Action.sleep 200])
      else if fails acc.2.1 then
        (acc.1, acc.2.1 + 1,
         acc.2.2 ++ [Action.aclInsert c.id cfg.shareEmail, Action.sleep 200])
      else
        ({ acc.1 with
            calendars := acc.1.calendars.map (fun x =>
              if x.id == c.id then { x with shared := x.shared ++ [cfg.shareEmail] }
              else x) },
         acc.2.1 + 1,
         acc.2.2 ++ [Action.aclInsert c.id cfg.shareEmail, Action.sleep 200])

/-- Failure-aware diff step (src/index.js lines 238-302): each of the
delete, update and insert calls sits in its own try with `delay(200)`
inside the try after the awaited call, so a thrown call leaves the sink
unchanged and skips its delay; after a move-delete the code always
clears `existingGEvent` and proceeds to the insert. -/
def syncTaskStepF (cfg : Config) (projects : List Project) (gcals : List Cal)
    (index : List (String × GEvent)) (fails : Nat → Bool)
    (acc : GState × Nat × List Action) (t : Task) : GState × Nat × List Action :=
  match resolveProject projects t with
  | none => acc
  | some proj =>
    match gcals.find? (fun c => c.summary == calName cfg proj.title) with
    | none => acc
    | some targetGCal =>
      let payload := buildGoogleEvent cfg t
      match mapGet index (taskKey t) with
      | some e =>
          let needsMove := e.calendarId != targetGCal.id
          if needsMove || decide (e.updated < t.updated_at)
              || e.transparency != "opaque" then
            if needsMove then
              let afterDel : GState × Nat × List Action :=
                if fails acc.2.1 then
                  (acc.1, acc.2.1 + 1,
                   acc.2.2 ++ [Action.deleteEvent e.calendarId e.id])
                else
                  (applyDeleteEvent acc.1 e.calendarId e.id, acc.2.1 + 1,
                   acc.2.2 ++ [Action.deleteEvent e.calendarId e.id,
                               Action.sleep 200])
              if fails afterDel.2.1 then
                (afterDel.1, afterDel.2.1 + 1,
                 afterDel.2.2 ++ [Action.insertEvent targetGCal.id payload])
              else
                (applyInsertEvent afterDel.1 targetGCal.id payload,
                 afterDel.2.1 + 1,
                 afterDel.2.2 ++ [Action.insertEvent targetGCal.id payload,
                                  Action.sleep 200])
            else
              if fails acc.2.1 then
                (acc.1, acc.2.1 + 1,
                 acc.2.2 ++ [Action.updateEvent e.calendarId e.id payload])
              else
                (applyUpdateEvent acc.1 e.calendarId e.id payload, acc.2.1 + 1,
                 acc.2.2 ++ [Action.updateEvent e.calendarId e.id payload,
                             Action.sleep 200])
          else acc
      | none =>
          if fails acc.2.1 then
            (acc.1, acc.2.1 + 1,
             acc.2.2 ++ [Action.insertEvent targetGCal.id payload])
          else
            (applyInsertEvent acc.1 targetGCal.id payload, acc.2.1 + 1,
             acc.2.2 ++ [Action.insertEvent targetGCal.id payload,
                         Action.sleep 200])

/-- Failure-aware cleanup step (src/index.js lines 304-320): the delete
sits in a try with `delay(200)` inside it after the call, so a thrown
delete (including a tolerated 410) leaves the sink unchanged and skips
its delay. -/
def cleanupStepF (uncompleted : List Task) (fails : Nat → Bool)
    (acc : GState × Nat × List Action) (kv : String × GEvent) :
    GState × Nat × List Action :=
  if uncompleted.any (fun t => taskKey t == kv.1) then acc
  else if fails acc.2.1 then
    (acc.1, acc.2.1 + 1,
     acc.2.2 ++ [Action.deleteEvent kv.2.calendarId kv.2.id])
  else
    (applyDeleteEvent acc.1 kv.2.calendarId kv.2.id, acc.2.1 + 1,
     acc.2.2 ++ [Action.deleteEvent kv.2.calendarId kv.2.id,
                 Action.sleep 200])

/-- Failure-aware provisioning phase. -/
def cycleProvisionF (cfg : Config) (fails : Nat → Bool)
    (pResp : Except Unit (List Project)) (ok : Bool) (st0 : GState) :
    List Cal × GState × Nat × List Action :=
  (getVikunjaProjects pResp).foldl (ensureCalendarStepF cfg fails)
    (getManagedCalendars ok cfg st0, st0, 0, [])

/-- The in-memory managed-calendar list of a failure-aware cycle. -/
def cycleGcalsF (cfg : Config) (fails : Nat → Bool)
    (pResp : Except Unit (List Project)) (ok : Bool) (st0 : GState) :
    List Cal :=
  (cycleProvisionF cfg fails pResp ok st0).1

/-- Failure-aware sharing phase (the attempted-call counter is threaded
through the whole cycle). -/
def cycleShareF (cfg : Config) (fails : Nat → Bool)
    (pResp : Except Unit (List Project)) (ok : Bool) (st0 : GState) :
    GState × Nat × List Action :=
  (cycleGcalsF cfg fails pResp ok st0).foldl (shareStepF cfg fails)
    ((cycleProvisionF cfg fails pResp ok st0).2.1,
     (cycleProvisionF cfg fails pResp ok st0).2.2.1, [])

/-- Failure-aware indexing phase: listing events is a read, so it is the
same as the success-path indexing of the state the sharing phase left. -/
def cycleIndexedF (cfg : Config) (fails : Nat → Bool)
    (pResp : Except Unit (List Project)) (ok : Bool) (st0 : GState) :
    List (String × GEvent) × List Action :=
  indexEvents (cycleShareF cfg fails pResp ok st0).1
    (cycleGcalsF cfg fails pResp ok st0)

/-- Failure-aware diff phase. -/
def cycleDiffF (cfg : Config) (fails : Nat → Bool)
    (pResp : Except Unit (List Project)) (tResp : Except Unit (List Task))
    (ok : Bool) (st0 : GState) : GState × Nat × List Action :=
  (uncompletedTasks tResp).foldl
    (syncTaskStepF cfg (getVikunjaProjects pResp)
      (cycleGcalsF cfg fails pResp ok st0)
      (cycleIndexedF cfg fails pResp ok st0).1 fails)
    ((cycleShareF cfg fails pResp ok st0).1,
     (cycleShareF cfg fails pResp ok st0).2.1, [])

/-- Failure-aware cleanup phase. -/
def cycleCleanupF (cfg : Config) (fails : Nat → Bool)
    (pResp : Except Unit (List Project)) (tResp : Except Unit (List Task))
    (ok : Bool) (st0 : GState) : GState × Nat × List Action :=
  (cycleIndexedF cfg fails pResp ok st0).1.foldl
    (cleanupStepF (uncompletedTasks tResp) fails)
    ((cycleDiffF cfg fails pResp tResp ok st0).1,
     (cycleDiffF cfg fails pResp tResp ok st0).2.1, [])

/-- One full failure-aware sync cycle: like `runSync`, but every
mutating sink call throws exactly when the oracle says so, in which case
the sink is unchanged by that call and the pacing delay inside the same
try block is skipped (src/index.js lines 204-215, 238-302, 304-320). -/
def runSyncF (cfg : Config) (fails : Nat → Bool)
    (pResp : Except Unit (List Project)) (tResp : Except Unit (List Task))
    (ok : Bool) (st0 : GState) : GState × List Action :=
  ((cycleCleanupF cfg fails pResp tResp ok st0).1,
   (cycleProvisionF cfg fails pResp ok st0).2.2.2
     ++ (cycleShareF cfg fails pResp ok st0).2.2
     ++ (cycleIndexedF cfg fails pResp ok st0).2
     ++ (cycleDiffF cfg fails pResp tResp ok st0).2.2
     ++ (cycleCleanupF cfg fails pResp tResp ok st0).2.2)

/-- Example event under task identifier "8" in the example calendar. -/
def exEventK8 : GEvent :=
  ⟨0, 10, "a", "", 1, 2, "opaque", some "8", 5⟩

/-- Example sink state with two stale events under distinct task
identifiers in the example calendar. -/
def exStTwo : GState :=
  ⟨[exCal], [exEventK8, exEventDupB], 11, 2, 1000⟩

/-! ### Trace helper lemmas -/

lemma goodTrace_nil : goodTrace [] := by
  constructor <;> rfl

lemma paced_cons (a : Action) (rest : List Action) :
    paced (a :: rest) = ((!a.isMutating || nextIsSleep rest) && paced rest) :=
  rfl

lemma lastCalm_cons_cons (a b : Action) (r : List Action) :
    lastCalm (a :: b :: r) = lastCalm (b :: r) :=
  rfl

lemma goodTrace_append : ∀ {t1 t2 : List Action},
    goodTrace t1 → goodTrace t2 → goodTrace (t1 ++ t2) := by
  intro t1
  induction t1 with
  | nil => intro t2 h1 h2; simpa using h2
  | cons a t1 ih =>
    intro t2 h1 h2
    obtain ⟨hp, hl⟩ := h1
    cases t1 with
    | nil =>
      have ha : a.isMutating = false := by
        simpa [lastCalm] using hl
      constructor
      · rw [List.cons_append, List.nil_append, paced_cons, ha]
        simpa using h2.1
      · cases t2 with
        | nil => simpa [lastCalm] using hl
        | cons b t2 =>
          rw [List.cons_append, List.nil_append, lastCalm_cons_cons]
          exact h2.2
    | cons b t1' =>
      rw [paced_cons, Bool.and_eq_true] at hp
      have hl' : lastCalm (b :: t1') = true := hl
      have hrec := @ih t2 ⟨hp.2, hl'⟩ h2
      constructor
      · show paced (a :: ((b :: t1') ++ t2)) = true
        rw [paced_cons, Bool.and_eq_true]
        refine ⟨?_, hrec.1⟩
        have hh : nextIsSleep ((b :: t1') ++ t2) = nextIsSleep (b :: t1') := rfl
        rw [hh]
        exact hp.1
      · show lastCalm ((b :: t1') ++ t2) = true
        exact hrec.2

lemma trace_foldl_good {α β : Type} (f : β → α → β) (trOf : β → List Action)
    (h : ∀ acc x, ∃ c, trOf (f acc x) = trOf acc ++ c ∧ goodTrace c) :
    ∀ (l : List α) (acc : β), goodTrace (trOf acc) →
      goodTrace (trOf (l.foldl f acc)) := by
  intro l
  induction l with
  | nil => intro acc h0; simpa using h0
  | cons x l ih =>
    intro acc h0
    obtain ⟨c, hc, hg⟩ := h acc x
    rw [List.foldl_cons]
    exact ih (f acc x) (by rw [hc]; exact goodTrace_append h0 hg)

lemma ensureCalendarStep_trace (cfg : Config) (acc : List Cal × GState × List Action)
    (p : Project) :
    ∃ c, (ensureCalendarStep cfg acc p).2.2 = acc.2.2 ++ c ∧ goodTrace c := by
  cases h : acc.1.find? (fun c => c.summary == calName cfg p.title) with
  | some c0 =>
    exact ⟨[], by simp [ensureCalendarStep, h], goodTrace_nil⟩
  | none =>
    refine ⟨[Action.createCalendar (calName cfg p.title), Action.sleep 200],
      by simp [ensureCalendarStep, h], ?_⟩
    constructor <;> rfl

lemma shareStep_trace (cfg : Config) (acc : GState × List Action) (c : Cal) :
    ∃ ch, (shareStep cfg acc c).2 = acc.2 ++ ch ∧ goodTrace ch := by
  cases h : acc.1.calendars.find? (fun x => x.id == c.id) with
  | none =>
    refine ⟨[Action.sleep 200], by simp [shareStep, ensureCalendarIsShared, h], ?_⟩
    constructor <;> rfl
  | some sc =>
    by_cases hs : cfg.shareEmail ∈ sc.shared
    · refine ⟨[Action.sleep 200],
        by simp [shareStep, ensureCalendarIsShared, h, hs], ?_⟩
      constructor <;> rfl
    · refine ⟨[Action.aclInsert c.id cfg.shareEmail, Action.sleep 200],
        by simp [shareStep, ensureCalendarIsShared, h, hs], ?_⟩
      constructor <;> rfl

lemma indexCalendarStep_trace (st : GState)
    (acc : List (String × GEvent) × List Action) (c : Cal) :
    ∃ ch, (indexCalendarStep st acc c).2 = acc.2 ++ ch ∧ goodTrace ch := by
  refine ⟨[Action.sleep 200], by simp [indexCalendarStep], ?_⟩
  constructor <;> rfl

lemma syncTaskStep_trace (cfg : Config) (projects : List Project)
    (gcals : List Cal) (index : List (String × GEvent))
    (acc : GState × List Action) (t : Task) :
    ∃ ch, (syncTaskStep cfg projects gcals index acc t).2 = acc.2 ++ ch ∧
      goodTrace ch := by
  cases hr : resolveProject projects t with
  | none => exact ⟨[], by simp [syncTaskStep, hr], goodTrace_nil⟩
  | some proj =>
    cases hf : gcals.find? (fun c => c.summary == calName cfg proj.title) with
    | none => exact ⟨[], by simp [syncTaskStep, hr, hf], goodTrace_nil⟩
    | some g =>
      cases hm : mapGet index (taskKey t) with
      | none =>
        refine ⟨[Action.insertEvent g.id (buildGoogleEvent cfg t), Action.sleep 200],
          by simp [syncTaskStep, hr, hf, hm], ?_⟩
        constructor <;> rfl
      | some e =>
        by_cases hmv : (e.calendarId != g.id) = true
        · refine ⟨[Action.deleteEvent e.calendarId e.id, Action.sleep 200,
            Action.insertEvent g.id (buildGoogleEvent cfg t), Action.sleep 200],
            by simp [syncTaskStep, hr, hf, hm, hmv], ?_⟩
          constructor <;> rfl
        · have hmv' : (e.calendarId != g.id) = false := by
            simpa using hmv
          by_cases hc : (decide (e.updated < t.updated_at)
              || e.transparency != "opaque") = true
          · refine ⟨[Action.updateEvent e.calendarId e.id (buildGoogleEvent cfg t),
              Action.sleep 200],
              by simp [syncTaskStep, hr, hf, hm, hmv', hc], ?_⟩
            constructor <;> rfl
          · have hc' : (decide (e.updated < t.updated_at)
                || e.transparency != "opaque") = false := by
              simpa using hc
            exact ⟨[], by simp [syncTaskStep, hr, hf, hm, hmv', hc'], goodTrace_nil⟩

lemma cleanupStep_trace (u : List Task) (acc : GState × List Action)
    (kv : String × GEvent) :
    ∃ ch, (cleanupStep u acc kv).2 = acc.2 ++ ch ∧ goodTrace ch := by
  by_cases h : (u.any fun t => taskKey t == kv.1) = true
  · exact ⟨[], by simp [cleanupStep, h], goodTrace_nil⟩
  · have h' : (u.any fun t => taskKey t == kv.1) = false := by simpa using h
    refine ⟨[Action.deleteEvent kv.2.calendarId kv.2.id, Action.sleep 200],
      by simp [cleanupStep, h'], ?_⟩
    constructor <;> rfl

lemma reconcileCalendars_trace_good (cfg : Config) (ps : List Project)
    (gcals : List Cal) (st : GState) :
    goodTrace (reconcileCalendars cfg ps gcals st).2.2 :=
  trace_foldl_good (ensureCalendarStep cfg) (fun acc => acc.2.2)
    (fun acc p => ensureCalendarStep_trace cfg acc p) ps (gcals, st, []) goodTrace_nil

lemma shareCalendars_trace_good (cfg : Config) (gcals : List Cal) (st : GState) :
    goodTrace (shareCalendars cfg gcals st).2 :=
  trace_foldl_good (shareStep cfg) (fun acc => acc.2)
    (fun acc c => shareStep_trace cfg acc c) gcals (st, []) goodTrace_nil

lemma indexEvents_trace_good (st : GState) (gcals : List Cal) :
    goodTrace (indexEvents st gcals).2 :=
  trace_foldl_good (indexCalendarStep st) (fun acc => acc.2)
    (fun acc c => indexCalendarStep_trace st acc c) gcals ([], []) goodTrace_nil

lemma syncTasks_trace_good (cfg : Config) (projects : List Project)
    (gcals : List Cal) (index : List (String × GEvent)) (tasks : List Task)
    (st : GState) :
    goodTrace (syncTasks cfg projects gcals index tasks st).2 :=
  trace_foldl_good (syncTaskStep cfg projects gcals index) (fun acc => acc.2)
    (fun acc t => syncTaskStep_trace cfg projects gcals index acc t)
    tasks (st, []) goodTrace_nil

lemma cleanupEvents_trace_good (u : List Task) (index : List (String × GEvent))
    (st : GState) :
    goodTrace (cleanupEvents u index st).2 :=
  trace_foldl_good (cleanupStep u) (fun acc => acc.2)
    (fun acc kv => cleanupStep_trace u acc kv) index (st, []) goodTrace_nil

/-- Success-path pacing: in the trace of the success-path cycle model,
every mutating call to the calendar sink (create calendar, share
calendar via ACL insert, create event, update event, delete event) is
immediately followed by the fixed 200 ms pacing delay, before any
further mutating call; this holds for every input of the cycle. -/
theorem runSync_trace_paced (cfg : Config) (pResp : Except Unit (List Project))
    (tResp : Except Unit (List Task)) (ok : Bool) (st0 : GState) :
    paced (runSync cfg pResp tResp ok st0).2 = true := by
  have h1 : goodTrace (cycleProvision cfg pResp ok st0).2.2 :=
    reconcileCalendars_trace_good _ _ _ _
  have h2 : goodTrace (cycleShare cfg pResp ok st0).2 :=
    shareCalendars_trace_good _ _ _
  have h3 : goodTrace (cycleIndexed cfg pResp ok st0).2 :=
    indexEvents_trace_good _ _
  have h4 : goodTrace (cycleDiff cfg pResp tResp ok st0).2 :=
    syncTasks_trace_good _ _ _ _ _ _
  have h5 : goodTrace (cycleCleanup cfg pResp tResp ok st0).2 :=
    cleanupEvents_trace_good _ _ _
  exact (goodTrace_append (goodTrace_append (goodTrace_append
    (goodTrace_append h1 h2) h3) h4) h5).1

/-! ### Claim C6: the event payload -/

/-- Claim C6: the event payload built from a task is a deterministic
function of the task: summary is the task title; description is the task
description (empty string when absent) concatenated with the deep-link
URL back to the task; the start date is the due date and the end date is
the due date plus exactly one day (exclusive all-day end); the private
extended property carries the task identifier as a string; and the
transparency is "opaque". -/
theorem buildGoogleEvent_spec (cfg : Config) (t : Task) (d : Nat)
    (hd : t.due_date = some d) :
    (buildGoogleEvent cfg t).summary = t.title ∧
    (buildGoogleEvent cfg t).description =
      t.description.getD "" ++ "\n\nView in Vikunja: "
        ++ (cfg.frontendUrl ++ "/projects/" ++ toString t.project_id
            ++ "/tasks/" ++ toString t.id) ∧
    (buildGoogleEvent cfg t).startDate = d ∧
    (buildGoogleEvent cfg t).endDate = d + 1 ∧
    (buildGoogleEvent cfg t).vikunjaTaskId = toString t.id ∧
    (buildGoogleEvent cfg t).transparency = "opaque" := by
  simp [buildGoogleEvent, hd]

/-! ### Claim C2: the diff decision -/

/-- Claim C2: for an uncompleted task whose project and target calendar
resolve, the diff step decides by exactly this precedence: no indexed
event means a create in the target calendar; an indexed event in a
different calendar means delete the stale event then create fresh in the
target calendar (delete plus create, no atomic move); an indexed event in
the target calendar that is stale (task last-modified strictly later,
UTC-compared, or transparency not "opaque") means update in place; and
otherwise no mutating call is made for that task. -/
theorem syncTaskStep_decision (cfg : Config) (projects : List Project)
    (gcals : List Cal) (index : List (String × GEvent)) (st : GState)
    (tr : List Action) (t : Task) (p : Project) (g : Cal)
    (hp : resolveProject projects t = some p)
    (hg : gcals.find? (fun c => c.summary == calName cfg p.title) = some g) :
    (mapGet index (taskKey t) = none →
      syncTaskStep cfg projects gcals index (st, tr) t =
        (applyInsertEvent st g.id (buildGoogleEvent cfg t),
         tr ++ [Action.insertEvent g.id (buildGoogleEvent cfg t),
                Action.sleep 200])) ∧
    (∀ e, mapGet index (taskKey t) = some e → e.calendarId ≠ g.id →
      syncTaskStep cfg projects gcals index (st, tr) t =
        (applyInsertEvent (applyDeleteEvent st e.calendarId e.id) g.id
           (buildGoogleEvent cfg t),
         tr ++ [Action.deleteEvent e.calendarId e.id, Action.sleep 200,
                Action.insertEvent g.id (buildGoogleEvent cfg t),
                Action.sleep 200])) ∧
    (∀ e, mapGet index (taskKey t) = some e → e.calendarId = g.id →
      (e.updated < t.updated_at ∨ e.transparency ≠ "opaque") →
      syncTaskStep cfg projects gcals index (st, tr) t =
        (applyUpdateEvent st e.calendarId e.id (buildGoogleEvent cfg t),
         tr ++ [Action.updateEvent e.calendarId e.id (buildGoogleEvent cfg t),
                Action.sleep 200])) ∧
    (∀ e, mapGet index (taskKey t) = some e → e.calendarId = g.id →
      ¬ e.updated < t.updated_at → e.transparency = "opaque" →
      syncTaskStep cfg projects gcals index (st, tr) t = (st, tr)) := by
  refine ⟨?_, ?_, ?_, ?_⟩
  · intro h
    simp [syncTaskStep, hp, hg, h]
  · intro e he hne
    have h1 : (e.calendarId != g.id) = true := by
      simpa [bne_iff_ne] using hne
    simp [syncTaskStep, hp, hg, he, h1]
  · intro e he hcal hst
    have h1 : (e.calendarId != g.id) = false := by
      simp [hcal]
    rcases hst with h2 | h2
    · simp [syncTaskStep, hp, hg, he, h1, h2]
    · have h3 : (e.transparency != "opaque") = true := by
        simpa [bne_iff_ne] using h2
      simp [syncTaskStep, hp, hg, he, h1, h3]
  · intro e he hcal hnl htr
    have h1 : (e.calendarId != g.id) = false := by
      simp [hcal]
    have h2 : decide (e.updated < t.updated_at) = false := by
      simpa using hnl
    have h3 : (e.transparency != "opaque") = false := by
      simp [htr]
    simp [syncTaskStep, hp, hg, he, h1, h2, h3]

/-- Witness for C2: the create case at the example task against the
already-provisioned example calendar, with an empty index. -/
theorem syncTaskStep_decision_witness :
    resolveProject [exProj] exTask = some exProj ∧
    [exCal].find? (fun c => c.summary == calName exCfg exProj.title) = some exCal ∧
    mapGet [] (taskKey exTask) = none ∧
    syncTaskStep exCfg [exProj] [exCal] [] (exStCal, []) exTask =
      (applyInsertEvent exStCal exCal.id (buildGoogleEvent exCfg exTask),
       [Action.insertEvent exCal.id (buildGoogleEvent exCfg exTask),
        Action.sleep 200]) := by
  refine ⟨by decide, by decide, by decide, ?_⟩
  have h := (syncTaskStep_decision exCfg [exProj] [exCal] [] exStCal [] exTask
    exProj exCal (by decide) (by decide)).1 (by decide)
  simpa using h

/-! ### Claim C5: the staleness threshold -/

/-- Claim C5 as amended: for an uncompleted task with an indexed event in
the correct target calendar, the event is updated if and only if the task
last-modified timestamp is strictly later than the event timestamp OR the
event transparency flag is not "opaque"; when the two timestamps are
equal and the transparency is "opaque", no mutating call is made. (The
claim as frozen omitted the transparency disjunct; the counterexample
`syncTaskStep_update_despite_equal_timestamps` shows an update issued
with equal timestamps when the transparency is not "opaque".) -/
theorem syncTaskStep_update_iff (cfg : Config) (projects : List Project)
    (gcals : List Cal) (index : List (String × GEvent)) (st : GState)
    (tr : List Action) (t : Task) (p : Project) (g : Cal) (e : GEvent)
    (hp : resolveProject projects t = some p)
    (hg : gcals.find? (fun c => c.summary == calName cfg p.title) = some g)
    (he : mapGet index (taskKey t) = some e)
    (hcal : e.calendarId = g.id) :
    ((syncTaskStep cfg projects gcals index (st, tr) t).2 =
       tr ++ [Action.updateEvent e.calendarId e.id (buildGoogleEvent cfg t),
              Action.sleep 200]
     ↔ (e.updated < t.updated_at ∨ e.transparency ≠ "opaque")) ∧
    (t.updated_at = e.updated → e.transparency = "opaque" →
      syncTaskStep cfg projects gcals index (st, tr) t = (st, tr)) := by
  have hdec := syncTaskStep_decision cfg projects gcals index st tr t p g hp hg
  constructor
  · constructor
    · intro htrace
      by_contra hnot
      push_neg at hnot
      have hstep := hdec.2.2.2 e he hcal (by
        intro hlt
        exact absurd hlt (by simpa using hnot.1)) hnot.2
      rw [hstep] at htrace
      have : tr.length = (tr ++ [Action.updateEvent e.calendarId e.id
          (buildGoogleEvent cfg t), Action.sleep 200]).length := by
        exact congrArg List.length htrace
      simp at this
    · intro hst
      have hstep := hdec.2.2.1 e he hcal hst
      rw [hstep]
  · intro heq htr
    exact hdec.2.2.2 e he hcal (by omega) htr

/-- Witness for C5 (amended) at a concrete no-op instance: equal
timestamps and "opaque" transparency produce no mutating call. -/
theorem syncTaskStep_update_iff_witness :
    let e : GEvent := ⟨5, 10, "s", "d", 1, 2, "opaque", some "42", 100⟩
    syncTaskStep exCfg [exProj] [exCal] [("42", e)] (exStCal, []) exTask =
      (exStCal, []) := by
  intro e
  exact (syncTaskStep_update_iff exCfg [exProj] [exCal] [("42", e)] exStCal []
    exTask exProj exCal e (by decide) (by decide) (by decide) (by decide)).2
    (by decide) (by decide)

/-- Counterexample to C5 as frozen: with equal task and event timestamps
but a non-"opaque" transparency flag, the diff step does issue an update
call, so "updated if and only if strictly later; equal timestamps imply
no update call" is false on the code. -/
theorem syncTaskStep_update_despite_equal_timestamps :
    (syncTaskStep exCfg [exProj] [exCal] [("42", exEventTransparent)]
       (exStCal, []) exTask).2 =
      [Action.updateEvent 10 5 (buildGoogleEvent exCfg exTask),
       Action.sleep 200] ∧
    ¬ exEventTransparent.updated < exTask.updated_at := by
  constructor
  · rfl
  · decide

/-! ### Claim C3: the cleanup pass -/

lemma cleanup_trace_eq : ∀ (index : List (String × GEvent)) (u : List Task)
    (st : GState) (tr : List Action),
    (index.foldl (cleanupStep u) (st, tr)).2 =
      tr ++ (index.filter
          (fun kv => !(u.any (fun t => taskKey t == kv.1)))).flatMap
        (fun kv => [Action.deleteEvent kv.2.calendarId kv.2.id,
                    Action.sleep 200]) := by
  intro index
  induction index with
  | nil => intro u st tr; simp
  | cons kv rest ih =>
    intro u st tr
    rw [List.foldl_cons, List.filter_cons]
    by_cases h : (u.any fun t => taskKey t == kv.1) = true
    · simp only [cleanupStep, h, if_pos, Bool.not_true, Bool.false_eq_true,
        if_false, ih]
    · have h' : (u.any fun t => taskKey t == kv.1) = false := by simpa using h
      simp only [cleanupStep, h', Bool.false_eq_true, if_false, Bool.not_false,
        if_true, ih]
      simp [List.append_assoc]

/-- Claim C3: the cleanup pass issues a delete for exactly those indexed
events whose task identifier is not among the uncompleted tasks (deleted,
completed, or no longer due); it emits no event-create call, so it never
recreates them, and it is the final phase of the cycle; and a 410
("already gone") response to a delete is treated as success, not logged
as an error. -/
theorem cleanup_deletes_exactly (u : List Task) (index : List (String × GEvent))
    (st : GState) (cfg : Config) (pResp : Except Unit (List Project))
    (tResp : Except Unit (List Task)) (ok : Bool) (st0 : GState) :
    (cleanupEvents u index st).2 =
      (index.filter
          (fun kv => !(u.any (fun t => taskKey t == kv.1)))).flatMap
        (fun kv => [Action.deleteEvent kv.2.calendarId kv.2.id,
                    Action.sleep 200]) ∧
    (∀ a ∈ (cleanupEvents u index st).2, ∀ cid pl,
      a ≠ Action.insertEvent cid pl) ∧
    deleteErrorLogged 410 = false ∧
    (runSync cfg pResp tResp ok st0).2 =
      ((cycleProvision cfg pResp ok st0).2.2 ++ (cycleShare cfg pResp ok st0).2
        ++ (cycleIndexed cfg pResp ok st0).2 ++ (cycleDiff cfg pResp tResp ok st0).2)
      ++ (cycleCleanup cfg pResp tResp ok st0).2 := by
  have htr : (cleanupEvents u index st).2 =
      (index.filter
          (fun kv => !(u.any (fun t => taskKey t == kv.1)))).flatMap
        (fun kv => [Action.deleteEvent kv.2.calendarId kv.2.id,
                    Action.sleep 200]) := by
    simpa using cleanup_trace_eq index u st []
  refine ⟨htr, ?_, rfl, rfl⟩
  intro a ha cid pl
  rw [htr] at ha
  rw [List.mem_flatMap] at ha
  obtain ⟨kv, _, hmem⟩ := ha
  simp only [List.mem_cons, List.not_mem_nil, or_false] at hmem
  rcases hmem with h | h <;> simp [h]

/-! ### Claim C8: fail-soft reads -/

/-- Claim C8: when listing projects, tasks, or calendars fails with a
transport error, the listing function returns the empty list instead of
propagating the error, and the remaining phases run on that empty data;
in particular a failed tasks fetch yields an empty uncompleted-task set,
under which the cleanup pass issues a delete for every event in the
index. -/
theorem fail_soft_reads (cfg : Config) (st : GState)
    (pResp : Except Unit (List Project)) (st0 : GState) :
    getVikunjaProjects (Except.error ()) = [] ∧
    getVikunjaTasks (Except.error ()) = [] ∧
    getManagedCalendars false cfg st = [] ∧
    uncompletedTasks (Except.error ()) = [] ∧
    (∀ kv ∈ cycleIndex cfg pResp true st0,
      Action.deleteEvent kv.2.calendarId kv.2.id
        ∈ (runSync cfg pResp (Except.error ()) true st0).2) := by
  refine ⟨rfl, rfl, rfl, rfl, ?_⟩
  intro kv hkv
  have htr : (cycleCleanup cfg pResp (Except.error ()) true st0).2 =
      (cycleIndex cfg pResp true st0).flatMap
        (fun kv => [Action.deleteEvent kv.2.calendarId kv.2.id,
                    Action.sleep 200]) := by
    have h := cleanup_trace_eq (cycleIndex cfg pResp true st0)
      (uncompletedTasks (Except.error ()))
      (cycleDiff cfg pResp (Except.error ()) true st0).1 []
    have hu : uncompletedTasks (Except.error ()) = [] := rfl
    rw [hu] at h
    simpa [cycleCleanup, cleanupEvents, hu] using h
  have hmem : Action.deleteEvent kv.2.calendarId kv.2.id
      ∈ (cycleCleanup cfg pResp (Except.error ()) true st0).2 := by
    rw [htr, List.mem_flatMap]
    exact ⟨kv, hkv, by simp⟩
  show Action.deleteEvent kv.2.calendarId kv.2.id
      ∈ (cycleProvision cfg pResp true st0).2.2
        ++ (cycleShare cfg pResp true st0).2
        ++ (cycleIndexed cfg pResp true st0).2
        ++ (cycleDiff cfg pResp (Except.error ()) true st0).2
        ++ (cycleCleanup cfg pResp (Except.error ()) true st0).2
  exact List.mem_append_right _ hmem

/-- Witness for C8 at a concrete state with one indexed event and a
failing tasks fetch: the delete for that event is emitted. -/
theorem fail_soft_reads_witness :
    ("9", exEventDupB) ∈ cycleIndex exCfg (Except.ok []) true exStDup ∧
    Action.deleteEvent 10 1
      ∈ (runSync exCfg (Except.ok []) (Except.error ()) true exStDup).2 := by
  refine ⟨by decide, ?_⟩
  have h := (fail_soft_reads exCfg exSt0 (Except.ok []) exStDup).2.2.2.2
    ("9", exEventDupB) (by decide)
  simpa using h

/-- Witness for C6 at the example task (due day 5). -/
theorem buildGoogleEvent_spec_witness :
    exTask.due_date = some 5 ∧
    ((buildGoogleEvent exCfg exTask).summary = exTask.title ∧
     (buildGoogleEvent exCfg exTask).description =
       exTask.description.getD "" ++ "\n\nView in Vikunja: "
         ++ (exCfg.frontendUrl ++ "/projects/" ++ toString exTask.project_id
             ++ "/tasks/" ++ toString exTask.id) ∧
     (buildGoogleEvent exCfg exTask).startDate = 5 ∧
     (buildGoogleEvent exCfg exTask).endDate = 5 + 1 ∧
     (buildGoogleEvent exCfg exTask).vikunjaTaskId = toString exTask.id ∧
     (buildGoogleEvent exCfg exTask).transparency = "opaque") :=
  ⟨rfl, buildGoogleEvent_spec exCfg exTask 5 rfl⟩

/-! ### Basic helper lemmas -/

lemma jsStartsWith_append (s1 s2 : String) : jsStartsWith (s1 ++ s2) s1 = true := by
  rw [jsStartsWith, List.isPrefixOf_iff_prefix]
  show s1.data <+: (s1 ++ s2).data
  rw [String.data_append]
  exact List.prefix_append _ _

lemma calName_startsWith (cfg : Config) (ti : String) :
    jsStartsWith (calName cfg ti) cfg.pfx = true := by
  rw [calName, jsStartsWith, List.isPrefixOf_iff_prefix]
  show cfg.pfx.data <+: (cfg.pfx ++ " " ++ ti).data
  rw [String.data_append, String.data_append, List.append_assoc]
  exact List.prefix_append _ _

lemma eq_singleton_of_mem_of_length_le_one {α : Type} {l : List α} {e : α}
    (he : e ∈ l) (hl : l.length ≤ 1) : l = [e] := by
  cases l with
  | nil => cases he
  | cons a tl =>
    cases tl with
    | nil =>
      simp only [List.mem_singleton] at he
      subst he
      rfl
    | cons b tl2 => simp at hl

lemma filter_map_congr {α : Type} (q : α → Bool) (f : α → α) (l : List α)
    (h : ∀ x ∈ l, f x = x ∨ (q x = false ∧ q (f x) = false)) :
    (l.map f).filter q = l.filter q := by
  induction l with
  | nil => rfl
  | cons a tl ih =>
    have ha := h a (by simp)
    have htl : ∀ x ∈ tl, f x = x ∨ (q x = false ∧ q (f x) = false) :=
      fun x hx => h x (by simp [hx])
    rcases ha with ha | ⟨ha1, ha2⟩
    · simp only [List.map_cons, List.filter_cons, ha, ih htl]
    · simp only [List.map_cons, List.filter_cons, ha1, ha2, ih htl,
        Bool.false_eq_true, if_false]

lemma find?_cons_pos {α : Type} (p : α → Bool) (a : α) (l : List α)
    (h : p a = true) : List.find? p (a :: l) = some a :=
  List.find?_cons_of_pos l h

lemma find?_cons_neg {α : Type} (p : α → Bool) (a : α) (l : List α)
    (h : p a = false) : List.find? p (a :: l) = List.find? p l :=
  List.find?_cons_of_neg l (by simp [h])

lemma filter_map_singleton {α : Type} (q : α → Bool) (f : α → α) (l : List α)
    (e : α) (hl : l.filter q = [e]) (hother : ∀ x ∈ l, x ≠ e → f x = x)
    (hfe : q (f e) = true) : (l.map f).filter q = [f e] := by
  induction l with
  | nil => simp at hl
  | cons a tl ih =>
    by_cases hq : q a = true
    · rw [List.filter_cons_of_pos hq] at hl
      injection hl with hae htl
      subst hae
      rw [List.map_cons, List.filter_cons_of_pos hfe]
      congr 1
      rw [List.filter_eq_nil_iff]
      intro x hx
      obtain ⟨y, hy, hyx⟩ := List.mem_map.mp hx
      have hyq : ¬ q y = true := (List.filter_eq_nil_iff.mp htl) y hy
      by_cases hye : y = a
      · subst hye
        exact absurd hq hyq
      · rw [← hyx, hother y (List.mem_cons_of_mem a hy) hye]
        exact hyq
    · have hq' : q a = false := by simpa using hq
      rw [List.filter_cons_of_neg (by simp [hq'])] at hl
      have hae : a ≠ e := by
        intro hc
        subst hc
        have hmem : a ∈ tl.filter q := by rw [hl]; simp
        exact hq (List.mem_filter.mp hmem).2
      rw [List.map_cons, hother a (by simp) hae,
        List.filter_cons_of_neg (by simp [hq'])]
      exact ih hl (fun x hx => hother x (List.mem_cons_of_mem a hx))

lemma filter_filter_of_keep {α : Type} (q d : α → Bool) (l : List α)
    (h : ∀ x ∈ l, q x = true → d x = true) :
    (l.filter d).filter q = l.filter q := by
  rw [List.filter_filter]
  apply List.filter_congr
  intro x hx
  by_cases hq : q x = true
  · simp [hq, h x hx hq]
  · have : q x = false := by simpa using hq
    simp [this]

lemma filter_filter_single_gone {α : Type} (q d : α → Bool) (l : List α)
    (e : α) (hl : l.filter q = [e]) (hde : d e = false) :
    (l.filter d).filter q = [] := by
  rw [List.filter_filter, List.filter_eq_nil_iff]
  intro x hx
  by_cases hq : q x = true
  · have hxe : x = e := by
      have hxm : x ∈ l.filter q := List.mem_filter.mpr ⟨hx, hq⟩
      rw [hl] at hxm
      simpa using hxm
    subst hxe
    simp [hq, hde]
  · have : q x = false := by simpa using hq
    simp [this]

lemma withCalId_self (e : GEvent) (cid : Nat) (h : e.calendarId = cid) :
    { e with calendarId := cid } = e := by
  cases e
  simp only at h
  subst h
  rfl

lemma mem_mapSet {m : List (String × GEvent)} {k : String} {v : GEvent}
    {kv : String × GEvent} (h : kv ∈ mapSet m k v) : kv ∈ m ∨ kv = (k, v) := by
  rw [mapSet] at h
  by_cases hany : (m.any fun kv => kv.1 == k) = true
  · rw [if_pos hany] at h
    obtain ⟨kv0, hkv0, hmap⟩ := List.mem_map.mp h
    by_cases hk : (kv0.1 == k) = true
    · rw [if_pos hk] at hmap
      exact Or.inr hmap.symm
    · rw [if_neg hk] at hmap
      exact Or.inl (hmap ▸ hkv0)
  · rw [if_neg hany] at h
    rcases List.mem_append.mp h with h | h
    · exact Or.inl h
    · exact Or.inr (by simpa using h)

lemma find?_mapSetMap (m : List (String × GEvent)) (k : String) (v : GEvent)
    (h : (m.any fun kv => kv.1 == k) = true) :
    ((m.map (fun kv => if kv.1 == k then (k, v) else kv)).find?
      (fun kv => kv.1 == k)) = some (k, v) := by
  induction m with
  | nil => simp at h
  | cons kv0 tl ih =>
    by_cases hk : (kv0.1 == k) = true
    · rw [List.map_cons, if_pos hk, List.find?_cons_of_pos]
      simp
    · rw [List.map_cons, if_neg hk, List.find?_cons_of_neg _ (by simpa using hk)]
      apply ih
      rw [List.any_cons] at h
      rcases Bool.or_eq_true_iff.mp h with h | h
      · exact absurd h hk
      · exact h

lemma find?_mapSetMap_other (m : List (String × GEvent)) (k k' : String)
    (v : GEvent) (hne : k' ≠ k) :
    ((m.map (fun kv => if kv.1 == k then (k, v) else kv)).find?
      (fun kv => kv.1 == k')) = m.find? (fun kv => kv.1 == k') := by
  induction m with
  | nil => rfl
  | cons kv0 tl ih =>
    by_cases hk : (kv0.1 == k) = true
    · have hk0 : kv0.1 = k := by simpa using hk
      have h1 : ((k, v).1 == k') = false := by
        rw [beq_eq_false_iff_ne]
        exact fun hc => hne hc.symm
      have h2 : (kv0.1 == k') = false := by
        rw [hk0, beq_eq_false_iff_ne]
        exact fun hc => hne hc.symm
      rw [List.map_cons, if_pos hk,
        find?_cons_neg (fun kv => kv.1 == k') (k, v)
          (List.map (fun kv => if kv.1 == k then (k, v) else kv) tl) h1,
        find?_cons_neg (fun kv => kv.1 == k') kv0 tl h2]
      exact ih
    · rw [List.map_cons, if_neg hk]
      by_cases hk' : (kv0.1 == k') = true
      · rw [find?_cons_pos (fun kv => kv.1 == k') kv0
            (List.map (fun kv => if kv.1 == k then (k, v) else kv) tl) hk',
          find?_cons_pos (fun kv => kv.1 == k') kv0 tl hk']
      · have hk'f : (kv0.1 == k') = false := by simpa using hk'
        rw [find?_cons_neg (fun kv => kv.1 == k') kv0
            (List.map (fun kv => if kv.1 == k then (k, v) else kv) tl) hk'f,
          find?_cons_neg (fun kv => kv.1 == k') kv0 tl hk'f]
        exact ih

lemma mapGet_mapSet_self (m : List (String × GEvent)) (k : String) (v : GEvent) :
    mapGet (mapSet m k v) k = some v := by
  rw [mapGet, mapSet]
  by_cases hany : (m.any fun kv => kv.1 == k) = true
  · rw [if_pos hany, find?_mapSetMap m k v hany]
    rfl
  · rw [if_neg hany, List.find?_append]
    have hnone : m.find? (fun kv => kv.1 == k) = none := by
      rw [List.find?_eq_none]
      exact List.any_eq_false.mp ((Bool.not_eq_true _) ▸ hany)
    rw [hnone]
    simp

lemma mapGet_mapSet_other (m : List (String × GEvent)) (k k' : String)
    (v : GEvent) (hne : k' ≠ k) :
    mapGet (mapSet m k v) k' = mapGet m k' := by
  rw [mapGet, mapSet]
  by_cases hany : (m.any fun kv => kv.1 == k) = true
  · rw [if_pos hany, find?_mapSetMap_other m k k' v hne]
    rfl
  · rw [if_neg hany, List.find?_append]
    have h1 : ([(k, v)].find? fun kv => kv.1 == k') = none := by
      rw [List.find?_eq_none]
      intro kv hkv
      simp only [List.mem_singleton] at hkv
      subst hkv
      rw [Bool.not_eq_true, beq_eq_false_iff_ne]
      exact fun hc => hne hc.symm
    rw [h1, Option.or_none]
    rfl

lemma mapGet_mapSet_isSome (m : List (String × GEvent)) (k k' : String)
    (v : GEvent) (h : (mapGet m k').isSome = true) :
    (mapGet (mapSet m k v) k').isSome = true := by
  by_cases hk : k' = k
  · subst hk
    rw [mapGet_mapSet_self]
    rfl
  · rw [mapGet_mapSet_other m k k' v hk]
    exact h

lemma mapGet_mem {m : List (String × GEvent)} {k : String} {e : GEvent}
    (h : mapGet m k = some e) : (k, e) ∈ m := by
  rw [mapGet] at h
  cases hf : m.find? fun kv => kv.1 == k with
  | none => rw [hf] at h; cases h
  | some kv =>
    rw [hf] at h
    have hm := List.mem_of_find?_eq_some hf
    have hp := List.find?_some hf
    have hk : kv.1 = k := by simpa using hp
    have he : kv.2 = e := by simpa using h
    have : kv = (k, e) := Prod.ext hk he
    exact this ▸ hm

/-! ### Index construction lemmas -/

lemma mem_eventsForKey_iff (cfg : Config) (st : GState) (k : String)
    (e : GEvent) :
    e ∈ eventsForKey cfg st k ↔
      e ∈ st.events ∧ e.vikunjaTaskId = some k ∧
        e.calendarId ∈ managedIds cfg st := by
  rw [eventsForKey, List.mem_filter, Bool.and_eq_true, beq_iff_eq]
  exact and_congr_right fun _ => and_congr_right fun _ => List.elem_iff

lemma registerEvent_entries (st : GState) (gcals : List Cal) (c : Cal)
    (hc : c ∈ gcals) :
    ∀ (evs : List GEvent) (m : List (String × GEvent)),
      (∀ e ∈ evs, e ∈ st.events ∧ e.calendarId = c.id) →
      (∀ kv ∈ m, indexEntryOk st gcals kv) →
      ∀ kv ∈ evs.foldl (registerEvent c.id) m, indexEntryOk st gcals kv := by
  intro evs
  induction evs with
  | nil => intro m _ hm kv hkv; exact hm kv hkv
  | cons e tl ih =>
    intro m hevs hm kv hkv
    rw [List.foldl_cons] at hkv
    refine ih (registerEvent c.id m e)
      (fun x hx => hevs x (List.mem_cons_of_mem e hx)) ?_ kv hkv
    intro kv' hkv'
    rw [registerEvent] at hkv'
    split at hkv'
    · rename_i vid heq
      rcases mem_mapSet hkv' with h | h
      · exact hm kv' h
      · subst h
        have he := hevs e (by simp)
        rw [withCalId_self e c.id he.2]
        exact ⟨he.1, heq, ⟨c, hc, he.2⟩⟩
    · exact hm kv' hkv' 

lemma index_fold_entries (st : GState) (gcals : List Cal) :
    ∀ (cs : List Cal), (∀ c ∈ cs, c ∈ gcals) →
    ∀ (acc : List (String × GEvent) × List Action),
      (∀ kv ∈ acc.1, indexEntryOk st gcals kv) →
      ∀ kv ∈ (cs.foldl (indexCalendarStep st) acc).1, indexEntryOk st gcals kv := by
  intro cs
  induction cs with
  | nil => intro _ acc hm kv hkv; exact hm kv hkv
  | cons c tl ih =>
    intro hcs acc hm kv hkv
    rw [List.foldl_cons] at hkv
    refine ih (fun x hx => hcs x (List.mem_cons_of_mem c hx)) _ ?_ kv hkv
    intro kv' hkv'
    refine registerEvent_entries st gcals c (hcs c (by simp))
      (getGoogleEvents st c.id) acc.1 ?_ hm kv' hkv'
    intro x hx
    rw [getGoogleEvents] at hx
    have := List.mem_filter.mp hx
    exact ⟨this.1, by simpa using this.2⟩

lemma indexEvents_entries (st : GState) (gcals : List Cal) :
    ∀ kv ∈ (indexEvents st gcals).1, indexEntryOk st gcals kv := by
  refine index_fold_entries st gcals gcals (fun c hc => hc) ([], []) ?_
  intro kv hkv
  cases hkv

lemma foldl_registerEvent_isSome (cid : Nat) :
    ∀ (evs : List GEvent) (m : List (String × GEvent)) (k : String),
      (mapGet m k).isSome = true →
      (mapGet (evs.foldl (registerEvent cid) m) k).isSome = true := by
  intro evs
  induction evs with
  | nil => intro m k h; exact h
  | cons e tl ih =>
    intro m k h
    rw [List.foldl_cons]
    refine ih _ k ?_
    rw [registerEvent]
    cases hkey : e.vikunjaTaskId with
    | none => exact h
    | some vid => exact mapGet_mapSet_isSome m vid k _ h

lemma foldl_registerEvent_sets (cid : Nat) :
    ∀ (evs : List GEvent) (m : List (String × GEvent)) (e : GEvent) (k : String),
      e ∈ evs → e.vikunjaTaskId = some k →
      (mapGet (evs.foldl (registerEvent cid) m) k).isSome = true := by
  intro evs
  induction evs with
  | nil => intro m e k he; cases he
  | cons a tl ih =>
    intro m e k he hk
    rw [List.foldl_cons]
    rcases List.mem_cons.mp he with he | he
    · subst he
      refine foldl_registerEvent_isSome cid tl _ k ?_
      rw [registerEvent, hk, mapGet_mapSet_self]
      rfl
    · exact ih _ e k he hk

lemma index_fold_isSome (st : GState) :
    ∀ (cs : List Cal) (acc : List (String × GEvent) × List Action) (k : String),
      (mapGet acc.1 k).isSome = true →
      (mapGet (cs.foldl (indexCalendarStep st) acc).1 k).isSome = true := by
  intro cs
  induction cs with
  | nil => intro acc k h; exact h
  | cons c tl ih =>
    intro acc k h
    rw [List.foldl_cons]
    exact ih _ k (foldl_registerEvent_isSome c.id _ acc.1 k h)

lemma index_complete (st : GState) (gcals : List Cal) (k : String) (e : GEvent)
    (c : Cal) (he : e ∈ st.events) (hk : e.vikunjaTaskId = some k)
    (hc : c ∈ gcals) (hcal : e.calendarId = c.id) :
    (mapGet (indexEvents st gcals).1 k).isSome = true := by
  rw [indexEvents]
  suffices h : ∀ (cs : List Cal) (acc : List (String × GEvent) × List Action),
      c ∈ cs → (mapGet (cs.foldl (indexCalendarStep st) acc).1 k).isSome = true by
    exact h gcals ([], []) hc
  intro cs
  induction cs with
  | nil => intro acc hcc; cases hcc
  | cons c0 tl ih =>
    intro acc hcc
    rw [List.foldl_cons]
    rcases List.mem_cons.mp hcc with hcc | hcc
    · subst hcc
      refine index_fold_isSome st tl _ k ?_
      show (mapGet ((getGoogleEvents st c.id).foldl (registerEvent c.id) acc.1) k).isSome = true
      refine foldl_registerEvent_sets c.id _ acc.1 e k ?_ hk
      rw [getGoogleEvents, List.mem_filter]
      exact ⟨he, by simpa using hcal⟩
    · exact ih _ hcc

lemma index_single_of_some (cfg : Config) (st : GState) (gcals : List Cal)
    (hms : managedIds cfg st = gcals.map Cal.id)
    (hamo : atMostOnePerKey cfg st) (k : String) (e : GEvent)
    (h : mapGet (indexEvents st gcals).1 k = some e) :
    eventsForKey cfg st k = [e] := by
  have hmem := mapGet_mem h
  have hok := indexEvents_entries st gcals (k, e) hmem
  obtain ⟨h1, h2, c, hc, h3⟩ := hok
  have hin : e ∈ eventsForKey cfg st k := by
    rw [mem_eventsForKey_iff]
    refine ⟨h1, h2, ?_⟩
    rw [hms, h3]
    exact List.mem_map.mpr ⟨c, hc, rfl⟩
  exact eq_singleton_of_mem_of_length_le_one hin (hamo k)

lemma index_empty_of_none (cfg : Config) (st : GState) (gcals : List Cal)
    (hms : managedIds cfg st = gcals.map Cal.id) (k : String)
    (h : mapGet (indexEvents st gcals).1 k = none) :
    eventsForKey cfg st k = [] := by
  by_contra hne
  cases hev : eventsForKey cfg st k with
  | nil => exact hne hev
  | cons e rest =>
    have hin : e ∈ eventsForKey cfg st k := by rw [hev]; simp
    rw [mem_eventsForKey_iff] at hin
    obtain ⟨h1, h2, h3⟩ := hin
    rw [hms] at h3
    obtain ⟨c, hc, hcid⟩ := List.mem_map.mp h3
    have := index_complete st gcals k e c h1 h2 hc hcid.symm
    rw [h] at this
    cases this

/-! ### Provisioning phase lemmas -/

lemma ensureCalendarStep_char (cfg : Config) (gcals0 : List Cal) (st0 : GState)
    (acc : List Cal × GState × List Action) (p : Project)
    (h : ∃ d, acc.1 = gcals0 ++ d ∧ provisionDelta cfg st0 acc.2.1 d) :
    ∃ d, (ensureCalendarStep cfg acc p).1 = gcals0 ++ d ∧
      provisionDelta cfg st0 (ensureCalendarStep cfg acc p).2.1 d := by
  obtain ⟨d, hg, hcal, hev, hnev, hnow, hle, hprops, hnd⟩ := h
  cases hf : acc.1.find? (fun c => c.summary == calName cfg p.title) with
  | some c0 =>
    have hstep : ensureCalendarStep cfg acc p = acc := by
      rw [ensureCalendarStep, hf]
    rw [hstep]
    exact ⟨d, hg, hcal, hev, hnev, hnow, hle, hprops, hnd⟩
  | none =>
    refine ⟨d ++ [⟨acc.2.1.nextCalId, calName cfg p.title, []⟩], ?_, ?_⟩
    · show (ensureCalendarStep cfg acc p).1 = gcals0 ++ (d ++ _)
      rw [ensureCalendarStep, hf]
      show acc.1 ++ [_] = _
      rw [hg, List.append_assoc]
      rfl
    · have hstep : (ensureCalendarStep cfg acc p).2.1 =
          { acc.2.1 with
            calendars := acc.2.1.calendars ++ [⟨acc.2.1.nextCalId, calName cfg p.title, []⟩],
            nextCalId := acc.2.1.nextCalId + 1 } := by
        rw [ensureCalendarStep, hf]
        rfl
      rw [hstep]
      refine ⟨?_, hev, hnev, hnow, ?_, ?_, ?_⟩
      · show acc.2.1.calendars ++ _ = st0.calendars ++ (d ++ _)
        rw [hcal, List.append_assoc]
      · exact Nat.le_succ_of_le hle
      · intro c hc
        rcases List.mem_append.mp hc with hc | hc
        · obtain ⟨h1, h2, h3, h4⟩ := hprops c hc
          exact ⟨h1, h2, h3, Nat.lt_succ_of_lt h4⟩
        · simp only [List.mem_singleton] at hc
          subst hc
          exact ⟨⟨p.title, rfl⟩, rfl, hle, Nat.lt_succ_self _⟩
      · rw [List.map_append, List.nodup_append]
        refine ⟨hnd, by simp, ?_⟩
        intro x hx
        simp only [List.map_cons, List.map_nil, List.mem_singleton]
        intro hx'
        obtain ⟨c, hc, hcx⟩ := List.mem_map.mp hx
        obtain ⟨_, _, _, h4⟩ := hprops c hc
        rw [← hcx] at hx'
        rw [hx'] at h4
        exact absurd h4 (lt_irrefl _)

lemma rc_fold_char (cfg : Config) (gcals0 : List Cal) (st0 : GState) :
    ∀ (ps : List Project) (acc : List Cal × GState × List Action),
      (∃ d, acc.1 = gcals0 ++ d ∧ provisionDelta cfg st0 acc.2.1 d) →
      ∃ d, (ps.foldl (ensureCalendarStep cfg) acc).1 = gcals0 ++ d ∧
        provisionDelta cfg st0 (ps.foldl (ensureCalendarStep cfg) acc).2.1 d := by
  intro ps
  induction ps with
  | nil => intro acc h; exact h
  | cons p tl ih =>
    intro acc h
    rw [List.foldl_cons]
    exact ih _ (ensureCalendarStep_char cfg gcals0 st0 acc p h)

lemma reconcileCalendars_char (cfg : Config) (ps : List Project)
    (gcals0 : List Cal) (st0 : GState) :
    ∃ d, (reconcileCalendars cfg ps gcals0 st0).1 = gcals0 ++ d ∧
      provisionDelta cfg st0 (reconcileCalendars cfg ps gcals0 st0).2.1 d := by
  refine rc_fold_char cfg gcals0 st0 ps (gcals0, st0, []) ?_
  exact ⟨[], by simp, by simp, rfl, rfl, rfl, Nat.le_refl _, by simp, by simp⟩

lemma rc_gcals_extend (cfg : Config) :
    ∀ (ps : List Project) (acc : List Cal × GState × List Action),
      ∃ d, (ps.foldl (ensureCalendarStep cfg) acc).1 = acc.1 ++ d := by
  intro ps
  induction ps with
  | nil => intro acc; exact ⟨[], by simp⟩
  | cons p tl ih =>
    intro acc
    rw [List.foldl_cons]
    obtain ⟨d, hd⟩ := ih (ensureCalendarStep cfg acc p)
    cases hf : acc.1.find? (fun c => c.summary == calName cfg p.title) with
    | some c0 =>
      refine ⟨d, ?_⟩
      rw [hd, ensureCalendarStep, hf]
    | none =>
      refine ⟨[⟨acc.2.1.nextCalId, calName cfg p.title, []⟩] ++ d, ?_⟩
      rw [hd, ensureCalendarStep, hf, ← List.append_assoc]
      rfl

lemma rc_covers (cfg : Config) :
    ∀ (ps : List Project) (acc : List Cal × GState × List Action) (p : Project),
      p ∈ ps →
      ∃ c ∈ (ps.foldl (ensureCalendarStep cfg) acc).1,
        c.summary = calName cfg p.title := by
  intro ps
  induction ps with
  | nil => intro acc p hp; cases hp
  | cons p0 tl ih =>
    intro acc p hp
    rw [List.foldl_cons]
    rcases List.mem_cons.mp hp with hp | hp
    · subst hp
      obtain ⟨d, hd⟩ := rc_gcals_extend cfg tl (ensureCalendarStep cfg acc p)
      cases hf : acc.1.find? (fun c => c.summary == calName cfg p.title) with
      | some c0 =>
        have hc0 : c0 ∈ acc.1 := List.mem_of_find?_eq_some hf
        have hsum : c0.summary = calName cfg p.title := by
          have := List.find?_some hf
          simpa using this
        refine ⟨c0, ?_, hsum⟩
        rw [hd]
        refine List.mem_append.mpr (Or.inl ?_)
        rw [ensureCalendarStep, hf]
        exact hc0
      | none =>
        refine ⟨(createGoogleCalendar cfg acc.2.1 p.title).1, ?_, rfl⟩
        rw [hd]
        refine List.mem_append.mpr (Or.inl ?_)
        rw [ensureCalendarStep, hf]
        exact List.mem_append.mpr (Or.inr (by simp))
    · exact ih _ p hp

lemma provisionDelta_WF (cfg : Config) {st0 st : GState} {d : List Cal}
    (hd : provisionDelta cfg st0 st d) (hwf : st0.WF) : st.WF := by
  obtain ⟨hcal, hev, hnev, hnow, hle, hprops, hnd⟩ := hd
  constructor
  · rw [hcal, List.map_append, List.nodup_append]
    refine ⟨hwf.calsNodup, hnd, ?_⟩
    intro x hx
    obtain ⟨c, hc, hcx⟩ := List.mem_map.mp hx
    intro hx'
    obtain ⟨c', hc', hcx'⟩ := List.mem_map.mp hx'
    obtain ⟨_, _, h3, _⟩ := hprops c' hc'
    have := hwf.calsLt c hc
    rw [hcx, ← hcx'] at this
    exact absurd (Nat.lt_of_lt_of_le this h3) (lt_irrefl _)
  · rw [hev]; exact hwf.eventsNodup
  · rw [hev, hnev]; exact hwf.eventsLt
  · intro c hc
    rw [hcal] at hc
    rcases List.mem_append.mp hc with hc | hc
    · exact Nat.lt_of_lt_of_le (hwf.calsLt c hc) hle
    · exact (hprops c hc).2.2.2
  · intro e he
    rw [hev] at he
    obtain ⟨c, hc, hcc⟩ := hwf.eventsCal e he
    exact ⟨c, by rw [hcal]; exact List.mem_append.mpr (Or.inl hc), hcc⟩

lemma provisionDelta_managed (cfg : Config) {st0 st : GState} {d : List Cal}
    (hd : provisionDelta cfg st0 st d) :
    managedCals cfg st = managedCals cfg st0 ++ d := by
  obtain ⟨hcal, _, _, _, _, hprops, _⟩ := hd
  rw [managedCals, hcal, List.filter_append, managedCals]
  congr 1
  rw [List.filter_eq_self]
  intro c hc
  obtain ⟨⟨ti, hti⟩, _, _, _⟩ := hprops c hc
  rw [hti]
  exact calName_startsWith cfg ti

/-! ### Sharing phase lemmas -/

lemma shareStep_calendars (cfg : Config) (acc : GState × List Action) (c : Cal) :
    ∃ g : Cal → Cal, (shareStep cfg acc c).1.calendars = acc.1.calendars.map g ∧
      (∀ x, (g x).id = x.id ∧ (g x).summary = x.summary ∧
        ∃ extra, (g x).shared = x.shared ++ extra) ∧
      (shareStep cfg acc c).1.events = acc.1.events ∧
      (shareStep cfg acc c).1.nextEventId = acc.1.nextEventId ∧
      (shareStep cfg acc c).1.nextCalId = acc.1.nextCalId ∧
      (shareStep cfg acc c).1.now = acc.1.now := by
  cases hf : acc.1.calendars.find? (fun x => x.id == c.id) with
  | none =>
    have hstep : (shareStep cfg acc c).1 = acc.1 := by
      rw [shareStep, ensureCalendarIsShared, hf]
    rw [hstep]
    exact ⟨id, by simp, fun x => ⟨rfl, rfl, [], by simp⟩, rfl, rfl, rfl, rfl⟩
  | some sc =>
    by_cases hs : cfg.shareEmail ∈ sc.shared
    · have hstep : (shareStep cfg acc c).1 = acc.1 := by
        rw [shareStep, ensureCalendarIsShared, hf]
        simp [hs]
      rw [hstep]
      exact ⟨id, by simp, fun x => ⟨rfl, rfl, [], by simp⟩, rfl, rfl, rfl, rfl⟩
    · have hstep : (shareStep cfg acc c).1 =
          { acc.1 with
            calendars := acc.1.calendars.map (fun x =>
              if x.id == c.id then { x with shared := x.shared ++ [cfg.shareEmail] }
              else x) } := by
        rw [shareStep, ensureCalendarIsShared, hf]
        simp [hs]
      rw [hstep]
      refine ⟨fun x => if x.id == c.id then { x with shared := x.shared ++ [cfg.shareEmail] }
        else x, rfl, ?_, rfl, rfl, rfl, rfl⟩
      intro x
      by_cases hx : (x.id == c.id) = true
      · exact ⟨by simp [hx], by simp [hx], [cfg.shareEmail], by simp [hx]⟩
      · have hx' : (x.id == c.id) = false := by simpa using hx
        exact ⟨by simp [hx'], by simp [hx'], [], by simp [hx']⟩

lemma share_fold_calendars (cfg : Config) :
    ∀ (cs : List Cal) (acc : GState × List Action),
      ∃ g : Cal → Cal,
        (cs.foldl (shareStep cfg) acc).1.calendars = acc.1.calendars.map g ∧
        (∀ x, (g x).id = x.id ∧ (g x).summary = x.summary ∧
          ∃ extra, (g x).shared = x.shared ++ extra) ∧
        (cs.foldl (shareStep cfg) acc).1.events = acc.1.events ∧
        (cs.foldl (shareStep cfg) acc).1.nextEventId = acc.1.nextEventId ∧
        (cs.foldl (shareStep cfg) acc).1.nextCalId = acc.1.nextCalId ∧
        (cs.foldl (shareStep cfg) acc).1.now = acc.1.now := by
  intro cs
  induction cs with
  | nil =>
    intro acc
    exact ⟨id, by simp, fun x => ⟨rfl, rfl, [], by simp⟩, rfl, rfl, rfl, rfl⟩
  | cons c tl ih =>
    intro acc
    rw [List.foldl_cons]
    obtain ⟨g1, hg1, hp1, he1, hn1, hc1, hw1⟩ := shareStep_calendars cfg acc c
    obtain ⟨g2, hg2, hp2, he2, hn2, hc2, hw2⟩ := ih (shareStep cfg acc c)
    refine ⟨g2 ∘ g1, ?_, ?_, by rw [he2, he1], by rw [hn2, hn1],
      by rw [hc2, hc1], by rw [hw2, hw1]⟩
    · rw [hg2, hg1, List.map_map]
    · intro x
      obtain ⟨h1i, h1s, e1, h1e⟩ := hp1 x
      obtain ⟨h2i, h2s, e2, h2e⟩ := hp2 (g1 x)
      refine ⟨by rw [Function.comp_apply, h2i, h1i],
        by rw [Function.comp_apply, h2s, h1s], e1 ++ e2, ?_⟩
      rw [Function.comp_apply, h2e, h1e, List.append_assoc]

lemma share_fold_managedIds (cfg : Config) (cs : List Cal)
    (acc : GState × List Action) :
    managedIds cfg (cs.foldl (shareStep cfg) acc).1 = managedIds cfg acc.1 := by
  obtain ⟨g, hg, hp, _, _, _, _⟩ := share_fold_calendars cfg cs acc
  rw [managedIds, managedCals, hg, List.filter_map]
  have hfe : ((fun c => jsStartsWith c.summary cfg.pfx) ∘ g) =
      fun c => jsStartsWith c.summary cfg.pfx := by
    funext x
    simp only [Function.comp_apply, (hp x).2.1]
  rw [hfe, List.map_map]
  have hid : (Cal.id ∘ g) = Cal.id := by
    funext x
    simp only [Function.comp_apply, (hp x).1]
  rw [hid]
  rfl

lemma share_fold_keeps (cfg : Config) (cs : List Cal) (acc : GState × List Action)
    (cid : Nat)
    (h : ∃ sc ∈ acc.1.calendars, sc.id = cid ∧ cfg.shareEmail ∈ sc.shared) :
    ∃ sc ∈ (cs.foldl (shareStep cfg) acc).1.calendars,
      sc.id = cid ∧ cfg.shareEmail ∈ sc.shared := by
  obtain ⟨sc, hmem, hid, hsh⟩ := h
  obtain ⟨g, hg, hp, _, _, _, _⟩ := share_fold_calendars cfg cs acc
  obtain ⟨h1, _, extra, h3⟩ := hp sc
  refine ⟨g sc, ?_, by rw [h1]; exact hid, ?_⟩
  · rw [hg]
    exact List.mem_map.mpr ⟨sc, hmem, rfl⟩
  · rw [h3]
    exact List.mem_append.mpr (Or.inl hsh)

lemma share_fold_shares (cfg : Config) :
    ∀ (cs : List Cal) (acc : GState × List Action) (c : Cal), c ∈ cs →
      (∃ sc ∈ acc.1.calendars, sc.id = c.id) →
      ∃ sc ∈ (cs.foldl (shareStep cfg) acc).1.calendars,
        sc.id = c.id ∧ cfg.shareEmail ∈ sc.shared := by
  intro cs
  induction cs with
  | nil => intro acc c hc; cases hc
  | cons c0 tl ih =>
    intro acc c hc hpre
    rw [List.foldl_cons]
    rcases List.mem_cons.mp hc with hc | hc
    · subst hc
      refine share_fold_keeps cfg tl _ c.id ?_
      obtain ⟨sc, hmem, hid⟩ := hpre
      have hfs : (acc.1.calendars.find? (fun x => x.id == c.id)).isSome = true := by
        rw [List.find?_isSome]
        exact ⟨sc, hmem, by simpa using hid⟩
      cases hf : acc.1.calendars.find? (fun x => x.id == c.id) with
      | none => rw [hf] at hfs; cases hfs
      | some sc0 =>
        have hsc0id : sc0.id = c.id := by
          have := List.find?_some hf
          simpa using this
        have hsc0mem : sc0 ∈ acc.1.calendars := List.mem_of_find?_eq_some hf
        by_cases hs : cfg.shareEmail ∈ sc0.shared
        · have hstep : (shareStep cfg acc c).1 = acc.1 := by
            rw [shareStep, ensureCalendarIsShared, hf]
            simp [hs]
          rw [hstep]
          exact ⟨sc0, hsc0mem, hsc0id, hs⟩
        · have hstep : (shareStep cfg acc c).1 =
              { acc.1 with
                calendars := acc.1.calendars.map (fun x =>
                  if x.id == c.id then { x with shared := x.shared ++ [cfg.shareEmail] }
                  else x) } := by
            rw [shareStep, ensureCalendarIsShared, hf]
            simp [hs]
          rw [hstep]
          refine ⟨{ sc0 with shared := sc0.shared ++ [cfg.shareEmail] }, ?_, hsc0id, by simp⟩
          show _ ∈ acc.1.calendars.map _
          refine List.mem_map.mpr ⟨sc0, hsc0mem, ?_⟩
          rw [if_pos (by simpa using hsc0id)]
    · refine ih _ c hc ?_
      obtain ⟨sc, hmem, hid⟩ := hpre
      obtain ⟨g, hg, hp, _, _, _, _⟩ := shareStep_calendars cfg acc c0
      refine ⟨g sc, ?_, by rw [(hp sc).1]; exact hid⟩
      rw [hg]
      exact List.mem_map.mpr ⟨sc, hmem, rfl⟩

lemma share_fold_WF (cfg : Config) (cs : List Cal) (acc : GState × List Action)
    (hwf : acc.1.WF) : (cs.foldl (shareStep cfg) acc).1.WF := by
  obtain ⟨g, hg, hp, he, hn, hc, _⟩ := share_fold_calendars cfg cs acc
  constructor
  · rw [hg, List.map_map]
    have hid : (Cal.id ∘ g) = Cal.id := by
      funext x
      simp only [Function.comp_apply, (hp x).1]
    rw [hid]
    exact hwf.calsNodup
  · rw [he]; exact hwf.eventsNodup
  · rw [he, hn]; exact hwf.eventsLt
  · intro c hcm
    rw [hg] at hcm
    obtain ⟨y, hy, hyx⟩ := List.mem_map.mp hcm
    rw [hc, ← hyx, (hp y).1]
    exact hwf.calsLt y hy
  · intro e hem
    rw [he] at hem
    obtain ⟨c, hcm, hcc⟩ := hwf.eventsCal e hem
    refine ⟨g c, ?_, by rw [(hp c).1]; exact hcc⟩
    rw [hg]
    exact List.mem_map.mpr ⟨c, hcm, rfl⟩

/-! ### State operation lemmas -/

lemma managedIds_insert (cfg : Config) (st : GState) (cid : Nat)
    (p : EventPayload) : managedIds cfg (applyInsertEvent st cid p) = managedIds cfg st :=
  rfl

lemma managedIds_delete (cfg : Config) (st : GState) (c i : Nat) :
    managedIds cfg (applyDeleteEvent st c i) = managedIds cfg st :=
  rfl

lemma managedIds_update (cfg : Config) (st : GState) (c i : Nat)
    (p : EventPayload) : managedIds cfg (applyUpdateEvent st c i p) = managedIds cfg st :=
  rfl

lemma managedIds_congr (cfg : Config) {st st' : GState}
    (h : st.calendars = st'.calendars) : managedIds cfg st = managedIds cfg st' := by
  rw [managedIds, managedCals, h]
  rfl

lemma eventsForKey_congr_cals (cfg : Config) {st st' : GState}
    (hc : st.calendars = st'.calendars) (he : st.events = st'.events) (k : String) :
    eventsForKey cfg st k = eventsForKey cfg st' k := by
  rw [eventsForKey, eventsForKey, he, managedIds_congr cfg hc]

lemma eventsForKey_insert_ne (cfg : Config) (st : GState) (cid : Nat)
    (p : EventPayload) (k : String) (h : p.vikunjaTaskId ≠ k) :
    eventsForKey cfg (applyInsertEvent st cid p) k = eventsForKey cfg st k := by
  rw [eventsForKey, eventsForKey, managedIds_insert]
  show (st.events ++ [payloadToEvent st cid p]).filter _ = _
  rw [List.filter_append]
  have hnil : ([payloadToEvent st cid p].filter (fun e =>
      e.vikunjaTaskId == some k && (managedIds cfg st).contains e.calendarId)) = [] := by
    rw [List.filter_eq_nil_iff]
    intro a ha
    simp only [List.mem_singleton] at ha
    subst ha
    simp only [payloadToEvent, Bool.and_eq_true, beq_iff_eq, Option.some.injEq,
      not_and]
    intro hc
    exact absurd hc h
  rw [hnil, List.append_nil]

lemma eventsForKey_insert_eq (cfg : Config) (st : GState) (cid : Nat)
    (p : EventPayload) (k : String) (h : p.vikunjaTaskId = k)
    (hm : (managedIds cfg st).contains cid = true) :
    eventsForKey cfg (applyInsertEvent st cid p) k =
      eventsForKey cfg st k ++ [payloadToEvent st cid p] := by
  rw [eventsForKey, eventsForKey, managedIds_insert]
  show (st.events ++ [payloadToEvent st cid p]).filter _ = _
  rw [List.filter_append]
  congr 1
  rw [List.filter_eq_self]
  intro a ha
  simp only [List.mem_singleton] at ha
  subst ha
  simp only [payloadToEvent, Bool.and_eq_true, beq_iff_eq, Option.some.injEq]
  exact ⟨h, hm⟩

lemma eventsForKey_delete (cfg : Config) (st : GState) (c i : Nat) (k : String) :
    eventsForKey cfg (applyDeleteEvent st c i) k =
      (eventsForKey cfg st k).filter (fun e => !(e.calendarId == c && e.id == i)) := by
  rw [eventsForKey, eventsForKey, managedIds_delete]
  show (st.events.filter _).filter _ = _
  rw [List.filter_filter, List.filter_filter]
  apply List.filter_congr
  intro x _
  exact Bool.and_comm _ _

lemma keylessEvents_insert (st : GState) (cid : Nat) (p : EventPayload) :
    keylessEvents (applyInsertEvent st cid p) = keylessEvents st := by
  rw [keylessEvents, keylessEvents]
  show (st.events ++ [payloadToEvent st cid p]).filter _ = _
  rw [List.filter_append]
  have hnil : ([payloadToEvent st cid p].filter (fun e =>
      e.vikunjaTaskId == (none : Option String))) = [] := by
    rw [List.filter_eq_nil_iff]
    intro a ha
    simp only [List.mem_singleton] at ha
    subst ha
    simp [payloadToEvent]
  rw [hnil, List.append_nil]

lemma keylessEvents_delete (st : GState) (c i : Nat) :
    keylessEvents (applyDeleteEvent st c i) =
      (keylessEvents st).filter (fun e => !(e.calendarId == c && e.id == i)) := by
  rw [keylessEvents, keylessEvents]
  show (st.events.filter _).filter _ = _
  rw [List.filter_filter, List.filter_filter]
  apply List.filter_congr
  intro x _
  exact Bool.and_comm _ _

lemma mem_of_mem_eventsForKey {cfg : Config} {st : GState} {k : String}
    {e : GEvent} (h : e ∈ eventsForKey cfg st k) : e ∈ st.events :=
  (List.mem_filter.mp h).1

lemma key_of_mem_eventsForKey {cfg : Config} {st : GState} {k : String}
    {e : GEvent} (h : e ∈ eventsForKey cfg st k) : e.vikunjaTaskId = some k :=
  ((mem_eventsForKey_iff cfg st k e).mp h).2.1

lemma managed_of_mem_eventsForKey {cfg : Config} {st : GState} {k : String}
    {e : GEvent} (h : e ∈ eventsForKey cfg st k) :
    e.calendarId ∈ managedIds cfg st :=
  ((mem_eventsForKey_iff cfg st k e).mp h).2.2

lemma mem_of_mem_keyless {st : GState} {e : GEvent}
    (h : e ∈ keylessEvents st) : e ∈ st.events :=
  (List.mem_filter.mp h).1

lemma key_of_mem_keyless {st : GState} {e : GEvent}
    (h : e ∈ keylessEvents st) : e.vikunjaTaskId = none := by
  have := (List.mem_filter.mp h).2
  simpa using this

/-! ### Update body lemmas -/

lemma updateEventBody_id (st : GState) (c i : Nat) (p : EventPayload)
    (e : GEvent) : (updateEventBody st c i p e).id = e.id := by
  rw [updateEventBody]
  by_cases h : (e.calendarId == c && e.id == i) = true
  · rw [if_pos h]
  · rw [if_neg h]

lemma updateEventBody_calendarId (st : GState) (c i : Nat) (p : EventPayload)
    (e : GEvent) : (updateEventBody st c i p e).calendarId = e.calendarId := by
  rw [updateEventBody]
  by_cases h : (e.calendarId == c && e.id == i) = true
  · rw [if_pos h]
  · rw [if_neg h]

lemma updateEventBody_of_ne (st : GState) (c i : Nat) (p : EventPayload)
    (e : GEvent) (h : (e.calendarId == c && e.id == i) = false) :
    updateEventBody st c i p e = e := by
  rw [updateEventBody, if_neg (by simp [h])]

lemma updateEventBody_of_eq (st : GState) (c i : Nat) (p : EventPayload)
    (e : GEvent) (h : (e.calendarId == c && e.id == i) = true) :
    updateEventBody st c i p e =
      { e with
        summary := p.summary
        description := p.description
        startDate := p.startDate
        endDate := p.endDate
        transparency := p.transparency
        vikunjaTaskId := some p.vikunjaTaskId
        updated := st.now } := by
  rw [updateEventBody, if_pos h]

lemma eventsForKey_update (cfg : Config) (st : GState) (c i : Nat)
    (p : EventPayload) (k : String) :
    eventsForKey cfg (applyUpdateEvent st c i p) k =
      (st.events.map (updateEventBody st c i p)).filter (fun e =>
        e.vikunjaTaskId == some k && (managedIds cfg st).contains e.calendarId) := by
  rw [eventsForKey, managedIds_update]
  rfl

lemma keylessEvents_update (st : GState) (c i : Nat) (p : EventPayload) :
    keylessEvents (applyUpdateEvent st c i p) =
      (st.events.map (updateEventBody st c i p)).filter (fun e =>
        e.vikunjaTaskId == (none : Option String)) :=
  rfl

lemma id_key_of_origin {st2 : GState} (hwf2 : st2.WF) {st : GState}
    (horigin : ∀ x ∈ st.events, st2.nextEventId ≤ x.id ∨
      ∃ y ∈ st2.events, y.id = x.id ∧ y.vikunjaTaskId = x.vikunjaTaskId)
    {e : GEvent} (he2 : e ∈ st2.events) {x : GEvent} (hx : x ∈ st.events)
    (hid : x.id = e.id) : x.vikunjaTaskId = e.vikunjaTaskId := by
  rcases horigin x hx with h | ⟨y, hy, hyid, hykey⟩
  · have hlt := hwf2.eventsLt e he2
    rw [← hid] at hlt
    omega
  · have hy_e : y = e :=
      List.inj_on_of_nodup_map hwf2.eventsNodup hy he2 (by rw [hyid, hid])
    rw [← hykey, hy_e]

/-! ### Diff step frame lemma -/

lemma buildGoogleEvent_key (cfg : Config) (t : Task) :
    (buildGoogleEvent cfg t).vikunjaTaskId = taskKey t :=
  rfl

lemma some_beq_some_false {x y : String} (h : x ≠ y) :
    ((some x : Option String) == some y) = false := by
  rw [beq_eq_false_iff_ne]
  simp only [ne_eq, Option.some.injEq]
  exact h

lemma updateEventBody_key_of_match (st : GState) (c i : Nat) (p : EventPayload)
    (e : GEvent) (h : (e.calendarId == c && e.id == i) = true) :
    (updateEventBody st c i p e).vikunjaTaskId = some p.vikunjaTaskId := by
  rw [updateEventBody_of_eq st c i p e h]

lemma syncTaskStep_framekey (cfg : Config) (projects : List Project)
    (gcals : List Cal) (index : List (String × GEvent)) (st2 : GState)
    (hwf2 : st2.WF)
    (hidx : ∀ kv ∈ index, indexEntryOk st2 gcals kv)
    (st : GState) (tr : List Action) (t : Task)
    (horigin : ∀ x ∈ st.events, st2.nextEventId ≤ x.id ∨
      ∃ y ∈ st2.events, y.id = x.id ∧ y.vikunjaTaskId = x.vikunjaTaskId)
    (k : String) (hk : k ≠ taskKey t) :
    eventsForKey cfg (syncTaskStep cfg projects gcals index (st, tr) t).1 k =
      eventsForKey cfg st k := by
  have hkey_ne : (buildGoogleEvent cfg t).vikunjaTaskId ≠ k := fun hc =>
    hk (hc ▸ (buildGoogleEvent_key cfg t).symm)
  cases hr : resolveProject projects t with
  | none => simp [syncTaskStep, hr]
  | some proj =>
    cases hf : gcals.find? (fun c => c.summary == calName cfg proj.title) with
    | none => simp [syncTaskStep, hr, hf]
    | some g =>
      cases hm : mapGet index (taskKey t) with
      | none =>
        have hstep : (syncTaskStep cfg projects gcals index (st, tr) t).1 =
            applyInsertEvent st g.id (buildGoogleEvent cfg t) := by
          simp [syncTaskStep, hr, hf, hm]
        rw [hstep]
        exact eventsForKey_insert_ne cfg st g.id _ k hkey_ne
      | some e =>
        obtain ⟨he2, hekey, _⟩ := hidx (taskKey t, e) (mapGet_mem hm)
        have hidne : ∀ x ∈ eventsForKey cfg st k, (x.id == e.id) = false := by
          intro x hx
          rw [beq_eq_false_iff_ne]
          intro hide
          have hxkey := key_of_mem_eventsForKey hx
          have hsame := id_key_of_origin hwf2 horigin he2
            (mem_of_mem_eventsForKey hx) hide
          rw [hxkey, hekey] at hsame
          exact hk (Option.some.inj hsame)
        by_cases hmv : (e.calendarId != g.id) = true
        · have hstep : (syncTaskStep cfg projects gcals index (st, tr) t).1 =
              applyInsertEvent (applyDeleteEvent st e.calendarId e.id) g.id
                (buildGoogleEvent cfg t) := by
            simp [syncTaskStep, hr, hf, hm, hmv]
          rw [hstep, eventsForKey_insert_ne cfg _ g.id _ k hkey_ne,
            eventsForKey_delete, List.filter_eq_self]
          intro x hx
          have := hidne x hx
          simp [this]
        · have hmv' : (e.calendarId != g.id) = false := by simpa using hmv
          by_cases hcond : (decide (e.updated < t.updated_at)
              || e.transparency != "opaque") = true
          · have hstep : (syncTaskStep cfg projects gcals index (st, tr) t).1 =
                applyUpdateEvent st e.calendarId e.id (buildGoogleEvent cfg t) := by
              simp [syncTaskStep, hr, hf, hm, hmv', hcond]
            rw [hstep, eventsForKey_update]
            show _ = st.events.filter _
            apply filter_map_congr
            intro x hx
            by_cases hmatch : (x.calendarId == e.calendarId && x.id == e.id) = true
            · right
              have hide : x.id = e.id := by
                have := (Bool.and_eq_true _ _).mp hmatch
                exact beq_iff_eq.mp this.2
              have hxkey : x.vikunjaTaskId = some (taskKey t) := by
                rw [id_key_of_origin hwf2 horigin he2 hx hide, hekey]
              constructor
              · have hb : (x.vikunjaTaskId == some k) = false := by
                  rw [hxkey]
                  exact some_beq_some_false (fun hc => hk hc.symm)
                simp [hb]
              · have hfk := updateEventBody_key_of_match st e.calendarId e.id
                  (buildGoogleEvent cfg t) x hmatch
                have hb : ((updateEventBody st e.calendarId e.id
                    (buildGoogleEvent cfg t) x).vikunjaTaskId == some k) = false := by
                  rw [hfk]
                  exact some_beq_some_false hkey_ne
                simp [hb]
            · left
              exact updateEventBody_of_ne st _ _ _ x (by simpa using hmatch)
          · have hcond' : (decide (e.updated < t.updated_at)
                || e.transparency != "opaque") = false := by simpa using hcond
            have hstep : syncTaskStep cfg projects gcals index (st, tr) t = (st, tr) := by
              simp [syncTaskStep, hr, hf, hm, hmv', hcond']
            rw [hstep]

/-! ### Diff step invariant lemma -/

lemma syncTaskStep_keylessframe (cfg : Config) (projects : List Project)
    (gcals : List Cal) (index : List (String × GEvent)) (st2 : GState)
    (hwf2 : st2.WF)
    (hidx : ∀ kv ∈ index, indexEntryOk st2 gcals kv)
    (st : GState) (tr : List Action) (t : Task)
    (horigin : ∀ x ∈ st.events, st2.nextEventId ≤ x.id ∨
      ∃ y ∈ st2.events, y.id = x.id ∧ y.vikunjaTaskId = x.vikunjaTaskId) :
    keylessEvents (syncTaskStep cfg projects gcals index (st, tr) t).1 =
      keylessEvents st := by
  cases hr : resolveProject projects t with
  | none => simp [syncTaskStep, hr]
  | some proj =>
    cases hf : gcals.find? (fun c => c.summary == calName cfg proj.title) with
    | none => simp [syncTaskStep, hr, hf]
    | some g =>
      cases hm : mapGet index (taskKey t) with
      | none =>
        have hstep : (syncTaskStep cfg projects gcals index (st, tr) t).1 =
            applyInsertEvent st g.id (buildGoogleEvent cfg t) := by
          simp [syncTaskStep, hr, hf, hm]
        rw [hstep, keylessEvents_insert]
      | some e =>
        obtain ⟨he2, hekey, _⟩ := hidx (taskKey t, e) (mapGet_mem hm)
        have hidne : ∀ x ∈ keylessEvents st, (x.id == e.id) = false := by
          intro x hx
          rw [beq_eq_false_iff_ne]
          intro hide
          have hxkey := key_of_mem_keyless hx
          have hsame := id_key_of_origin hwf2 horigin he2
            (mem_of_mem_keyless hx) hide
          rw [hxkey, hekey] at hsame
          cases hsame
        by_cases hmv : (e.calendarId != g.id) = true
        · have hstep : (syncTaskStep cfg projects gcals index (st, tr) t).1 =
              applyInsertEvent (applyDeleteEvent st e.calendarId e.id) g.id
                (buildGoogleEvent cfg t) := by
            simp [syncTaskStep, hr, hf, hm, hmv]
          rw [hstep, keylessEvents_insert, keylessEvents_delete,
            List.filter_eq_self]
          intro x hx
          have := hidne x hx
          simp [this]
        · have hmv' : (e.calendarId != g.id) = false := by simpa using hmv
          by_cases hcond : (decide (e.updated < t.updated_at)
              || e.transparency != "opaque") = true
          · have hstep : (syncTaskStep cfg projects gcals index (st, tr) t).1 =
                applyUpdateEvent st e.calendarId e.id (buildGoogleEvent cfg t) := by
              simp [syncTaskStep, hr, hf, hm, hmv', hcond]
            rw [hstep, keylessEvents_update]
            show _ = st.events.filter _
            apply filter_map_congr
            intro x hx
            by_cases hmatch : (x.calendarId == e.calendarId && x.id == e.id) = true
            · right
              have hide : x.id = e.id := by
                have := (Bool.and_eq_true _ _).mp hmatch
                exact beq_iff_eq.mp this.2
              have hxkey : x.vikunjaTaskId = some (taskKey t) := by
                rw [id_key_of_origin hwf2 horigin he2 hx hide, hekey]
              constructor
              · simp [hxkey]
              · have hfk := updateEventBody_key_of_match st e.calendarId e.id
                  (buildGoogleEvent cfg t) x hmatch
                simp [hfk]
            · left
              exact updateEventBody_of_ne st _ _ _ x (by simpa using hmatch)
          · have hcond' : (decide (e.updated < t.updated_at)
                || e.transparency != "opaque") = false := by simpa using hcond
            have hstep : syncTaskStep cfg projects gcals index (st, tr) t = (st, tr) := by
              simp [syncTaskStep, hr, hf, hm, hmv', hcond']
            rw [hstep]

lemma shape_insert (cfg : Config) (st2 st : GState)
    (hcals : st.calendars = st2.calendars) (hnow : st.now = st2.now)
    (hnextc : st.nextCalId = st2.nextCalId)
    (hnexte : st2.nextEventId ≤ st.nextEventId)
    (hnodup : (st.events.map GEvent.id).Nodup)
    (hevLt : ∀ e ∈ st.events, e.id < st.nextEventId)
    (hevCal : ∀ e ∈ st.events, ∃ c ∈ st.calendars, e.calendarId = c.id)
    (horigin : ∀ x ∈ st.events, st2.nextEventId ≤ x.id ∨
      ∃ y ∈ st2.events, y.id = x.id ∧ y.vikunjaTaskId = x.vikunjaTaskId)
    (cid : Nat) (hcid : ∃ c ∈ st.calendars, cid = c.id) (p : EventPayload) :
    (applyInsertEvent st cid p).calendars = st2.calendars ∧
    (applyInsertEvent st cid p).now = st2.now ∧
    (applyInsertEvent st cid p).nextCalId = st2.nextCalId ∧
    st2.nextEventId ≤ (applyInsertEvent st cid p).nextEventId ∧
    ((applyInsertEvent st cid p).events.map GEvent.id).Nodup ∧
    (∀ e ∈ (applyInsertEvent st cid p).events,
      e.id < (applyInsertEvent st cid p).nextEventId) ∧
    (∀ e ∈ (applyInsertEvent st cid p).events,
      ∃ c ∈ (applyInsertEvent st cid p).calendars, e.calendarId = c.id) ∧
    (∀ x ∈ (applyInsertEvent st cid p).events, st2.nextEventId ≤ x.id ∨
      ∃ y ∈ st2.events, y.id = x.id ∧ y.vikunjaTaskId = x.vikunjaTaskId) := by
  refine ⟨hcals, hnow, hnextc, Nat.le_succ_of_le hnexte, ?_, ?_, ?_, ?_⟩
  · show ((st.events ++ [payloadToEvent st cid p]).map GEvent.id).Nodup
    rw [List.map_append, List.nodup_append]
    refine ⟨hnodup, by simp, ?_⟩
    intro x hx
    obtain ⟨ev, hev, hevx⟩ := List.mem_map.mp hx
    simp only [List.map_cons, List.map_nil, List.mem_singleton]
    intro hx'
    have hlt := hevLt ev hev
    rw [hevx, hx'] at hlt
    exact absurd hlt (lt_irrefl _)
  · intro e he
    rcases List.mem_append.mp he with he | he
    · exact Nat.lt_succ_of_lt (hevLt e he)
    · simp only [List.mem_singleton] at he
      subst he
      exact Nat.lt_succ_self _
  · intro e he
    rcases List.mem_append.mp he with he | he
    · exact hevCal e he
    · simp only [List.mem_singleton] at he
      subst he
      exact hcid
  · intro x hx
    rcases List.mem_append.mp hx with hx | hx
    · exact horigin x hx
    · simp only [List.mem_singleton] at hx
      subst hx
      exact Or.inl hnexte

lemma shape_delete (st : GState) (c i : Nat) :
    (applyDeleteEvent st c i).calendars = st.calendars ∧
    (applyDeleteEvent st c i).now = st.now ∧
    (applyDeleteEvent st c i).nextCalId = st.nextCalId ∧
    (applyDeleteEvent st c i).nextEventId = st.nextEventId ∧
    ∀ x ∈ (applyDeleteEvent st c i).events, x ∈ st.events :=
  ⟨rfl, rfl, rfl, rfl, fun x hx => List.mem_of_mem_filter hx⟩

lemma target_in_cals {cfg : Config} {st2 st : GState} {gcals : List Cal}
    (hms : managedIds cfg st2 = gcals.map Cal.id)
    (hcals : st.calendars = st2.calendars) {g : Cal} (hg : g ∈ gcals) :
    ∃ c ∈ st.calendars, g.id = c.id := by
  have hmem : g.id ∈ managedIds cfg st2 := by
    rw [hms]
    exact List.mem_map.mpr ⟨g, hg, rfl⟩
  rw [managedIds] at hmem
  obtain ⟨c, hc, hcid⟩ := List.mem_map.mp hmem
  refine ⟨c, ?_, hcid.symm⟩
  rw [hcals]
  exact (List.mem_filter.mp hc).1

lemma syncTaskStep_inv (cfg : Config) (projects : List Project)
    (gcals : List Cal) (index : List (String × GEvent)) (st2 : GState)
    (hwf2 : st2.WF) (hms : managedIds cfg st2 = gcals.map Cal.id)
    (hidx : ∀ kv ∈ index, indexEntryOk st2 gcals kv)
    (doneKeys : List String) (st : GState) (tr : List Action) (t : Task)
    (hinv : DiffInv cfg st2 doneKeys st) :
    DiffInv cfg st2 (doneKeys ++ [taskKey t])
      (syncTaskStep cfg projects gcals index (st, tr) t).1 := by
  have hframe : ∀ k, k ∉ doneKeys ++ [taskKey t] →
      eventsForKey cfg (syncTaskStep cfg projects gcals index (st, tr) t).1 k =
        eventsForKey cfg st2 k := by
    intro k hkmem
    have h1 := syncTaskStep_framekey cfg projects gcals index st2 hwf2 hidx st
      tr t hinv.origin k
      (fun hc => hkmem (List.mem_append.mpr (Or.inr (by simp [hc]))))
    rw [h1]
    exact hinv.frame k (fun hc => hkmem (List.mem_append.mpr (Or.inl hc)))
  have hkeyless : keylessEvents (syncTaskStep cfg projects gcals index (st, tr) t).1 =
      keylessEvents st2 := by
    rw [syncTaskStep_keylessframe cfg projects gcals index st2 hwf2 hidx st tr t
      hinv.origin]
    exact hinv.keyless
  suffices hshape :
      (syncTaskStep cfg projects gcals index (st, tr) t).1.calendars = st2.calendars ∧
      (syncTaskStep cfg projects gcals index (st, tr) t).1.now = st2.now ∧
      (syncTaskStep cfg projects gcals index (st, tr) t).1.nextCalId = st2.nextCalId ∧
      st2.nextEventId ≤ (syncTaskStep cfg projects gcals index (st, tr) t).1.nextEventId ∧
      ((syncTaskStep cfg projects gcals index (st, tr) t).1.events.map GEvent.id).Nodup ∧
      (∀ e ∈ (syncTaskStep cfg projects gcals index (st, tr) t).1.events,
        e.id < (syncTaskStep cfg projects gcals index (st, tr) t).1.nextEventId) ∧
      (∀ e ∈ (syncTaskStep cfg projects gcals index (st, tr) t).1.events,
        ∃ c ∈ (syncTaskStep cfg projects gcals index (st, tr) t).1.calendars,
          e.calendarId = c.id) ∧
      (∀ x ∈ (syncTaskStep cfg projects gcals index (st, tr) t).1.events,
        st2.nextEventId ≤ x.id ∨
        ∃ y ∈ st2.events, y.id = x.id ∧ y.vikunjaTaskId = x.vikunjaTaskId) by
    obtain ⟨h1, h2, h3, h4, h5, h6, h7, h8⟩ := hshape
    exact ⟨h1, h2, h3, h4, h5, h6, h7, hframe, hkeyless, h8⟩
  cases hr : resolveProject projects t with
  | none =>
    have hstep : syncTaskStep cfg projects gcals index (st, tr) t = (st, tr) := by
      simp [syncTaskStep, hr]
    rw [hstep]
    exact ⟨hinv.cals, hinv.nowEq, hinv.nextCal, hinv.nextEv, hinv.nodup,
      hinv.evLt, hinv.evCal, hinv.origin⟩
  | some proj =>
    cases hf : gcals.find? (fun c => c.summary == calName cfg proj.title) with
    | none =>
      have hstep : syncTaskStep cfg projects gcals index (st, tr) t = (st, tr) := by
        simp [syncTaskStep, hr, hf]
      rw [hstep]
      exact ⟨hinv.cals, hinv.nowEq, hinv.nextCal, hinv.nextEv, hinv.nodup,
        hinv.evLt, hinv.evCal, hinv.origin⟩
    | some g =>
      have hgmem : g ∈ gcals := List.mem_of_find?_eq_some hf
      cases hm : mapGet index (taskKey t) with
      | none =>
        have hstep : (syncTaskStep cfg projects gcals index (st, tr) t).1 =
            applyInsertEvent st g.id (buildGoogleEvent cfg t) := by
          simp [syncTaskStep, hr, hf, hm]
        rw [hstep]
        exact shape_insert cfg st2 st hinv.cals hinv.nowEq hinv.nextCal
          hinv.nextEv hinv.nodup hinv.evLt hinv.evCal hinv.origin g.id
          (target_in_cals hms hinv.cals hgmem) (buildGoogleEvent cfg t)
      | some e =>
        by_cases hmv : (e.calendarId != g.id) = true
        · have hstep : (syncTaskStep cfg projects gcals index (st, tr) t).1 =
              applyInsertEvent (applyDeleteEvent st e.calendarId e.id) g.id
                (buildGoogleEvent cfg t) := by
            simp [syncTaskStep, hr, hf, hm, hmv]
          rw [hstep]
          have hdelcals : (applyDeleteEvent st e.calendarId e.id).calendars = st2.calendars :=
            hinv.cals
          have hdelnodup : ((applyDeleteEvent st e.calendarId e.id).events.map GEvent.id).Nodup := by
            show ((st.events.filter _).map GEvent.id).Nodup
            exact ((List.filter_sublist st.events).map GEvent.id).nodup hinv.nodup
          exact shape_insert cfg st2 (applyDeleteEvent st e.calendarId e.id)
            hdelcals hinv.nowEq hinv.nextCal hinv.nextEv hdelnodup
            (fun ev hev => hinv.evLt ev (List.mem_of_mem_filter hev))
            (fun ev hev => hinv.evCal ev (List.mem_of_mem_filter hev))
            (fun x hx => hinv.origin x (List.mem_of_mem_filter hx)) g.id
            (target_in_cals hms hdelcals hgmem) (buildGoogleEvent cfg t)
        · have hmv' : (e.calendarId != g.id) = false := by simpa using hmv
          by_cases hcond : (decide (e.updated < t.updated_at)
              || e.transparency != "opaque") = true
          · have hstep : (syncTaskStep cfg projects gcals index (st, tr) t).1 =
                applyUpdateEvent st e.calendarId e.id (buildGoogleEvent cfg t) := by
              simp [syncTaskStep, hr, hf, hm, hmv', hcond]
            rw [hstep]
            obtain ⟨he2, hekey, _⟩ := hidx (taskKey t, e) (mapGet_mem hm)
            have hids : (applyUpdateEvent st e.calendarId e.id
                (buildGoogleEvent cfg t)).events.map GEvent.id = st.events.map GEvent.id := by
              show (st.events.map _).map GEvent.id = _
              rw [List.map_map]
              exact List.map_congr_left (fun x _ =>
                updateEventBody_id st e.calendarId e.id (buildGoogleEvent cfg t) x)
            refine ⟨hinv.cals, hinv.nowEq, hinv.nextCal, hinv.nextEv, ?_, ?_, ?_, ?_⟩
            · rw [hids]
              exact hinv.nodup
            · intro ev hev
              obtain ⟨x, hx, hxe⟩ := List.mem_map.mp hev
              rw [← hxe]
              show (updateEventBody st e.calendarId e.id (buildGoogleEvent cfg t) x).id < _
              rw [updateEventBody_id]
              exact hinv.evLt x hx
            · intro ev hev
              obtain ⟨x, hx, hxe⟩ := List.mem_map.mp hev
              rw [← hxe]
              obtain ⟨c, hc, hcc⟩ := hinv.evCal x hx
              refine ⟨c, hc, ?_⟩
              show (updateEventBody st e.calendarId e.id (buildGoogleEvent cfg t) x).calendarId = c.id
              rw [updateEventBody_calendarId]
              exact hcc
            · intro ev hev
              obtain ⟨x, hx, hxe⟩ := List.mem_map.mp hev
              by_cases hmatch : (x.calendarId == e.calendarId && x.id == e.id) = true
              · right
                refine ⟨e, he2, ?_, ?_⟩
                · rw [← hxe]
                  show e.id = (updateEventBody st e.calendarId e.id _ x).id
                  rw [updateEventBody_id]
                  exact (beq_iff_eq.mp ((Bool.and_eq_true _ _).mp hmatch).2).symm
                · rw [← hxe, updateEventBody_key_of_match st e.calendarId e.id _ x hmatch]
                  rw [hekey, buildGoogleEvent_key]
              · rw [← hxe, updateEventBody_of_ne st _ _ _ x (by simpa using hmatch)]
                exact hinv.origin x hx
          · have hcond' : (decide (e.updated < t.updated_at)
                || e.transparency != "opaque") = false := by simpa using hcond
            have hstep : syncTaskStep cfg projects gcals index (st, tr) t = (st, tr) := by
              simp [syncTaskStep, hr, hf, hm, hmv', hcond']
            rw [hstep]
            exact ⟨hinv.cals, hinv.nowEq, hinv.nextCal, hinv.nextEv, hinv.nodup,
              hinv.evLt, hinv.evCal, hinv.origin⟩

/-! ### Diff step outcome lemma -/

lemma outcomeFor_eq_noproj (cfg : Config) (projects : List Project)
    (gcals : List Cal) (index : List (String × GEvent)) (st2 : GState)
    (t : Task) (st : GState) (hr : resolveProject projects t = none) :
    outcomeFor cfg projects gcals index st2 t st =
      (eventsForKey cfg st (taskKey t) = eventsForKey cfg st2 (taskKey t)) := by
  rw [outcomeFor, hr]

lemma outcomeFor_eq_nocal (cfg : Config) (projects : List Project)
    (gcals : List Cal) (index : List (String × GEvent)) (st2 : GState)
    (t : Task) (st : GState) (proj : Project)
    (hr : resolveProject projects t = some proj)
    (hf : gcals.find? (fun c => c.summary == calName cfg proj.title) = none) :
    outcomeFor cfg projects gcals index st2 t st =
      (eventsForKey cfg st (taskKey t) = eventsForKey cfg st2 (taskKey t)) := by
  rw [outcomeFor, hr]
  show (match gcals.find? (fun c => c.summary == calName cfg proj.title) with
    | none => eventsForKey cfg st (taskKey t) = eventsForKey cfg st2 (taskKey t)
    | some g =>
      match mapGet index (taskKey t) with
      | none => ∃ e2, eventsForKey cfg st (taskKey t) = [e2] ∧
          e2.calendarId = g.id ∧ matchesPayload e2 (buildGoogleEvent cfg t) ∧
          e2.updated = st2.now
      | some e =>
        if e.calendarId != g.id || decide (e.updated < t.updated_at)
            || e.transparency != "opaque" then
          ∃ e2, eventsForKey cfg st (taskKey t) = [e2] ∧
            e2.calendarId = g.id ∧ matchesPayload e2 (buildGoogleEvent cfg t) ∧
            e2.updated = st2.now
        else eventsForKey cfg st (taskKey t) = [e]) = _
  rw [hf]

lemma outcomeFor_eq_create (cfg : Config) (projects : List Project)
    (gcals : List Cal) (index : List (String × GEvent)) (st2 : GState)
    (t : Task) (st : GState) (proj : Project) (g : Cal)
    (hr : resolveProject projects t = some proj)
    (hf : gcals.find? (fun c => c.summary == calName cfg proj.title) = some g)
    (hm : mapGet index (taskKey t) = none) :
    outcomeFor cfg projects gcals index st2 t st =
      (∃ e2, eventsForKey cfg st (taskKey t) = [e2] ∧
        e2.calendarId = g.id ∧ matchesPayload e2 (buildGoogleEvent cfg t) ∧
        e2.updated = st2.now) := by
  rw [outcomeFor, hr]
  show (match gcals.find? (fun c => c.summary == calName cfg proj.title) with
    | none => eventsForKey cfg st (taskKey t) = eventsForKey cfg st2 (taskKey t)
    | some g =>
      match mapGet index (taskKey t) with
      | none => ∃ e2, eventsForKey cfg st (taskKey t) = [e2] ∧
          e2.calendarId = g.id ∧ matchesPayload e2 (buildGoogleEvent cfg t) ∧
          e2.updated = st2.now
      | some e =>
        if e.calendarId != g.id || decide (e.updated < t.updated_at)
            || e.transparency != "opaque" then
          ∃ e2, eventsForKey cfg st (taskKey t) = [e2] ∧
            e2.calendarId = g.id ∧ matchesPayload e2 (buildGoogleEvent cfg t) ∧
            e2.updated = st2.now
        else eventsForKey cfg st (taskKey t) = [e]) = _
  rw [hf]
  show (match mapGet index (taskKey t) with
    | none => ∃ e2, eventsForKey cfg st (taskKey t) = [e2] ∧
        e2.calendarId = g.id ∧ matchesPayload e2 (buildGoogleEvent cfg t) ∧
        e2.updated = st2.now
    | some e =>
      if e.calendarId != g.id || decide (e.updated < t.updated_at)
          || e.transparency != "opaque" then
        ∃ e2, eventsForKey cfg st (taskKey t) = [e2] ∧
          e2.calendarId = g.id ∧ matchesPayload e2 (buildGoogleEvent cfg t) ∧
          e2.updated = st2.now
      else eventsForKey cfg st (taskKey t) = [e]) = _
  rw [hm]

lemma outcomeFor_eq_act (cfg : Config) (projects : List Project)
    (gcals : List Cal) (index : List (String × GEvent)) (st2 : GState)
    (t : Task) (st : GState) (proj : Project) (g : Cal) (e : GEvent)
    (hr : resolveProject projects t = some proj)
    (hf : gcals.find? (fun c => c.summary == calName cfg proj.title) = some g)
    (hm : mapGet index (taskKey t) = some e) :
    outcomeFor cfg projects gcals index st2 t st =
      (if e.calendarId != g.id || decide (e.updated < t.updated_at)
          || e.transparency != "opaque" then
        ∃ e2, eventsForKey cfg st (taskKey t) = [e2] ∧
          e2.calendarId = g.id ∧ matchesPayload e2 (buildGoogleEvent cfg t) ∧
          e2.updated = st2.now
      else eventsForKey cfg st (taskKey t) = [e]) := by
  rw [outcomeFor, hr]
  show (match gcals.find? (fun c => c.summary == calName cfg proj.title) with
    | none => eventsForKey cfg st (taskKey t) = eventsForKey cfg st2 (taskKey t)
    | some g =>
      match mapGet index (taskKey t) with
      | none => ∃ e2, eventsForKey cfg st (taskKey t) = [e2] ∧
          e2.calendarId = g.id ∧ matchesPayload e2 (buildGoogleEvent cfg t) ∧
          e2.updated = st2.now
      | some e =>
        if e.calendarId != g.id || decide (e.updated < t.updated_at)
            || e.transparency != "opaque" then
          ∃ e2, eventsForKey cfg st (taskKey t) = [e2] ∧
            e2.calendarId = g.id ∧ matchesPayload e2 (buildGoogleEvent cfg t) ∧
            e2.updated = st2.now
        else eventsForKey cfg st (taskKey t) = [e]) = _
  rw [hf]
  show (match mapGet index (taskKey t) with
    | none => ∃ e2, eventsForKey cfg st (taskKey t) = [e2] ∧
        e2.calendarId = g.id ∧ matchesPayload e2 (buildGoogleEvent cfg t) ∧
        e2.updated = st2.now
    | some e =>
      if e.calendarId != g.id || decide (e.updated < t.updated_at)
          || e.transparency != "opaque" then
        ∃ e2, eventsForKey cfg st (taskKey t) = [e2] ∧
          e2.calendarId = g.id ∧ matchesPayload e2 (buildGoogleEvent cfg t) ∧
          e2.updated = st2.now
      else eventsForKey cfg st (taskKey t) = [e]) = _
  rw [hm]


lemma syncTaskStep_outcome (cfg : Config) (projects : List Project)
    (gcals : List Cal) (index : List (String × GEvent)) (st2 : GState)
    (hwf2 : st2.WF) (hms : managedIds cfg st2 = gcals.map Cal.id)
    (hidx : ∀ kv ∈ index, indexEntryOk st2 gcals kv)
    (hsingle : ∀ k e, mapGet index k = some e → eventsForKey cfg st2 k = [e])
    (hempty : ∀ k, mapGet index k = none → eventsForKey cfg st2 k = [])
    (doneKeys : List String) (st : GState) (tr : List Action) (t : Task)
    (hinv : DiffInv cfg st2 doneKeys st) (htk : taskKey t ∉ doneKeys) :
    outcomeFor cfg projects gcals index st2 t
      (syncTaskStep cfg projects gcals index (st, tr) t).1 := by
  have hcur : eventsForKey cfg st (taskKey t) = eventsForKey cfg st2 (taskKey t) :=
    hinv.frame (taskKey t) htk
  cases hr : resolveProject projects t with
  | none =>
    rw [outcomeFor_eq_noproj cfg projects gcals index st2 t _ hr]
    have hstep : syncTaskStep cfg projects gcals index (st, tr) t = (st, tr) := by
      simp [syncTaskStep, hr]
    rw [hstep]
    exact hcur
  | some proj =>
    cases hf : gcals.find? (fun c => c.summary == calName cfg proj.title) with
    | none =>
      rw [outcomeFor_eq_nocal cfg projects gcals index st2 t _ proj hr hf]
      have hstep : syncTaskStep cfg projects gcals index (st, tr) t = (st, tr) := by
        simp [syncTaskStep, hr, hf]
      rw [hstep]
      exact hcur
    | some g =>
      have hgmem : g ∈ gcals := List.mem_of_find?_eq_some hf
      have hcont : (managedIds cfg st).contains g.id = true := by
        rw [managedIds_congr cfg hinv.cals, hms]
        exact List.elem_iff.mpr (List.mem_map.mpr ⟨g, hgmem, rfl⟩)
      cases hm : mapGet index (taskKey t) with
      | none =>
        rw [outcomeFor_eq_create cfg projects gcals index st2 t _ proj g hr hf hm]
        have hstep : (syncTaskStep cfg projects gcals index (st, tr) t).1 =
            applyInsertEvent st g.id (buildGoogleEvent cfg t) := by
          simp [syncTaskStep, hr, hf, hm]
        have h0 : eventsForKey cfg st (taskKey t) = [] := by
          rw [hcur]
          exact hempty _ hm
        rw [hstep, eventsForKey_insert_eq cfg st g.id (buildGoogleEvent cfg t)
          (taskKey t) (buildGoogleEvent_key cfg t) hcont, h0, List.nil_append]
        refine ⟨payloadToEvent st g.id (buildGoogleEvent cfg t), rfl, rfl,
          ⟨rfl, rfl, rfl, rfl, rfl, rfl⟩, hinv.nowEq⟩
      | some e =>
        rw [outcomeFor_eq_act cfg projects gcals index st2 t _ proj g e hr hf hm]
        have hsgl : eventsForKey cfg st (taskKey t) = [e] := by
          rw [hcur]
          exact hsingle _ _ hm
        have hemem : e ∈ st.events :=
          mem_of_mem_eventsForKey (by rw [hsgl]; simp)
        by_cases hmv : (e.calendarId != g.id) = true
        · have hcall : (e.calendarId != g.id || decide (e.updated < t.updated_at)
              || e.transparency != "opaque") = true := by
            simp [hmv]
          rw [if_pos hcall]
          have hstep : (syncTaskStep cfg projects gcals index (st, tr) t).1 =
              applyInsertEvent (applyDeleteEvent st e.calendarId e.id) g.id
                (buildGoogleEvent cfg t) := by
            simp [syncTaskStep, hr, hf, hm, hmv]
          have hdelkey : eventsForKey cfg (applyDeleteEvent st e.calendarId e.id)
              (taskKey t) = [] := by
            rw [eventsForKey_delete, hsgl]
            simp
          have hcont2 : (managedIds cfg (applyDeleteEvent st e.calendarId e.id)).contains
              g.id = true := by
            rw [managedIds_delete]
            exact hcont
          rw [hstep, eventsForKey_insert_eq cfg _ g.id (buildGoogleEvent cfg t)
            (taskKey t) (buildGoogleEvent_key cfg t) hcont2, hdelkey, List.nil_append]
          refine ⟨payloadToEvent _ g.id (buildGoogleEvent cfg t), rfl, rfl,
            ⟨rfl, rfl, rfl, rfl, rfl, rfl⟩, hinv.nowEq⟩
        · have hmv' : (e.calendarId != g.id) = false := by simpa using hmv
          have hcalid : e.calendarId = g.id := bne_eq_false_iff_eq.mp hmv'
          by_cases hcond : (decide (e.updated < t.updated_at)
              || e.transparency != "opaque") = true
          · have hcall : (e.calendarId != g.id || decide (e.updated < t.updated_at)
                || e.transparency != "opaque") = true := by
              simp only [hmv', Bool.false_or]
              exact hcond
            rw [if_pos hcall]
            have hstep : (syncTaskStep cfg projects gcals index (st, tr) t).1 =
                applyUpdateEvent st e.calendarId e.id (buildGoogleEvent cfg t) := by
              simp [syncTaskStep, hr, hf, hm, hmv', hcond]
            have hmatch : (e.calendarId == e.calendarId && e.id == e.id) = true := by
              simp
            have hl : st.events.filter (fun x =>
                x.vikunjaTaskId == some (taskKey t) &&
                  (managedIds cfg st).contains x.calendarId) = [e] := hsgl
            have hother : ∀ x ∈ st.events, x ≠ e →
                updateEventBody st e.calendarId e.id (buildGoogleEvent cfg t) x = x := by
              intro x hx hxe
              refine updateEventBody_of_ne st _ _ _ x ?_
              by_cases hb : (x.calendarId == e.calendarId && x.id == e.id) = true
              · exfalso
                have hide : x.id = e.id :=
                  beq_iff_eq.mp ((Bool.and_eq_true _ _).mp hb).2
                exact hxe (List.inj_on_of_nodup_map hinv.nodup hx hemem hide)
              · simpa using hb
            have hfe : ((updateEventBody st e.calendarId e.id (buildGoogleEvent cfg t)
                e).vikunjaTaskId == some (taskKey t) &&
                  (managedIds cfg st).contains (updateEventBody st e.calendarId e.id
                    (buildGoogleEvent cfg t) e).calendarId) = true := by
              rw [Bool.and_eq_true]
              constructor
              · rw [updateEventBody_key_of_match st _ _ _ e hmatch,
                  buildGoogleEvent_key]
                exact beq_self_eq_true _
              · rw [updateEventBody_calendarId]
                have := @managed_of_mem_eventsForKey cfg st
                  (taskKey t) e (by rw [hsgl]; simp)
                exact List.elem_iff.mpr this
            have hres : eventsForKey cfg (applyUpdateEvent st e.calendarId e.id
                (buildGoogleEvent cfg t)) (taskKey t) =
                [updateEventBody st e.calendarId e.id (buildGoogleEvent cfg t) e] := by
              rw [eventsForKey_update]
              exact filter_map_singleton _ _ st.events e hl hother hfe
            rw [hstep, hres]
            refine ⟨updateEventBody st e.calendarId e.id (buildGoogleEvent cfg t) e,
              rfl, ?_, ?_, ?_⟩
            · rw [updateEventBody_calendarId]
              exact hcalid
            · rw [updateEventBody_of_eq st _ _ _ e hmatch]
              exact ⟨rfl, rfl, rfl, rfl, rfl, rfl⟩
            · rw [updateEventBody_of_eq st _ _ _ e hmatch]
              exact hinv.nowEq
          · have hcond' : (decide (e.updated < t.updated_at)
                || e.transparency != "opaque") = false := by simpa using hcond
            have hcall : (e.calendarId != g.id || decide (e.updated < t.updated_at)
                || e.transparency != "opaque") = false := by
              simp only [hmv', Bool.false_or]
              exact hcond'
            rw [if_neg (by simp [hcall])]
            have hstep : syncTaskStep cfg projects gcals index (st, tr) t = (st, tr) := by
              simp [syncTaskStep, hr, hf, hm, hmv', hcond']
            rw [hstep]
            exact hsgl

/-! ### Diff fold lemmas -/

lemma outcomeFor_congr (cfg : Config) (projects : List Project)
    (gcals : List Cal) (index : List (String × GEvent)) (st2 : GState)
    (t : Task) {stA stB : GState}
    (h : eventsForKey cfg stA (taskKey t) = eventsForKey cfg stB (taskKey t))
    (hout : outcomeFor cfg projects gcals index st2 t stA) :
    outcomeFor cfg projects gcals index st2 t stB := by
  cases hr : resolveProject projects t with
  | none =>
    rw [outcomeFor_eq_noproj cfg projects gcals index st2 t _ hr] at hout ⊢
    rw [← h]
    exact hout
  | some proj =>
    cases hf : gcals.find? (fun c => c.summary == calName cfg proj.title) with
    | none =>
      rw [outcomeFor_eq_nocal cfg projects gcals index st2 t _ proj hr hf] at hout ⊢
      rw [← h]
      exact hout
    | some g =>
      cases hm : mapGet index (taskKey t) with
      | none =>
        rw [outcomeFor_eq_create cfg projects gcals index st2 t _ proj g hr hf hm]
          at hout ⊢
        rw [← h]
        exact hout
      | some e =>
        rw [outcomeFor_eq_act cfg projects gcals index st2 t _ proj g e hr hf hm]
          at hout ⊢
        rw [← h]
        exact hout

lemma syncTasks_fold_framekey (cfg : Config) (projects : List Project)
    (gcals : List Cal) (index : List (String × GEvent)) (st2 : GState)
    (hwf2 : st2.WF) (hms : managedIds cfg st2 = gcals.map Cal.id)
    (hidx : ∀ kv ∈ index, indexEntryOk st2 gcals kv) :
    ∀ (ts : List Task) (acc : GState × List Action) (doneKeys : List String)
      (k : String),
      DiffInv cfg st2 doneKeys acc.1 →
      (∀ t ∈ ts, k ≠ taskKey t) →
      eventsForKey cfg
        (ts.foldl (syncTaskStep cfg projects gcals index) acc).1 k =
        eventsForKey cfg acc.1 k := by
  intro ts
  induction ts with
  | nil => intro acc doneKeys k _ _; rfl
  | cons t tl ih =>
    intro acc doneKeys k hinv hk
    obtain ⟨st, tr⟩ := acc
    rw [List.foldl_cons]
    have hinv1 := syncTaskStep_inv cfg projects gcals index st2 hwf2 hms hidx
      doneKeys st tr t hinv
    have h1 := ih (syncTaskStep cfg projects gcals index (st, tr) t)
      (doneKeys ++ [taskKey t]) k hinv1
      (fun t' ht' => hk t' (List.mem_cons_of_mem t ht'))
    rw [h1]
    exact syncTaskStep_framekey cfg projects gcals index st2 hwf2 hidx st tr t
      hinv.origin k (hk t (by simp))

lemma syncTasks_fold_main (cfg : Config) (projects : List Project)
    (gcals : List Cal) (index : List (String × GEvent)) (st2 : GState)
    (hwf2 : st2.WF) (hms : managedIds cfg st2 = gcals.map Cal.id)
    (hidx : ∀ kv ∈ index, indexEntryOk st2 gcals kv)
    (hsingle : ∀ k e, mapGet index k = some e → eventsForKey cfg st2 k = [e])
    (hempty : ∀ k, mapGet index k = none → eventsForKey cfg st2 k = []) :
    ∀ (ts : List Task) (acc : GState × List Action) (doneKeys : List String),
      DiffInv cfg st2 doneKeys acc.1 →
      (∀ t ∈ ts, taskKey t ∉ doneKeys) →
      ((ts.map taskKey).Nodup) →
      DiffInv cfg st2 (doneKeys ++ ts.map taskKey)
        (ts.foldl (syncTaskStep cfg projects gcals index) acc).1 ∧
      ∀ t ∈ ts, outcomeFor cfg projects gcals index st2 t
        (ts.foldl (syncTaskStep cfg projects gcals index) acc).1 := by
  intro ts
  induction ts with
  | nil =>
    intro acc doneKeys hinv _ _
    refine ⟨by simpa using hinv, ?_⟩
    intro t ht
    cases ht
  | cons t tl ih =>
    intro acc doneKeys hinv hdisj hnd
    obtain ⟨st, tr⟩ := acc
    rw [List.foldl_cons]
    have htk : taskKey t ∉ doneKeys := hdisj t (by simp)
    have hinv1 := syncTaskStep_inv cfg projects gcals index st2 hwf2 hms hidx
      doneKeys st tr t hinv
    have hout1 := syncTaskStep_outcome cfg projects gcals index st2 hwf2 hms
      hidx hsingle hempty doneKeys st tr t hinv htk
    have hnd_tl : (tl.map taskKey).Nodup := by
      rw [List.map_cons, List.nodup_cons] at hnd
      exact hnd.2
    have hknotl : taskKey t ∉ tl.map taskKey := by
      rw [List.map_cons, List.nodup_cons] at hnd
      exact hnd.1
    have hdisj1 : ∀ t' ∈ tl, taskKey t' ∉ doneKeys ++ [taskKey t] := by
      intro t' ht' hc
      rcases List.mem_append.mp hc with hc | hc
      · exact hdisj t' (List.mem_cons_of_mem t ht') hc
      · simp only [List.mem_singleton] at hc
        exact hknotl (hc ▸ List.mem_map.mpr ⟨t', ht', rfl⟩)
    obtain ⟨hinvF, houtF⟩ := ih (syncTaskStep cfg projects gcals index (st, tr) t)
      (doneKeys ++ [taskKey t]) hinv1 hdisj1 hnd_tl
    have hpres : eventsForKey cfg
        (tl.foldl (syncTaskStep cfg projects gcals index)
          (syncTaskStep cfg projects gcals index (st, tr) t)).1 (taskKey t) =
        eventsForKey cfg (syncTaskStep cfg projects gcals index (st, tr) t).1
          (taskKey t) := by
      refine syncTasks_fold_framekey cfg projects gcals index st2 hwf2 hms hidx
        tl _ (doneKeys ++ [taskKey t]) (taskKey t) hinv1 ?_
      intro t' ht' hc
      exact hknotl (hc ▸ List.mem_map.mpr ⟨t', ht', rfl⟩)
    constructor
    · rw [List.map_cons, List.append_cons]
      exact hinvF
    · intro t' ht'
      rcases List.mem_cons.mp ht' with ht' | ht'
      · subst ht'
        exact outcomeFor_congr cfg projects gcals index st2 t' hpres.symm hout1
      · exact houtF t' ht'

lemma DiffInv_base (cfg : Config) (st2 : GState) (hwf2 : st2.WF) :
    DiffInv cfg st2 [] st2 :=
  ⟨rfl, rfl, rfl, Nat.le_refl _, hwf2.eventsNodup, hwf2.eventsLt, hwf2.eventsCal,
   fun _ _ => rfl, rfl, fun x hx => Or.inr ⟨x, hx, rfl, rfl⟩⟩

lemma syncTasks_char (cfg : Config) (projects : List Project) (gcals : List Cal)
    (index : List (String × GEvent)) (st2 : GState)
    (hwf2 : st2.WF) (hms : managedIds cfg st2 = gcals.map Cal.id)
    (hidx : ∀ kv ∈ index, indexEntryOk st2 gcals kv)
    (hsingle : ∀ k e, mapGet index k = some e → eventsForKey cfg st2 k = [e])
    (hempty : ∀ k, mapGet index k = none → eventsForKey cfg st2 k = [])
    (ts : List Task) (hnd : (ts.map taskKey).Nodup) :
    DiffInv cfg st2 (ts.map taskKey) (syncTasks cfg projects gcals index ts st2).1 ∧
    ∀ t ∈ ts, outcomeFor cfg projects gcals index st2 t
      (syncTasks cfg projects gcals index ts st2).1 := by
  have h := syncTasks_fold_main cfg projects gcals index st2 hwf2 hms hidx
    hsingle hempty ts (st2, []) [] (DiffInv_base cfg st2 hwf2)
    (fun t _ => List.not_mem_nil (taskKey t)) hnd
  rw [List.nil_append] at h
  exact h

/-! ### Index key lemmas -/

lemma mapSet_keys_nodup (m : List (String × GEvent)) (k : String) (v : GEvent)
    (h : (m.map Prod.fst).Nodup) : ((mapSet m k v).map Prod.fst).Nodup := by
  rw [mapSet]
  by_cases hany : (m.any fun kv => kv.1 == k) = true
  · rw [if_pos hany, List.map_map]
    have : (Prod.fst ∘ fun kv : String × GEvent =>
        if kv.1 == k then (k, v) else kv) = Prod.fst := by
      funext kv
      by_cases hk : (kv.1 == k) = true
      · simp only [Function.comp_apply, if_pos hk]
        exact (beq_iff_eq.mp hk).symm
      · simp only [Function.comp_apply, if_neg hk]
    rw [this]
    exact h
  · rw [if_neg hany, List.map_append, List.nodup_append]
    refine ⟨h, by simp, ?_⟩
    intro x hx
    simp only [List.map_cons, List.map_nil, List.mem_singleton]
    intro hx'
    subst hx'
    obtain ⟨kv, hkv, hkvx⟩ := List.mem_map.mp hx
    have := List.any_eq_false.mp ((Bool.not_eq_true _) ▸ hany) kv hkv
    rw [Bool.not_eq_true, beq_eq_false_iff_ne] at this
    exact this hkvx

lemma registerEvent_keys_nodup (cid : Nat) :
    ∀ (evs : List GEvent) (m : List (String × GEvent)),
      (m.map Prod.fst).Nodup →
      ((evs.foldl (registerEvent cid) m).map Prod.fst).Nodup := by
  intro evs
  induction evs with
  | nil => intro m h; exact h
  | cons e tl ih =>
    intro m h
    rw [List.foldl_cons]
    refine ih _ ?_
    rw [registerEvent]
    cases e.vikunjaTaskId with
    | none => exact h
    | some vid => exact mapSet_keys_nodup m vid _ h

lemma indexEvents_keysNodup (st : GState) (gcals : List Cal) :
    (((indexEvents st gcals).1).map Prod.fst).Nodup := by
  rw [indexEvents]
  suffices h : ∀ (cs : List Cal) (acc : List (String × GEvent) × List Action),
      (acc.1.map Prod.fst).Nodup →
      ((cs.foldl (indexCalendarStep st) acc).1.map Prod.fst).Nodup by
    exact h gcals ([], []) (by simp)
  intro cs
  induction cs with
  | nil => intro acc h; exact h
  | cons c tl ih =>
    intro acc h
    rw [List.foldl_cons]
    exact ih _ (registerEvent_keys_nodup c.id _ acc.1 h)

/-! ### Cleanup fold lemmas -/

lemma eventsForKey_sub_delete (cfg : Config) (st : GState) (c i : Nat)
    (k : String) (h : eventsForKey cfg st k = []) :
    eventsForKey cfg (applyDeleteEvent st c i) k = [] := by
  rw [eventsForKey_delete, h]
  rfl

lemma filter_delete_of_ne {l : List GEvent} {c i : Nat}
    (h : ∀ x ∈ l, (x.id == i) = false) :
    l.filter (fun x => !(x.calendarId == c && x.id == i)) = l := by
  rw [List.filter_eq_self]
  intro a ha
  have := h a ha
  simp [this]

lemma ids_ne_of_key_ne {st2 : GState} (hwf2 : st2.WF) {st : GState}
    (horigin : ∀ x ∈ st.events, st2.nextEventId ≤ x.id ∨
      ∃ y ∈ st2.events, y.id = x.id ∧ y.vikunjaTaskId = x.vikunjaTaskId)
    {e2 : GEvent} (he2 : e2 ∈ st2.events) {x : GEvent} (hx : x ∈ st.events)
    (hne : x.vikunjaTaskId ≠ e2.vikunjaTaskId) : (x.id == e2.id) = false := by
  rw [beq_eq_false_iff_ne]
  intro hide
  exact hne (id_key_of_origin hwf2 horigin he2 hx hide)

lemma cleanup_fold_char (cfg : Config) (st2 st3 : GState) (hwf2 : st2.WF)
    (u : List Task) :
    ∀ (idx processed : List (String × GEvent)) (acc : GState × List Action),
      (((processed ++ idx).map Prod.fst).Nodup) →
      (∀ kv ∈ processed ++ idx,
        kv.2 ∈ st2.events ∧ kv.2.vikunjaTaskId = some kv.1) →
      (∀ kv ∈ processed ++ idx, (u.any fun t => taskKey t == kv.1) = false →
        eventsForKey cfg st3 kv.1 = [kv.2]) →
      CleanInv cfg st2 st3 u (processed.map Prod.fst) acc.1 →
      CleanInv cfg st2 st3 u ((processed ++ idx).map Prod.fst)
        (idx.foldl (cleanupStep u) acc).1 := by
  intro idx
  induction idx with
  | nil =>
    intro processed acc _ _ _ hinv
    simpa using hinv
  | cons kv rest ih =>
    intro processed acc hnd hentry hsingle3 hinv
    rw [List.foldl_cons]
    have hassoc : processed ++ kv :: rest = (processed ++ [kv]) ++ rest :=
      List.append_cons processed kv rest
    have hkv_entry := hentry kv (by simp)
    have hkv_notproc : kv.1 ∉ processed.map Prod.fst := by
      intro hc
      rw [List.map_append, List.nodup_append] at hnd
      exact hnd.2.2 hc (by simp)
    have hnd' : (((processed ++ [kv]) ++ rest).map Prod.fst).Nodup := by
      rw [← hassoc]
      exact hnd
    have hentry' : ∀ kv' ∈ (processed ++ [kv]) ++ rest,
        kv'.2 ∈ st2.events ∧ kv'.2.vikunjaTaskId = some kv'.1 := by
      rw [← hassoc]
      exact hentry
    have hsingle3' : ∀ kv' ∈ (processed ++ [kv]) ++ rest,
        (u.any fun t => taskKey t == kv'.1) = false →
        eventsForKey cfg st3 kv'.1 = [kv'.2] := by
      rw [← hassoc]
      exact hsingle3
    by_cases hhas : (u.any fun t => taskKey t == kv.1) = true
    · have hstep : cleanupStep u acc kv = acc := by
        rw [cleanupStep, if_pos hhas]
      rw [hstep]
      have hinv' : CleanInv cfg st2 st3 u ((processed ++ [kv]).map Prod.fst)
          acc.1 := by
        refine ⟨hinv.cals, hinv.keyless, hinv.frameKeep, ?_, ?_, hinv.origin⟩
        · intro k hk hknot
          refine hinv.frameTodo k hk ?_
          intro hc
          exact hknot (by
            rw [List.map_append]
            exact List.mem_append.mpr (Or.inl hc))
        · intro k hk hkfalse
          rw [List.map_append] at hk
          rcases List.mem_append.mp hk with hk | hk
          · exact hinv.deleted k hk hkfalse
          · simp only [List.map_cons, List.map_nil, List.mem_singleton] at hk
            subst hk
            rw [hhas] at hkfalse
            cases hkfalse
      have h := ih (processed ++ [kv]) acc hnd' hentry' hsingle3' hinv'
      rw [hassoc]
      exact h
    · have hhas' : (u.any fun t => taskKey t == kv.1) = false := by
        simpa using hhas
      have hstep : cleanupStep u acc kv =
          (applyDeleteEvent acc.1 kv.2.calendarId kv.2.id,
           acc.2 ++ [Action.deleteEvent kv.2.calendarId kv.2.id,
                     Action.sleep 200]) := by
        rw [cleanupStep, if_neg (by simp [hhas'])]
      rw [hstep]
      have hidne : ∀ (k : String), k ≠ kv.1 →
          ∀ x ∈ eventsForKey cfg acc.1 k, (x.id == kv.2.id) = false := by
        intro k hkne x hx
        refine ids_ne_of_key_ne hwf2 hinv.origin hkv_entry.1
          (mem_of_mem_eventsForKey hx) ?_
        rw [key_of_mem_eventsForKey hx, hkv_entry.2]
        intro hc
        exact hkne (Option.some.inj hc)
      have hinv' : CleanInv cfg st2 st3 u ((processed ++ [kv]).map Prod.fst)
          (applyDeleteEvent acc.1 kv.2.calendarId kv.2.id) := by
        refine ⟨hinv.cals, ?_, ?_, ?_, ?_, ?_⟩
        · rw [keylessEvents_delete, filter_delete_of_ne, hinv.keyless]
          intro x hx
          refine ids_ne_of_key_ne hwf2 hinv.origin hkv_entry.1
            (mem_of_mem_keyless hx) ?_
          rw [key_of_mem_keyless hx, hkv_entry.2]
          intro hc
          cases hc
        · intro k hk
          rw [eventsForKey_delete, filter_delete_of_ne, hinv.frameKeep k hk]
          refine hidne k ?_
          intro hc
          subst hc
          rw [hk] at hhas'
          cases hhas'
        · intro k hk hknot
          have hkne : k ≠ kv.1 := by
            intro hc
            exact hknot (by
              rw [List.map_append, hc]
              exact List.mem_append.mpr (Or.inr (by simp)))
          rw [eventsForKey_delete, filter_delete_of_ne (hidne k hkne),
            hinv.frameTodo k hk (fun hc => hknot (by
              rw [List.map_append]
              exact List.mem_append.mpr (Or.inl hc)))]
        · intro k hk hkfalse
          rw [List.map_append] at hk
          rcases List.mem_append.mp hk with hk | hk
          · exact eventsForKey_sub_delete cfg acc.1 kv.2.calendarId kv.2.id k
              (hinv.deleted k hk hkfalse)
          · simp only [List.map_cons, List.map_nil, List.mem_singleton] at hk
            subst hk
            have hacc : eventsForKey cfg acc.1 kv.1 = [kv.2] := by
              rw [hinv.frameTodo kv.1 hkfalse hkv_notproc]
              exact hsingle3 kv (by simp) hhas'
            rw [eventsForKey_delete, hacc]
            simp
        · intro x hx
          exact hinv.origin x (List.mem_of_mem_filter hx)
      have h := ih (processed ++ [kv])
        (applyDeleteEvent acc.1 kv.2.calendarId kv.2.id,
         acc.2 ++ [Action.deleteEvent kv.2.calendarId kv.2.id, Action.sleep 200])
        hnd' hentry' hsingle3' hinv'
      rw [hassoc]
      exact h

/-! ### Cycle setup lemma -/

lemma getManagedCalendars_true (cfg : Config) (st : GState) :
    getManagedCalendars true cfg st = managedCals cfg st :=
  rfl

lemma keylessEvents_congr {st st' : GState} (h : st.events = st'.events) :
    keylessEvents st = keylessEvents st' := by
  rw [keylessEvents, keylessEvents, h]

lemma cycle_setup (cfg : Config) (pResp : Except Unit (List Project))
    (st0 : GState) (hwf : st0.WF) :
    (cycleShare cfg pResp true st0).1.WF ∧
    managedIds cfg (cycleShare cfg pResp true st0).1 =
      (cycleGcals cfg pResp true st0).map Cal.id ∧
    (cycleShare cfg pResp true st0).1.events = st0.events ∧
    (cycleShare cfg pResp true st0).1.now = st0.now ∧
    (cycleShare cfg pResp true st0).1.nextEventId = st0.nextEventId ∧
    (∀ k, eventsForKey cfg (cycleShare cfg pResp true st0).1 k =
      eventsForKey cfg st0 k) ∧
    keylessEvents (cycleShare cfg pResp true st0).1 = keylessEvents st0 ∧
    (∀ p ∈ getVikunjaProjects pResp, ∃ c ∈ cycleGcals cfg pResp true st0,
      c.summary = calName cfg p.title) ∧
    (∀ c ∈ cycleGcals cfg pResp true st0,
      ∃ sc ∈ (cycleShare cfg pResp true st0).1.calendars,
        sc.id = c.id ∧ cfg.shareEmail ∈ sc.shared) := by
  obtain ⟨d, hg, hdelta⟩ := reconcileCalendars_char cfg
    (getVikunjaProjects pResp) (getManagedCalendars true cfg st0) st0
  have hwf1 : (cycleProvision cfg pResp true st0).2.1.WF :=
    provisionDelta_WF cfg hdelta hwf
  have hmanaged1 : managedCals cfg (cycleProvision cfg pResp true st0).2.1 =
      managedCals cfg st0 ++ d := provisionDelta_managed cfg hdelta
  have hgcals : cycleGcals cfg pResp true st0 =
      managedCals cfg (cycleProvision cfg pResp true st0).2.1 := by
    rw [hmanaged1]
    exact hg
  obtain ⟨gsh, hgsh, hpsh, hevsh, hnevsh, hncsh, hnowsh⟩ :=
    share_fold_calendars cfg (cycleGcals cfg pResp true st0)
      ((cycleProvision cfg pResp true st0).2.1, [])
  obtain ⟨hcal1, hev1, hnev1, hnow1, hle1, hprops1, hnd1⟩ := hdelta
  have hstwf : (cycleShare cfg pResp true st0).1.WF :=
    share_fold_WF cfg _ _ hwf1
  have hev2 : (cycleShare cfg pResp true st0).1.events = st0.events := by
    rw [cycleShare, shareCalendars]
    rw [hevsh]
    exact hev1
  have hnow2 : (cycleShare cfg pResp true st0).1.now = st0.now := by
    rw [cycleShare, shareCalendars, hnowsh]
    exact hnow1
  have hnev2 : (cycleShare cfg pResp true st0).1.nextEventId = st0.nextEventId := by
    rw [cycleShare, shareCalendars, hnevsh]
    exact hnev1
  have hmids1 : managedIds cfg (cycleShare cfg pResp true st0).1 =
      managedIds cfg (cycleProvision cfg pResp true st0).2.1 := by
    rw [cycleShare, shareCalendars]
    exact share_fold_managedIds cfg _ _
  have hms : managedIds cfg (cycleShare cfg pResp true st0).1 =
      (cycleGcals cfg pResp true st0).map Cal.id := by
    rw [hmids1, managedIds, ← hgcals]
  have hmids0 : managedIds cfg (cycleShare cfg pResp true st0).1 =
      managedIds cfg st0 ++ d.map Cal.id := by
    rw [hmids1, managedIds, hmanaged1, List.map_append]
    rfl
  refine ⟨hstwf, hms, hev2, hnow2, hnev2, ?_, ?_, ?_, ?_⟩
  · intro k
    rw [eventsForKey, eventsForKey, hev2, hmids0]
    apply List.filter_congr
    intro x hx
    have hcont : ((managedIds cfg st0 ++ d.map Cal.id).contains x.calendarId) =
        ((managedIds cfg st0).contains x.calendarId) := by
      obtain ⟨c, hc, hcc⟩ := hwf.eventsCal x hx
      have hxlt : x.calendarId < st0.nextCalId := by
        rw [hcc]
        exact hwf.calsLt c hc
      have hnotd : x.calendarId ∉ d.map Cal.id := by
        intro hmemd
        obtain ⟨c2, hc2, hc2x⟩ := List.mem_map.mp hmemd
        obtain ⟨_, _, h3, _⟩ := hprops1 c2 hc2
        rw [← hc2x] at hxlt
        exact absurd (Nat.lt_of_lt_of_le hxlt h3) (lt_irrefl _)
      refine Bool.eq_iff_iff.mpr ?_
      rw [List.elem_iff, List.elem_iff, List.mem_append]
      constructor
      · intro h
        rcases h with h | h
        · exact h
        · exact absurd h hnotd
      · exact Or.inl
    rw [hcont]
  · rw [keylessEvents_congr hev2]
  · intro p hp
    have h := rc_covers cfg (getVikunjaProjects pResp)
      (getManagedCalendars true cfg st0, st0, []) p hp
    exact h
  · intro c hc
    rw [cycleShare, shareCalendars]
    refine share_fold_shares cfg (cycleGcals cfg pResp true st0) _ c hc ?_
    refine ⟨c, ?_, rfl⟩
    show c ∈ (cycleProvision cfg pResp true st0).2.1.calendars
    rw [hgcals] at hc
    exact (List.mem_filter.mp hc).1

/-! ### Map membership lemmas -/

lemma mapGet_of_mem_nodup : ∀ (m : List (String × GEvent)),
    (m.map Prod.fst).Nodup → ∀ kv ∈ m, mapGet m kv.1 = some kv.2 := by
  intro m
  induction m with
  | nil => intro _ kv hkv; cases hkv
  | cons kv0 tl ih =>
    intro hnd kv hkv
    rw [List.map_cons, List.nodup_cons] at hnd
    rcases List.mem_cons.mp hkv with hkv | hkv
    · rw [hkv, mapGet,
        find?_cons_pos (fun x => x.1 == kv0.1) kv0 tl (beq_self_eq_true _)]
      rfl
    · have hne : (kv0.1 == kv.1) = false := by
        rw [beq_eq_false_iff_ne]
        intro hc
        exact hnd.1 (hc ▸ List.mem_map.mpr ⟨kv, hkv, rfl⟩)
      rw [mapGet, find?_cons_neg _ kv0 tl hne]
      exact ih hnd.2 kv hkv

lemma mapGet_eq_none (m : List (String × GEvent)) (k : String)
    (h : k ∉ m.map Prod.fst) : mapGet m k = none := by
  rw [mapGet]
  have : m.find? (fun kv => kv.1 == k) = none := by
    rw [List.find?_eq_none]
    intro kv hkv
    rw [Bool.not_eq_true, beq_eq_false_iff_ne]
    intro hc
    exact h (hc ▸ List.mem_map.mpr ⟨kv, hkv, rfl⟩)
  rw [this]
  rfl

lemma cleanup_fold_scalars (u : List Task) :
    ∀ (idx : List (String × GEvent)) (acc : GState × List Action),
      (idx.foldl (cleanupStep u) acc).1.calendars = acc.1.calendars ∧
      (idx.foldl (cleanupStep u) acc).1.now = acc.1.now ∧
      (idx.foldl (cleanupStep u) acc).1.nextCalId = acc.1.nextCalId ∧
      (idx.foldl (cleanupStep u) acc).1.nextEventId = acc.1.nextEventId ∧
      (idx.foldl (cleanupStep u) acc).1.events.Sublist acc.1.events := by
  intro idx
  induction idx with
  | nil =>
    intro acc
    exact ⟨rfl, rfl, rfl, rfl, List.Sublist.refl _⟩
  | cons kv rest ih =>
    intro acc
    rw [List.foldl_cons]
    obtain ⟨h1, h2, h3, h4, h5⟩ := ih (cleanupStep u acc kv)
    have hc1 : (cleanupStep u acc kv).1.calendars = acc.1.calendars := by
      rw [cleanupStep]
      split <;> rfl
    have hc2 : (cleanupStep u acc kv).1.now = acc.1.now := by
      rw [cleanupStep]
      split <;> rfl
    have hc3 : (cleanupStep u acc kv).1.nextCalId = acc.1.nextCalId := by
      rw [cleanupStep]
      split <;> rfl
    have hc4 : (cleanupStep u acc kv).1.nextEventId = acc.1.nextEventId := by
      rw [cleanupStep]
      split <;> rfl
    have hc5 : (cleanupStep u acc kv).1.events.Sublist acc.1.events := by
      rw [cleanupStep]
      split
      · exact List.Sublist.refl _
      · exact List.filter_sublist _
    exact ⟨h1.trans hc1, h2.trans hc2, h3.trans hc3, h4.trans hc4,
      h5.trans hc5⟩

/-! ### Whole cycle characterization -/

lemma runSync_char (cfg : Config) (pResp : Except Unit (List Project))
    (tResp : Except Unit (List Task)) (st0 : GState) (hwf : st0.WF)
    (hamo : atMostOnePerKey cfg st0)
    (hkeys : ((uncompletedTasks tResp).map taskKey).Nodup) :
    (∀ t ∈ uncompletedTasks tResp,
      outcomeFor cfg (getVikunjaProjects pResp) (cycleGcals cfg pResp true st0)
        (cycleIndex cfg pResp true st0) (cycleShare cfg pResp true st0).1 t
        (runSync cfg pResp tResp true st0).1) ∧
    (∀ k, ((uncompletedTasks tResp).any fun t => taskKey t == k) = false →
      eventsForKey cfg (runSync cfg pResp tResp true st0).1 k = []) ∧
    keylessEvents (runSync cfg pResp tResp true st0).1 = keylessEvents st0 ∧
    atMostOnePerKey cfg (runSync cfg pResp tResp true st0).1 ∧
    (runSync cfg pResp tResp true st0).1.calendars =
      (cycleShare cfg pResp true st0).1.calendars ∧
    (runSync cfg pResp tResp true st0).1.now = st0.now ∧
    (runSync cfg pResp tResp true st0).1.WF := by
  obtain ⟨hwf2, hms, hev2, hnow2, hnev2, hkey2, hkeyless2, hcov, hsh⟩ :=
    cycle_setup cfg pResp st0 hwf
  set u := uncompletedTasks tResp with hu
  set projects := getVikunjaProjects pResp with hprojects
  set gcals := cycleGcals cfg pResp true st0 with hgcals
  set st2 := (cycleShare cfg pResp true st0).1 with hst2
  set index := cycleIndex cfg pResp true st0 with hindex
  have hidx : ∀ kv ∈ index, indexEntryOk st2 gcals kv :=
    indexEvents_entries st2 gcals
  have hkeysnd : (index.map Prod.fst).Nodup := indexEvents_keysNodup st2 gcals
  have hamo2 : atMostOnePerKey cfg st2 := by
    intro k
    rw [hkey2 k]
    exact hamo k
  have hsingle : ∀ k e, mapGet index k = some e → eventsForKey cfg st2 k = [e] :=
    fun k e h => index_single_of_some cfg st2 gcals hms hamo2 k e h
  have hempty : ∀ k, mapGet index k = none → eventsForKey cfg st2 k = [] :=
    fun k h => index_empty_of_none cfg st2 gcals hms k h
  obtain ⟨hdiffinv, houtcomes⟩ := syncTasks_char cfg projects gcals index st2
    hwf2 hms hidx hsingle hempty u hkeys
  set st3 := (cycleDiff cfg pResp tResp true st0).1 with hst3
  have hst3eq : st3 = (syncTasks cfg projects gcals index u st2).1 := rfl
  rw [← hst3eq] at hdiffinv houtcomes
  have hsingle3 : ∀ kv ∈ ([] : List (String × GEvent)) ++ index,
      (u.any fun t => taskKey t == kv.1) = false →
      eventsForKey cfg st3 kv.1 = [kv.2] := by
    intro kv hkv hhas
    rw [List.nil_append] at hkv
    have hnotdone : kv.1 ∉ u.map taskKey := by
      intro hc
      obtain ⟨t, ht, htx⟩ := List.mem_map.mp hc
      have := List.any_eq_false.mp hhas t ht
      rw [htx] at this
      exact this (beq_self_eq_true _)
    rw [hdiffinv.frame kv.1 hnotdone]
    exact hsingle kv.1 kv.2 (mapGet_of_mem_nodup index hkeysnd kv hkv)
  have hentry2 : ∀ kv ∈ ([] : List (String × GEvent)) ++ index,
      kv.2 ∈ st2.events ∧ kv.2.vikunjaTaskId = some kv.1 := by
    intro kv hkv
    rw [List.nil_append] at hkv
    obtain ⟨h1, h2, _⟩ := hidx kv hkv
    exact ⟨h1, h2⟩
  have hcleanbase : CleanInv cfg st2 st3 u (([] : List (String × GEvent)).map Prod.fst) st3 :=
    ⟨rfl, rfl, fun _ _ => rfl, fun _ _ _ => rfl, fun k hk => absurd hk (by simp),
     hdiffinv.origin⟩
  have hclean := cleanup_fold_char cfg st2 st3 hwf2 u index [] (st3, [])
    (by rw [List.nil_append]; exact hkeysnd) hentry2 hsingle3 hcleanbase
  rw [List.nil_append] at hclean
  have hfinal : (runSync cfg pResp tResp true st0).1 =
      (index.foldl (cleanupStep u) (st3, [])).1 := rfl
  obtain ⟨hsc1, hsc2, hsc3, hsc4, hsc5⟩ := cleanup_fold_scalars u index (st3, [])
  have hfinalcals : (runSync cfg pResp tResp true st0).1.calendars = st2.calendars := by
    rw [hfinal, hsc1]
    exact hdiffinv.cals
  refine ⟨?_, ?_, ?_, ?_, hfinalcals, ?_, ?_⟩
  · intro t ht
    have hpres : eventsForKey cfg (runSync cfg pResp tResp true st0).1 (taskKey t) =
        eventsForKey cfg st3 (taskKey t) := by
      rw [hfinal]
      refine hclean.frameKeep (taskKey t) ?_
      rw [List.any_eq_true]
      exact ⟨t, ht, beq_self_eq_true _⟩
    exact outcomeFor_congr cfg projects gcals index st2 t hpres.symm
      (houtcomes t ht)
  · intro k hhas
    by_cases hkidx : k ∈ index.map Prod.fst
    · rw [hfinal]
      exact hclean.deleted k hkidx hhas
    · have h3 : eventsForKey cfg st3 k = [] := by
        have hnotdone : k ∉ u.map taskKey := by
          intro hc
          obtain ⟨t, ht, htx⟩ := List.mem_map.mp hc
          have := List.any_eq_false.mp hhas t ht
          rw [htx] at this
          exact this (beq_self_eq_true _)
        rw [hdiffinv.frame k hnotdone]
        exact hempty k (mapGet_eq_none index k hkidx)
      rw [hfinal, hclean.frameTodo k hhas hkidx]
      exact h3
  · rw [hfinal, hclean.keyless, hdiffinv.keyless]
    exact hkeyless2
  · intro k
    by_cases hhas : (u.any fun t => taskKey t == k) = true
    · rw [List.any_eq_true] at hhas
      obtain ⟨t, ht, htk⟩ := hhas
      have htkk : taskKey t = k := beq_iff_eq.mp htk
      have hpres : eventsForKey cfg (runSync cfg pResp tResp true st0).1 (taskKey t) =
          eventsForKey cfg st3 (taskKey t) := by
        rw [hfinal]
        refine hclean.frameKeep (taskKey t) ?_
        rw [List.any_eq_true]
        exact ⟨t, ht, beq_self_eq_true _⟩
      have hout := houtcomes t ht
      rw [← htkk]
      rw [hpres]
      cases hr : resolveProject projects t with
      | none =>
        rw [outcomeFor_eq_noproj cfg projects gcals index st2 t _ hr] at hout
        rw [hout, hkey2]
        exact hamo (taskKey t)
      | some proj =>
        cases hf : gcals.find? (fun c => c.summary == calName cfg proj.title) with
        | none =>
          rw [outcomeFor_eq_nocal cfg projects gcals index st2 t _ proj hr hf] at hout
          rw [hout, hkey2]
          exact hamo (taskKey t)
        | some g =>
          cases hm : mapGet index (taskKey t) with
          | none =>
            rw [outcomeFor_eq_create cfg projects gcals index st2 t _ proj g
              hr hf hm] at hout
            obtain ⟨e2, he2, _⟩ := hout
            rw [he2]
            exact Nat.le_refl _
          | some e =>
            rw [outcomeFor_eq_act cfg projects gcals index st2 t _ proj g e
              hr hf hm] at hout
            by_cases hcall : (e.calendarId != g.id || decide (e.updated < t.updated_at)
                || e.transparency != "opaque") = true
            · rw [if_pos hcall] at hout
              obtain ⟨e2, he2, _⟩ := hout
              rw [he2]
              exact Nat.le_refl _
            · rw [if_neg hcall] at hout
              rw [hout]
              exact Nat.le_refl _
    · have hhas' : (u.any fun t => taskKey t == k) = false := by simpa using hhas
      by_cases hkidx : k ∈ index.map Prod.fst
      · rw [hfinal, hclean.deleted k hkidx hhas']
        exact Nat.zero_le _
      · have hnotdone : k ∉ u.map taskKey := by
          intro hc
          obtain ⟨t, ht, htx⟩ := List.mem_map.mp hc
          have := List.any_eq_false.mp hhas' t ht
          rw [htx] at this
          exact this (beq_self_eq_true _)
        rw [hfinal, hclean.frameTodo k hhas' hkidx, hdiffinv.frame k hnotdone,
          hkey2]
        exact hamo k
  · rw [hfinal, hsc2]
    show st3.now = st0.now
    rw [hdiffinv.nowEq]
    exact hnow2
  · constructor
    · rw [hfinalcals]
      exact hwf2.calsNodup
    · rw [hfinal]
      refine List.Nodup.sublist (hsc5.map GEvent.id) ?_
      exact hdiffinv.nodup
    · intro e he
      rw [hfinal] at he ⊢
      rw [hsc4]
      exact hdiffinv.evLt e (hsc5.mem he)
    · intro c hc
      rw [hfinal] at hc ⊢
      rw [hsc3, hsc1] at *
      show c.id < st3.nextCalId
      rw [hdiffinv.nextCal]
      refine hwf2.calsLt c ?_
      rw [← hdiffinv.cals]
      rw [hsc1] at hc
      exact hc
    · intro e he
      rw [hfinal] at he
      obtain ⟨c, hcm, hcc⟩ := hdiffinv.evCal e (hsc5.mem he)
      refine ⟨c, ?_, hcc⟩
      rw [hfinal, hsc1]
      exact hcm

/-! ### Claim C1: convergence and the correspondence invariant -/

lemma atMostOne_of_keyless (cfg : Config) (st : GState)
    (h : ∀ e ∈ st.events, e.vikunjaTaskId = none) :
    atMostOnePerKey cfg st := by
  intro k
  have hnil : eventsForKey cfg st k = [] := by
    rw [eventsForKey, List.filter_eq_nil_iff]
    intro e he
    simp [h e he]
  rw [hnil]
  exact Nat.zero_le _

/-- Claim C1 (amended): in a successful cycle started from a well-formed
sink state satisfying the correspondence invariant, with distinct task
identifiers among the uncompleted tasks, every uncompleted task with a
due date whose project and target calendar resolve ends the cycle with
exactly one live remote event carrying its identifier, in the target
calendar; that event matches the payload built from the task unless a
pre-existing indexed event in the target calendar was already "opaque"
and not older than the task, in which case that event is kept verbatim
(its summary, description and dates may differ from the task). The
correspondence invariant (at most one live event per identifier across
managed calendars) holds again at the end of the cycle. -/
theorem runSync_convergence (cfg : Config) (pResp : Except Unit (List Project))
    (tResp : Except Unit (List Task)) (st0 : GState) (hwf : st0.WF)
    (hamo : atMostOnePerKey cfg st0)
    (hkeys : ((uncompletedTasks tResp).map taskKey).Nodup)
    (t : Task) (ht : t ∈ uncompletedTasks tResp) (proj : Project)
    (hr : resolveProject (getVikunjaProjects pResp) t = some proj)
    (g : Cal)
    (hf : (cycleGcals cfg pResp true st0).find?
      (fun c => c.summary == calName cfg proj.title) = some g) :
    (∃ e2, eventsForKey cfg (runSync cfg pResp tResp true st0).1 (taskKey t) =
        [e2] ∧
      e2.calendarId = g.id ∧ e2.vikunjaTaskId = some (taskKey t) ∧
      (matchesPayload e2 (buildGoogleEvent cfg t) ∨
        (mapGet (cycleIndex cfg pResp true st0) (taskKey t) = some e2 ∧
          t.updated_at ≤ e2.updated ∧ e2.transparency = "opaque"))) ∧
    atMostOnePerKey cfg (runSync cfg pResp tResp true st0).1 := by
  obtain ⟨houtcomes, -, -, hamoF, -, -, -⟩ :=
    runSync_char cfg pResp tResp st0 hwf hamo hkeys
  refine ⟨?_, hamoF⟩
  have hout := houtcomes t ht
  cases hm : mapGet (cycleIndex cfg pResp true st0) (taskKey t) with
  | none =>
    rw [outcomeFor_eq_create cfg (getVikunjaProjects pResp)
      (cycleGcals cfg pResp true st0) (cycleIndex cfg pResp true st0)
      (cycleShare cfg pResp true st0).1 t _ proj g hr hf hm] at hout
    obtain ⟨e2, he, hcal, hmp, -⟩ := hout
    refine ⟨e2, he, hcal, ?_, Or.inl hmp⟩
    rw [hmp.2.2.2.2.2, buildGoogleEvent_key]
  | some e =>
    rw [outcomeFor_eq_act cfg (getVikunjaProjects pResp)
      (cycleGcals cfg pResp true st0) (cycleIndex cfg pResp true st0)
      (cycleShare cfg pResp true st0).1 t _ proj g e hr hf hm] at hout
    by_cases hcall : (e.calendarId != g.id || decide (e.updated < t.updated_at)
        || e.transparency != "opaque") = true
    · rw [if_pos hcall] at hout
      obtain ⟨e2, he, hcal, hmp, -⟩ := hout
      refine ⟨e2, he, hcal, ?_, Or.inl hmp⟩
      rw [hmp.2.2.2.2.2, buildGoogleEvent_key]
    · rw [if_neg hcall] at hout
      have hcall' : (e.calendarId != g.id || decide (e.updated < t.updated_at)
          || e.transparency != "opaque") = false := by simpa using hcall
      have h1 : e.calendarId = g.id := by
        by_contra hne
        rw [(by simpa [bne_iff_ne] using hne :
          (e.calendarId != g.id) = true)] at hcall'
        simp at hcall'
      have h2 : t.updated_at ≤ e.updated := by
        by_contra hle
        rw [(decide_eq_true (Nat.lt_of_not_le hle) :
          decide (e.updated < t.updated_at) = true)] at hcall'
        simp at hcall'
      have h3 : e.transparency = "opaque" := by
        by_contra hne
        rw [(by simpa [bne_iff_ne] using hne :
          (e.transparency != "opaque") = true)] at hcall'
        simp at hcall'
      have hkeye : e.vikunjaTaskId = some (taskKey t) :=
        key_of_mem_eventsForKey (by rw [hout]; exact List.mem_singleton.mpr rfl)
      exact ⟨e, hout, h1, hkeye, Or.inr ⟨rfl, h2, h3⟩⟩

/-- Witness for C1: starting from the provisioned empty example state,
the cycle for the example task converges on a single matching event. -/
theorem runSync_convergence_witness :
    exStCal.WF ∧
    ((∃ e2, eventsForKey exCfg
        (runSync exCfg (Except.ok [exProj]) (Except.ok [exTask]) true
          exStCal).1 (taskKey exTask) = [e2] ∧
      e2.calendarId = exCal.id ∧ e2.vikunjaTaskId = some (taskKey exTask) ∧
      (matchesPayload e2 (buildGoogleEvent exCfg exTask) ∨
        (mapGet (cycleIndex exCfg (Except.ok [exProj]) true exStCal)
            (taskKey exTask) = some e2 ∧
          exTask.updated_at ≤ e2.updated ∧ e2.transparency = "opaque"))) ∧
    atMostOnePerKey exCfg
      (runSync exCfg (Except.ok [exProj]) (Except.ok [exTask]) true
        exStCal).1) := by
  have hwf : exStCal.WF := ⟨by decide, by decide, by decide, by decide, by decide⟩
  refine ⟨hwf, ?_⟩
  exact runSync_convergence exCfg (Except.ok [exProj]) (Except.ok [exTask])
    exStCal hwf (atMostOne_of_keyless exCfg exStCal (by decide)) (by decide)
    exTask (by decide) exProj rfl exCal rfl

/-- Counterexample for C1 as stated: from a state holding a pre-existing
"opaque" event for the example task whose timestamp is not older than the
task but whose summary differs from the task title, the successful cycle
ends with that event unchanged, so the surviving event does not match the
task content. -/
theorem runSync_convergence_counterexample :
    exTask.done = false ∧ exTask.due_date.isSome = true ∧
    resolveProject [exProj] exTask = some exProj ∧
    eventsForKey exCfg
      (runSync exCfg (Except.ok [exProj]) (Except.ok [exTask]) true
        exStWrong).1 (taskKey exTask) = [exEventWrong] ∧
    exEventWrong.summary ≠ exTask.title := by
  refine ⟨rfl, rfl, rfl, by decide, by decide⟩


/-! ### Claim C10: foreign events are never touched -/

/-- Claim C10: an event without the private task-identifier property is
never registered in the event index, and the events without the property
are exactly the same, with identical content, after a successful cycle as
before it: no phase updates or deletes an event the reconciler did not
create. -/
theorem keyless_events_untouched (cfg : Config)
    (pResp : Except Unit (List Project)) (tResp : Except Unit (List Task))
    (st0 : GState) (hwf : st0.WF) (hamo : atMostOnePerKey cfg st0)
    (hkeys : ((uncompletedTasks tResp).map taskKey).Nodup) :
    (∀ e : GEvent, e.vikunjaTaskId = none →
      ∀ kv ∈ cycleIndex cfg pResp true st0, kv.2 ≠ e) ∧
    keylessEvents (runSync cfg pResp tResp true st0).1 = keylessEvents st0 := by
  constructor
  · intro e he kv hkv hc
    have hok := indexEvents_entries (cycleShare cfg pResp true st0).1
      (cycleGcals cfg pResp true st0) kv hkv
    obtain ⟨-, hkey, -⟩ := hok
    rw [hc, he] at hkey
    exact Option.noConfusion hkey
  · obtain ⟨-, -, hkeyless, -, -, -, -⟩ :=
      runSync_char cfg pResp tResp st0 hwf hamo hkeys
    exact hkeyless

/-- Witness for C10: the foreign event survives the cycle untouched and
is never indexed. -/
theorem keyless_events_untouched_witness :
    exStForeign.WF ∧
    ((∀ e : GEvent, e.vikunjaTaskId = none →
      ∀ kv ∈ cycleIndex exCfg (Except.ok [exProj]) true exStForeign,
        kv.2 ≠ e) ∧
    keylessEvents
        (runSync exCfg (Except.ok [exProj]) (Except.ok [exTask]) true
          exStForeign).1 = keylessEvents exStForeign) := by
  have hwf : exStForeign.WF :=
    ⟨by decide, by decide, by decide, by decide, by decide⟩
  refine ⟨hwf, ?_⟩
  exact keyless_events_untouched exCfg (Except.ok [exProj])
    (Except.ok [exTask]) exStForeign hwf
    (atMostOne_of_keyless exCfg exStForeign (by decide)) (by decide)


/-! ### Claim C7: skipped tasks are left untouched -/

lemma rc_trace_shape (cfg : Config) :
    ∀ (ps : List Project) (acc : List Cal × GState × List Action),
      ∀ a ∈ (ps.foldl (ensureCalendarStep cfg) acc).2.2,
        a ∈ acc.2.2 ∨ (∃ n, a = Action.createCalendar n) ∨
          a = Action.sleep 200 := by
  intro ps
  induction ps with
  | nil => intro acc a ha; exact Or.inl ha
  | cons p tl ih =>
    intro acc a ha
    rw [List.foldl_cons] at ha
    cases hf : acc.1.find? (fun c => c.summary == calName cfg p.title) with
    | some c0 =>
      have hstep : ensureCalendarStep cfg acc p = acc := by
        simp [ensureCalendarStep, hf]
      rw [hstep] at ha
      exact ih acc a ha
    | none =>
      have hstep : ensureCalendarStep cfg acc p =
          (acc.1 ++ [(createGoogleCalendar cfg acc.2.1 p.title).1],
           (createGoogleCalendar cfg acc.2.1 p.title).2,
           acc.2.2 ++ [Action.createCalendar (calName cfg p.title),
                       Action.sleep 200]) := by
        simp [ensureCalendarStep, hf]
      rw [hstep] at ha
      rcases ih _ a ha with h | h
      · rcases List.mem_append.mp h with h | h
        · exact Or.inl h
        · simp only [List.mem_cons, List.not_mem_nil, or_false] at h
          rcases h with h | h
          · exact Or.inr (Or.inl ⟨calName cfg p.title, h⟩)
          · exact Or.inr (Or.inr h)
      · exact Or.inr h

lemma share_trace_shape (cfg : Config) :
    ∀ (cs : List Cal) (acc : GState × List Action),
      ∀ a ∈ (cs.foldl (shareStep cfg) acc).2,
        a ∈ acc.2 ∨ (∃ ci em, a = Action.aclInsert ci em) ∨
          a = Action.sleep 200 := by
  intro cs
  induction cs with
  | nil => intro acc a ha; exact Or.inl ha
  | cons c tl ih =>
    intro acc a ha
    rw [List.foldl_cons] at ha
    rcases ih (shareStep cfg acc c) a ha with h | h
    · have hsh : (shareStep cfg acc c).2 =
          (ensureCalendarIsShared cfg acc c).2 ++ [Action.sleep 200] := rfl
      rw [hsh] at h
      rcases List.mem_append.mp h with h | h
      · cases hf : acc.1.calendars.find? (fun y => y.id == c.id) with
        | none =>
          have he : ensureCalendarIsShared cfg acc c = acc := by
            simp [ensureCalendarIsShared, hf]
          rw [he] at h
          exact Or.inl h
        | some sc =>
          by_cases hs : cfg.shareEmail ∈ sc.shared
          · have he : ensureCalendarIsShared cfg acc c = acc := by
              simp [ensureCalendarIsShared, hf, hs]
            rw [he] at h
            exact Or.inl h
          · have he : (ensureCalendarIsShared cfg acc c).2 =
                acc.2 ++ [Action.aclInsert c.id cfg.shareEmail] := by
              simp [ensureCalendarIsShared, hf, hs]
            rw [he] at h
            rcases List.mem_append.mp h with h | h
            · exact Or.inl h
            · simp only [List.mem_singleton] at h
              exact Or.inr (Or.inl ⟨c.id, cfg.shareEmail, h⟩)
      · simp only [List.mem_singleton] at h
        exact Or.inr (Or.inr h)
    · exact Or.inr h

lemma index_trace_sleeps (st : GState) :
    ∀ (cs : List Cal) (acc : List (String × GEvent) × List Action),
      ∀ a ∈ (cs.foldl (indexCalendarStep st) acc).2,
        a ∈ acc.2 ∨ a = Action.sleep 200 := by
  intro cs
  induction cs with
  | nil => intro acc a ha; exact Or.inl ha
  | cons c tl ih =>
    intro acc a ha
    rw [List.foldl_cons] at ha
    rcases ih (indexCalendarStep st acc c) a ha with h | h
    · have hix : (indexCalendarStep st acc c).2 =
          acc.2 ++ [Action.sleep 200] := rfl
      rw [hix] at h
      rcases List.mem_append.mp h with h | h
      · exact Or.inl h
      · exact Or.inr (by simpa using h)
    · exact Or.inr h

lemma insertUpdateFrom_of_forms (cfg : Config) (projects : List Project)
    (gcals : List Cal) (t : Task) (ts : List Task) (ht : t ∈ ts)
    (hacts : taskActs cfg projects gcals t) (a : Action)
    (h : a = Action.sleep 200 ∨ (∃ c i, a = Action.deleteEvent c i) ∨
      (∃ c, a = Action.insertEvent c (buildGoogleEvent cfg t)) ∨
      (∃ c i, a = Action.updateEvent c i (buildGoogleEvent cfg t))) :
    insertUpdateFrom cfg projects gcals ts a := by
  intro cid eid p hp
  rcases h with h | ⟨c, i, h⟩ | ⟨c, h⟩ | ⟨c, i, h⟩ <;> subst h
  · rcases hp with hp | hp <;> cases hp
  · rcases hp with hp | hp <;> cases hp
  · rcases hp with hp | hp
    · cases hp
      exact ⟨t, ht, hacts, rfl⟩
    · cases hp
  · rcases hp with hp | hp
    · cases hp
    · cases hp
      exact ⟨t, ht, hacts, rfl⟩

lemma syncTasks_trace_from (cfg : Config) (projects : List Project)
    (gcals : List Cal) (index : List (String × GEvent)) :
    ∀ (ts : List Task) (acc : GState × List Action),
      ∀ a ∈ (ts.foldl (syncTaskStep cfg projects gcals index) acc).2,
        a ∈ acc.2 ∨ insertUpdateFrom cfg projects gcals ts a := by
  intro ts
  induction ts with
  | nil => intro acc a ha; exact Or.inl ha
  | cons t tl ih =>
    intro acc a ha
    rw [List.foldl_cons] at ha
    have hmono : insertUpdateFrom cfg projects gcals tl a →
        insertUpdateFrom cfg projects gcals (t :: tl) a := by
      intro h cid eid p hp
      obtain ⟨t2, ht2, hacts2, hpe⟩ := h cid eid p hp
      exact ⟨t2, List.mem_cons_of_mem t ht2, hacts2, hpe⟩
    rcases ih (syncTaskStep cfg projects gcals index acc t) a ha with h | h
    · cases hr : resolveProject projects t with
      | none =>
        have hstep : syncTaskStep cfg projects gcals index acc t = acc := by
          simp [syncTaskStep, hr]
        rw [hstep] at h
        exact Or.inl h
      | some proj =>
        cases hf : gcals.find? (fun c => c.summary == calName cfg proj.title) with
        | none =>
          have hstep : syncTaskStep cfg projects gcals index acc t = acc := by
            simp [syncTaskStep, hr, hf]
          rw [hstep] at h
          exact Or.inl h
        | some g =>
          have hacts : taskActs cfg projects gcals t := ⟨proj, g, hr, hf⟩
          have hself : t ∈ t :: tl := List.mem_cons_self t tl
          cases hm : mapGet index (taskKey t) with
          | none =>
            have hstep : (syncTaskStep cfg projects gcals index acc t).2 =
                acc.2 ++ [Action.insertEvent g.id (buildGoogleEvent cfg t),
                          Action.sleep 200] := by
              simp [syncTaskStep, hr, hf, hm]
            rw [hstep] at h
            rcases List.mem_append.mp h with h | h
            · exact Or.inl h
            · simp only [List.mem_cons, List.not_mem_nil, or_false] at h
              refine Or.inr (insertUpdateFrom_of_forms cfg projects gcals t
                (t :: tl) hself hacts a ?_)
              rcases h with h | h
              · exact Or.inr (Or.inr (Or.inl ⟨g.id, h⟩))
              · exact Or.inl h
          | some e =>
            by_cases hmv : (e.calendarId != g.id) = true
            · have hstep : (syncTaskStep cfg projects gcals index acc t).2 =
                  acc.2 ++ [Action.deleteEvent e.calendarId e.id,
                            Action.sleep 200,
                            Action.insertEvent g.id (buildGoogleEvent cfg t),
                            Action.sleep 200] := by
                simp [syncTaskStep, hr, hf, hm, hmv]
              rw [hstep] at h
              rcases List.mem_append.mp h with h | h
              · exact Or.inl h
              · simp only [List.mem_cons, List.not_mem_nil, or_false] at h
                refine Or.inr (insertUpdateFrom_of_forms cfg projects gcals t
                  (t :: tl) hself hacts a ?_)
                rcases h with h | h | h | h
                · exact Or.inr (Or.inl ⟨e.calendarId, e.id, h⟩)
                · exact Or.inl h
                · exact Or.inr (Or.inr (Or.inl ⟨g.id, h⟩))
                · exact Or.inl h
            · have hmv' : (e.calendarId != g.id) = false := by simpa using hmv
              by_cases hcond : (decide (e.updated < t.updated_at)
                  || e.transparency != "opaque") = true
              · have hstep : (syncTaskStep cfg projects gcals index acc t).2 =
                    acc.2 ++ [Action.updateEvent e.calendarId e.id
                        (buildGoogleEvent cfg t),
                      Action.sleep 200] := by
                  simp [syncTaskStep, hr, hf, hm, hmv', hcond]
                rw [hstep] at h
                rcases List.mem_append.mp h with h | h
                · exact Or.inl h
                · simp only [List.mem_cons, List.not_mem_nil, or_false] at h
                  refine Or.inr (insertUpdateFrom_of_forms cfg projects gcals t
                    (t :: tl) hself hacts a ?_)
                  rcases h with h | h
                  · exact Or.inr (Or.inr (Or.inr ⟨e.calendarId, e.id, h⟩))
                  · exact Or.inl h
              · have hcond' : (decide (e.updated < t.updated_at)
                    || e.transparency != "opaque") = false := by simpa using hcond
                have hstep : syncTaskStep cfg projects gcals index acc t = acc := by
                  simp [syncTaskStep, hr, hf, hm, hmv', hcond']
                rw [hstep] at h
                exact Or.inl h
    · exact Or.inr (hmono h)

/-- Claim C7: in a successful cycle from a well-formed state satisfying
the correspondence invariant, with distinct task identifiers, an
uncompleted task whose project cannot be resolved or whose target
calendar is not found is skipped: the live events carrying its identifier
at the end of the cycle are exactly the ones before the cycle (so no
pre-existing event of that task is deleted), and the cycle issues no
event-create or event-update call whose payload carries its identifier. -/
theorem skipped_task_untouched (cfg : Config)
    (pResp : Except Unit (List Project)) (tResp : Except Unit (List Task))
    (st0 : GState) (hwf : st0.WF) (hamo : atMostOnePerKey cfg st0)
    (hkeys : ((uncompletedTasks tResp).map taskKey).Nodup)
    (t : Task) (ht : t ∈ uncompletedTasks tResp)
    (hskip : ¬ taskActs cfg (getVikunjaProjects pResp)
      (cycleGcals cfg pResp true st0) t) :
    eventsForKey cfg (runSync cfg pResp tResp true st0).1 (taskKey t) =
      eventsForKey cfg st0 (taskKey t) ∧
    (∀ a ∈ (runSync cfg pResp tResp true st0).2, ∀ cid eid p,
      (a = Action.insertEvent cid p ∨ a = Action.updateEvent cid eid p) →
      p.vikunjaTaskId ≠ taskKey t) := by
  obtain ⟨houtcomes, -, -, -, -, -, -⟩ :=
    runSync_char cfg pResp tResp st0 hwf hamo hkeys
  obtain ⟨-, -, -, -, -, hkey2, -, -, -⟩ := cycle_setup cfg pResp st0 hwf
  constructor
  · have hout := houtcomes t ht
    cases hr : resolveProject (getVikunjaProjects pResp) t with
    | none =>
      rw [outcomeFor_eq_noproj cfg (getVikunjaProjects pResp)
        (cycleGcals cfg pResp true st0) (cycleIndex cfg pResp true st0)
        (cycleShare cfg pResp true st0).1 t _ hr] at hout
      rw [hout]
      exact hkey2 (taskKey t)
    | some proj =>
      cases hf : (cycleGcals cfg pResp true st0).find?
          (fun c => c.summary == calName cfg proj.title) with
      | some g => exact absurd ⟨proj, g, hr, hf⟩ hskip
      | none =>
        rw [outcomeFor_eq_nocal cfg (getVikunjaProjects pResp)
          (cycleGcals cfg pResp true st0) (cycleIndex cfg pResp true st0)
          (cycleShare cfg pResp true st0).1 t _ proj hr hf] at hout
        rw [hout]
        exact hkey2 (taskKey t)
  · intro a ha cid eid p hp heq
    rcases List.mem_append.mp ha with ha | ha
    rcases List.mem_append.mp ha with ha | ha
    rcases List.mem_append.mp ha with ha | ha
    rcases List.mem_append.mp ha with ha | ha
    · rcases rc_trace_shape cfg (getVikunjaProjects pResp)
          (getManagedCalendars true cfg st0, st0, []) a ha with h | ⟨n, h⟩ | h
      · cases h
      · rw [h] at hp
        rcases hp with hp | hp <;> cases hp
      · rw [h] at hp
        rcases hp with hp | hp <;> cases hp
    · rcases share_trace_shape cfg (cycleGcals cfg pResp true st0)
          ((cycleProvision cfg pResp true st0).2.1, []) a ha with
        h | ⟨ci, em, h⟩ | h
      · cases h
      · rw [h] at hp
        rcases hp with hp | hp <;> cases hp
      · rw [h] at hp
        rcases hp with hp | hp <;> cases hp
    · rcases index_trace_sleeps (cycleShare cfg pResp true st0).1
          (cycleGcals cfg pResp true st0) ([], []) a ha with h | h
      · cases h
      · rw [h] at hp
        rcases hp with hp | hp <;> cases hp
    · rcases syncTasks_trace_from cfg (getVikunjaProjects pResp)
          (cycleGcals cfg pResp true st0) (cycleIndex cfg pResp true st0)
          (uncompletedTasks tResp) ((cycleShare cfg pResp true st0).1, [])
          a ha with h | h
      · cases h
      · obtain ⟨t2, ht2, hacts2, hpe⟩ := h cid eid p hp
        have hkt2 : taskKey t2 = taskKey t := by
          rw [← heq, hpe, buildGoogleEvent_key]
        have ht2t : t2 = t :=
          List.inj_on_of_nodup_map hkeys ht2 ht hkt2
        rw [ht2t] at hacts2
        exact hskip hacts2
    · have hct : (cycleCleanup cfg pResp tResp true st0).2 =
          [] ++ ((cycleIndex cfg pResp true st0).filter
            (fun kv => !((uncompletedTasks tResp).any
              (fun t2 => taskKey t2 == kv.1)))).flatMap
            (fun kv => [Action.deleteEvent kv.2.calendarId kv.2.id,
                        Action.sleep 200]) :=
        cleanup_trace_eq (cycleIndex cfg pResp true st0)
          (uncompletedTasks tResp) (cycleDiff cfg pResp tResp true st0).1 []
      rw [hct, List.nil_append] at ha
      obtain ⟨kv, -, hmem⟩ := List.mem_flatMap.mp ha
      simp only [List.mem_cons, List.not_mem_nil, or_false] at hmem
      rcases hmem with h | h <;> rw [h] at hp <;>
        rcases hp with hp | hp <;> cases hp

/-- Witness for C7: the example task against an empty project list is
skipped and the provisioned example state is untouched at its key. -/
theorem skipped_task_untouched_witness :
    (exTask ∈ uncompletedTasks (Except.ok [exTask])) ∧
    eventsForKey exCfg
      (runSync exCfg (Except.ok []) (Except.ok [exTask]) true exStCal).1
      (taskKey exTask) = eventsForKey exCfg exStCal (taskKey exTask) := by
  have hwf : exStCal.WF := ⟨by decide, by decide, by decide, by decide, by decide⟩
  have hskip : ¬ taskActs exCfg (getVikunjaProjects (Except.ok []))
      (cycleGcals exCfg (Except.ok []) true exStCal) exTask := by
    intro hacts
    obtain ⟨p, g, hr, -⟩ := hacts
    have hnone : resolveProject
        (getVikunjaProjects (Except.ok ([] : List Project))) exTask = none := rfl
    rw [hnone] at hr
    cases hr
  refine ⟨by decide, ?_⟩
  exact (skipped_task_untouched exCfg (Except.ok []) (Except.ok [exTask])
    exStCal hwf (atMostOne_of_keyless exCfg exStCal (by decide)) (by decide)
    exTask (by decide) hskip).1


/-! ### Claim C4: second-run no-op lemmas -/

lemma ensure_fold_noop (cfg : Config) :
    ∀ (ps : List Project) (acc : List Cal × GState × List Action),
      (∀ p ∈ ps, ∃ c ∈ acc.1, c.summary = calName cfg p.title) →
      ps.foldl (ensureCalendarStep cfg) acc = acc := by
  intro ps
  induction ps with
  | nil => intro acc _; rfl
  | cons p tl ih =>
    intro acc hcov
    rw [List.foldl_cons]
    have hstep : ensureCalendarStep cfg acc p = acc := by
      obtain ⟨c, hc, hcs⟩ := hcov p (List.mem_cons_self p tl)
      have hfs : (acc.1.find?
          (fun c2 => c2.summary == calName cfg p.title)).isSome = true := by
        rw [List.find?_isSome]
        exact ⟨c, hc, by simpa using hcs⟩
      cases hf : acc.1.find? (fun c2 => c2.summary == calName cfg p.title) with
      | none => rw [hf] at hfs; cases hfs
      | some c0 => simp [ensureCalendarStep, hf]
    rw [hstep]
    exact ih acc (fun p2 hp2 => hcov p2 (List.mem_cons_of_mem p hp2))

lemma share_fold_noop (cfg : Config) :
    ∀ (cs : List Cal) (acc : GState × List Action),
      ((acc.1.calendars.map Cal.id).Nodup) →
      (∀ c ∈ cs, ∃ sc ∈ acc.1.calendars, sc.id = c.id ∧
        cfg.shareEmail ∈ sc.shared) →
      (cs.foldl (shareStep cfg) acc).1 = acc.1 ∧
      ∀ a ∈ (cs.foldl (shareStep cfg) acc).2,
        a ∈ acc.2 ∨ a = Action.sleep 200 := by
  intro cs
  induction cs with
  | nil => intro acc _ _; exact ⟨rfl, fun a ha => Or.inl ha⟩
  | cons c tl ih =>
    intro acc hnd hsh
    rw [List.foldl_cons]
    obtain ⟨sc, hmem, hid, hshd⟩ := hsh c (List.mem_cons_self c tl)
    have hstep : shareStep cfg acc c = (acc.1, acc.2 ++ [Action.sleep 200]) := by
      have hfs : (acc.1.calendars.find? (fun x => x.id == c.id)).isSome = true := by
        rw [List.find?_isSome]
        exact ⟨sc, hmem, by simpa using hid⟩
      cases hf : acc.1.calendars.find? (fun x => x.id == c.id) with
      | none => rw [hf] at hfs; cases hfs
      | some sc0 =>
        have hsc0mem : sc0 ∈ acc.1.calendars := List.mem_of_find?_eq_some hf
        have hsc0id : sc0.id = c.id := by
          have := List.find?_some hf
          simpa using this
        have hsc0 : sc0 = sc :=
          List.inj_on_of_nodup_map hnd hsc0mem hmem (by rw [hsc0id, hid])
        have hs : cfg.shareEmail ∈ sc0.shared := by
          rw [hsc0]
          exact hshd
        have hens : ensureCalendarIsShared cfg acc c = acc := by
          rw [ensureCalendarIsShared, hf]
          simp [hs]
        simp only [shareStep, hens]
    rw [hstep]
    obtain ⟨h1, h2⟩ := ih (acc.1, acc.2 ++ [Action.sleep 200]) hnd
      (fun c2 hc2 => hsh c2 (List.mem_cons_of_mem c hc2))
    refine ⟨h1, ?_⟩
    intro a ha
    rcases h2 a ha with h | h
    · rcases List.mem_append.mp h with h | h
      · exact Or.inl h
      · exact Or.inr (by simpa using h)
    · exact Or.inr h

lemma syncTasks_noop (cfg : Config) (projects : List Project) (gcals : List Cal)
    (index : List (String × GEvent)) :
    ∀ (ts : List Task) (acc : GState × List Action),
      (∀ t ∈ ts, ∀ proj g, resolveProject projects t = some proj →
        gcals.find? (fun c => c.summary == calName cfg proj.title) = some g →
        ∃ e, mapGet index (taskKey t) = some e ∧ e.calendarId = g.id ∧
          ¬ e.updated < t.updated_at ∧ e.transparency = "opaque") →
      ts.foldl (syncTaskStep cfg projects gcals index) acc = acc := by
  intro ts
  induction ts with
  | nil => intro acc _; rfl
  | cons t tl ih =>
    intro acc hcond
    rw [List.foldl_cons]
    have hstep : syncTaskStep cfg projects gcals index acc t = acc := by
      cases hr : resolveProject projects t with
      | none => simp [syncTaskStep, hr]
      | some proj =>
        cases hf : gcals.find?
            (fun c => c.summary == calName cfg proj.title) with
        | none => simp [syncTaskStep, hr, hf]
        | some g =>
          obtain ⟨e, hm, hcal, hnl, htr⟩ :=
            hcond t (List.mem_cons_self t tl) proj g hr hf
          have h1 : (e.calendarId != g.id) = false := by simp [hcal]
          have h2 : decide (e.updated < t.updated_at) = false := by
            simpa using hnl
          have h3 : (e.transparency != "opaque") = false := by simp [htr]
          simp [syncTaskStep, hr, hf, hm, h1, h2, h3]
    rw [hstep]
    exact ih acc (fun t2 ht2 => hcond t2 (List.mem_cons_of_mem t ht2))

lemma cleanup_fold_noop (u : List Task) :
    ∀ (idx : List (String × GEvent)) (acc : GState × List Action),
      (∀ kv ∈ idx, (u.any fun t => taskKey t == kv.1) = true) →
      idx.foldl (cleanupStep u) acc = acc := by
  intro idx
  induction idx with
  | nil => intro acc _; rfl
  | cons kv rest ih =>
    intro acc hall
    rw [List.foldl_cons]
    have hstep : cleanupStep u acc kv = acc := by
      rw [cleanupStep, if_pos (hall kv (List.mem_cons_self kv rest))]
    rw [hstep]
    exact ih acc (fun kv2 hkv2 => hall kv2 (List.mem_cons_of_mem kv hkv2))

lemma cycle_calendars (cfg : Config) (pResp : Except Unit (List Project))
    (st0 : GState) :
    ∃ gs : Cal → Cal,
      managedCals cfg (cycleShare cfg pResp true st0).1 =
        (cycleGcals cfg pResp true st0).map gs ∧
      (∀ x, (gs x).id = x.id ∧ (gs x).summary = x.summary) ∧
      ∀ c ∈ cycleGcals cfg pResp true st0,
        gs c ∈ (cycleShare cfg pResp true st0).1.calendars := by
  obtain ⟨d, hg, hdelta⟩ := reconcileCalendars_char cfg
    (getVikunjaProjects pResp) (getManagedCalendars true cfg st0) st0
  have hmanaged1 : managedCals cfg (cycleProvision cfg pResp true st0).2.1 =
      managedCals cfg st0 ++ d := provisionDelta_managed cfg hdelta
  have hgcals : cycleGcals cfg pResp true st0 =
      managedCals cfg (cycleProvision cfg pResp true st0).2.1 := by
    rw [hmanaged1]
    exact hg
  obtain ⟨gsh, hgsh, hpsh, -, -, -, -⟩ :=
    share_fold_calendars cfg (cycleGcals cfg pResp true st0)
      ((cycleProvision cfg pResp true st0).2.1, [])
  have hcals2 : (cycleShare cfg pResp true st0).1.calendars =
      (cycleProvision cfg pResp true st0).2.1.calendars.map gsh := hgsh
  refine ⟨gsh, ?_, fun x => ⟨(hpsh x).1, (hpsh x).2.1⟩, ?_⟩
  · have hfe : ((fun c : Cal => jsStartsWith c.summary cfg.pfx) ∘ gsh) =
        fun c : Cal => jsStartsWith c.summary cfg.pfx := by
      funext x
      simp only [Function.comp_apply, (hpsh x).2.1]
    have hstep : managedCals cfg (cycleShare cfg pResp true st0).1 =
        (managedCals cfg (cycleProvision cfg pResp true st0).2.1).map gsh := by
      simp only [managedCals]
      rw [hcals2, List.filter_map, hfe]
    rw [hstep, ← hgcals]
  · intro c hc
    have hcm : c ∈ (cycleProvision cfg pResp true st0).2.1.calendars := by
      rw [hgcals] at hc
      exact (List.mem_filter.mp hc).1
    rw [hcals2]
    exact List.mem_map.mpr ⟨c, hcm, rfl⟩


/-- Claim C4 (amended): starting from a well-formed sink state that
satisfies the correspondence invariant, with distinct task identifiers
among the uncompleted tasks and no task modified after the server clock,
running the reconciler twice in succession with the same source data
produces zero mutating sink calls on the second run. -/
theorem runSync_idempotent (cfg : Config) (pResp : Except Unit (List Project))
    (tResp : Except Unit (List Task)) (st0 : GState) (hwf : st0.WF)
    (hamo : atMostOnePerKey cfg st0)
    (hkeys : ((uncompletedTasks tResp).map taskKey).Nodup)
    (htime : ∀ t ∈ uncompletedTasks tResp, t.updated_at ≤ st0.now) :
    ((runSync cfg pResp tResp true
        (runSync cfg pResp tResp true st0).1).2.filter
      Action.isMutating) = [] := by
  obtain ⟨houtcomes, hkempty, -, hamoF, hcalsF, hnowF, hwfF⟩ :=
    runSync_char cfg pResp tResp st0 hwf hamo hkeys
  obtain ⟨hwf2, -, -, hnow2, -, -, -, hcov, hsh⟩ := cycle_setup cfg pResp st0 hwf
  obtain ⟨gs, hman, hgs, hgsmem⟩ := cycle_calendars cfg pResp st0
  set final := (runSync cfg pResp tResp true st0).1 with hfinal
  set u := uncompletedTasks tResp with hu
  set projects := getVikunjaProjects pResp with hproj
  set gcals1 := cycleGcals cfg pResp true st0 with hgcals1
  set st2 := (cycleShare cfg pResp true st0).1 with hst2
  set index1 := cycleIndex cfg pResp true st0 with hindex1
  have hmanF : managedCals cfg final = gcals1.map gs := by
    rw [managedCals, hcalsF]
    exact hman
  have hmanshared : ∀ c ∈ managedCals cfg final, cfg.shareEmail ∈ c.shared := by
    intro c hc
    rw [hmanF] at hc
    obtain ⟨c1, hc1, hc1e⟩ := List.mem_map.mp hc
    obtain ⟨sc, hscmem, hscid, hscsh⟩ := hsh c1 hc1
    have hgsc : gs c1 ∈ st2.calendars := hgsmem c1 hc1
    have hceq : sc = gs c1 :=
      List.inj_on_of_nodup_map hwf2.calsNodup hscmem hgsc
        (by rw [hscid, (hgs c1).1])
    rw [← hc1e, ← hceq]
    exact hscsh
  have hcov2 : ∀ p ∈ projects, ∃ c ∈ getManagedCalendars true cfg final,
      c.summary = calName cfg p.title := by
    intro p hp
    obtain ⟨c, hc, hcs⟩ := hcov p hp
    refine ⟨gs c, ?_, ?_⟩
    · rw [getManagedCalendars_true, hmanF]
      exact List.mem_map.mpr ⟨c, hc, rfl⟩
    · rw [(hgs c).2]
      exact hcs
  have hprov2 : (projects.foldl (ensureCalendarStep cfg)
      (getManagedCalendars true cfg final, final, [])) =
      (getManagedCalendars true cfg final, final, []) :=
    ensure_fold_noop cfg projects _ hcov2
  have hgcals2 : cycleGcals cfg pResp true final = managedCals cfg final := by
    have h0 : cycleGcals cfg pResp true final =
        (projects.foldl (ensureCalendarStep cfg)
          (getManagedCalendars true cfg final, final, [])).1 := rfl
    rw [h0, hprov2, getManagedCalendars_true]
  have hprovst2 : (cycleProvision cfg pResp true final).2.1 = final := by
    have h0 : (cycleProvision cfg pResp true final).2.1 =
        (projects.foldl (ensureCalendarStep cfg)
          (getManagedCalendars true cfg final, final, [])).2.1 := rfl
    rw [h0, hprov2]
  have hprovtr2 : (cycleProvision cfg pResp true final).2.2 = [] := by
    have h0 : (cycleProvision cfg pResp true final).2.2 =
        (projects.foldl (ensureCalendarStep cfg)
          (getManagedCalendars true cfg final, final, [])).2.2 := rfl
    rw [h0, hprov2]
  have hsh2 : ∀ c ∈ cycleGcals cfg pResp true final,
      ∃ sc ∈ final.calendars, sc.id = c.id ∧ cfg.shareEmail ∈ sc.shared := by
    intro c hc
    rw [hgcals2] at hc
    exact ⟨c, (List.mem_filter.mp hc).1, rfl, hmanshared c hc⟩
  obtain ⟨hshst, hshtr⟩ := share_fold_noop cfg (cycleGcals cfg pResp true final)
    ((cycleProvision cfg pResp true final).2.1, [])
    (by rw [hprovst2]; exact hwfF.calsNodup)
    (by rw [hprovst2]; exact hsh2)
  have hst2eq : (cycleShare cfg pResp true final).1 = final := by
    have h0 : (cycleShare cfg pResp true final).1 =
        ((cycleGcals cfg pResp true final).foldl (shareStep cfg)
          ((cycleProvision cfg pResp true final).2.1, [])).1 := rfl
    rw [h0, hshst, hprovst2]
  have hshtr2 : ∀ a ∈ (cycleShare cfg pResp true final).2,
      a = Action.sleep 200 := by
    intro a ha
    have ha0 : a ∈ ((cycleGcals cfg pResp true final).foldl (shareStep cfg)
        ((cycleProvision cfg pResp true final).2.1, [])).2 := ha
    rcases hshtr a ha0 with h | h
    · cases h
    · exact h
  have hindex2 : cycleIndex cfg pResp true final =
      (indexEvents final (cycleGcals cfg pResp true final)).1 := by
    show (indexEvents (cycleShare cfg pResp true final).1
      (cycleGcals cfg pResp true final)).1 = _
    rw [hst2eq]
  have hms2 : managedIds cfg final =
      (cycleGcals cfg pResp true final).map Cal.id := by
    rw [hgcals2]
    rfl
  have hdiffcond : ∀ t ∈ u, ∀ proj g2, resolveProject projects t = some proj →
      (cycleGcals cfg pResp true final).find?
        (fun c => c.summary == calName cfg proj.title) = some g2 →
      ∃ e, mapGet (cycleIndex cfg pResp true final) (taskKey t) = some e ∧
        e.calendarId = g2.id ∧ ¬ e.updated < t.updated_at ∧
        e.transparency = "opaque" := by
    intro t ht proj g2 hr hf2
    have hpe : ((fun c : Cal => c.summary == calName cfg proj.title) ∘ gs) =
        fun c : Cal => c.summary == calName cfg proj.title := by
      funext x
      simp only [Function.comp_apply, (hgs x).2]
    have hfind : (cycleGcals cfg pResp true final).find?
        (fun c => c.summary == calName cfg proj.title) =
        (gcals1.find? (fun c => c.summary == calName cfg proj.title)).map gs := by
      rw [hgcals2, hmanF, List.find?_map, hpe]
    rw [hfind] at hf2
    cases hg1 : gcals1.find? (fun c => c.summary == calName cfg proj.title) with
    | none =>
      rw [hg1] at hf2
      cases hf2
    | some g1 =>
      rw [hg1] at hf2
      have hg2 : g2 = gs g1 := (Option.some.inj hf2).symm
      have hg2id : g2.id = g1.id := by
        rw [hg2]
        exact (hgs g1).1
      have hout := houtcomes t ht
      have hmain : ∃ e2, eventsForKey cfg final (taskKey t) = [e2] ∧
          e2.calendarId = g1.id ∧ ¬ e2.updated < t.updated_at ∧
          e2.transparency = "opaque" := by
        cases hm1 : mapGet index1 (taskKey t) with
        | none =>
          rw [outcomeFor_eq_create cfg projects gcals1 index1 st2 t _ proj g1
            hr hg1 hm1] at hout
          obtain ⟨e2, he, hcal, hmp, hupd⟩ := hout
          refine ⟨e2, he, hcal, ?_, ?_⟩
          · rw [Nat.not_lt, hupd, hnow2]
            exact htime t ht
          · exact hmp.2.2.2.2.1
        | some e =>
          rw [outcomeFor_eq_act cfg projects gcals1 index1 st2 t _ proj g1 e
            hr hg1 hm1] at hout
          by_cases hcall : (e.calendarId != g1.id ||
              decide (e.updated < t.updated_at) ||
              e.transparency != "opaque") = true
          · rw [if_pos hcall] at hout
            obtain ⟨e2, he, hcal, hmp, hupd⟩ := hout
            refine ⟨e2, he, hcal, ?_, ?_⟩
            · rw [Nat.not_lt, hupd, hnow2]
              exact htime t ht
            · exact hmp.2.2.2.2.1
          · rw [if_neg hcall] at hout
            have hcall2 : (e.calendarId != g1.id ||
                decide (e.updated < t.updated_at) ||
                e.transparency != "opaque") = false := by simpa using hcall
            have h1 : e.calendarId = g1.id := by
              by_contra hne
              rw [(by simpa [bne_iff_ne] using hne :
                (e.calendarId != g1.id) = true)] at hcall2
              simp at hcall2
            have h2 : ¬ e.updated < t.updated_at := by
              intro hlt
              rw [(decide_eq_true hlt :
                decide (e.updated < t.updated_at) = true)] at hcall2
              simp at hcall2
            have h3 : e.transparency = "opaque" := by
              by_contra hne
              rw [(by simpa [bne_iff_ne] using hne :
                (e.transparency != "opaque") = true)] at hcall2
              simp at hcall2
            exact ⟨e, hout, h1, h2, h3⟩
      obtain ⟨e2, hsingleF, he2cal, he2lt, he2tr⟩ := hmain
      cases hm2 : mapGet (cycleIndex cfg pResp true final) (taskKey t) with
      | none =>
        exfalso
        have hnil := index_empty_of_none cfg final
          (cycleGcals cfg pResp true final) hms2 (taskKey t)
          (by rw [← hindex2]; exact hm2)
        rw [hsingleF] at hnil
        cases hnil
      | some e3 =>
        have hsg := index_single_of_some cfg final
          (cycleGcals cfg pResp true final) hms2 hamoF (taskKey t) e3
          (by rw [← hindex2]; exact hm2)
        rw [hsingleF] at hsg
        obtain ⟨he3, -⟩ := List.cons.inj hsg
        refine ⟨e3, rfl, ?_, ?_, ?_⟩
        · rw [← he3, hg2id]
          exact he2cal
        · rw [← he3]
          exact he2lt
        · rw [← he3]
          exact he2tr
  have hdiff2 : u.foldl (syncTaskStep cfg projects
      (cycleGcals cfg pResp true final) (cycleIndex cfg pResp true final))
      ((cycleShare cfg pResp true final).1, []) =
      ((cycleShare cfg pResp true final).1, []) :=
    syncTasks_noop cfg projects _ _ u _ hdiffcond
  have hdiffeq : cycleDiff cfg pResp tResp true final =
      ((cycleShare cfg pResp true final).1, []) := by
    have h0 : cycleDiff cfg pResp tResp true final =
        u.foldl (syncTaskStep cfg projects (cycleGcals cfg pResp true final)
          (cycleIndex cfg pResp true final))
          ((cycleShare cfg pResp true final).1, []) := rfl
    rw [h0, hdiff2]
  have hcleancond : ∀ kv ∈ cycleIndex cfg pResp true final,
      (u.any fun t => taskKey t == kv.1) = true := by
    intro kv hkv
    by_cases hany : (u.any fun t => taskKey t == kv.1) = true
    · exact hany
    · exfalso
      have hany2 : (u.any fun t => taskKey t == kv.1) = false := by
        simpa using hany
      have hnil := hkempty kv.1 hany2
      rw [hindex2] at hkv
      obtain ⟨hm, hkey, c, hcmem, hcc⟩ :=
        indexEvents_entries final (cycleGcals cfg pResp true final) kv hkv
      have hmm : kv.2 ∈ eventsForKey cfg final kv.1 := by
        rw [eventsForKey, List.mem_filter]
        refine ⟨hm, ?_⟩
        rw [Bool.and_eq_true]
        constructor
        · rw [hkey]
          exact beq_self_eq_true _
        · rw [hms2]
          exact List.elem_iff.mpr (List.mem_map.mpr ⟨c, hcmem, hcc.symm⟩)
      rw [hnil] at hmm
      cases hmm
  have hclean2 : (cycleIndex cfg pResp true final).foldl (cleanupStep u)
      ((cycleDiff cfg pResp tResp true final).1, []) =
      ((cycleDiff cfg pResp tResp true final).1, []) :=
    cleanup_fold_noop u _ _ hcleancond
  have hcleaneq : (cycleCleanup cfg pResp tResp true final).2 = [] := by
    have h0 : cycleCleanup cfg pResp tResp true final =
        (cycleIndex cfg pResp true final).foldl (cleanupStep u)
          ((cycleDiff cfg pResp tResp true final).1, []) := rfl
    rw [h0, hclean2]
  have hidxtr : ∀ a ∈ (cycleIndexed cfg pResp true final).2,
      a = Action.sleep 200 := by
    intro a ha
    have ha0 : a ∈ ((cycleGcals cfg pResp true final).foldl
        (indexCalendarStep (cycleShare cfg pResp true final).1) ([], [])).2 := ha
    rcases index_trace_sleeps (cycleShare cfg pResp true final).1
      (cycleGcals cfg pResp true final) ([], []) a ha0 with h | h
    · cases h
    · exact h
  rw [List.filter_eq_nil_iff]
  intro a ha
  rcases List.mem_append.mp ha with ha | ha
  rcases List.mem_append.mp ha with ha | ha
  rcases List.mem_append.mp ha with ha | ha
  rcases List.mem_append.mp ha with ha | ha
  · rw [hprovtr2] at ha
    cases ha
  · rw [hshtr2 a ha]
    decide
  · rw [hidxtr a ha]
    decide
  · have h0 : (cycleDiff cfg pResp tResp true final).2 = [] := by
      rw [hdiffeq]
    rw [h0] at ha
    cases ha
  · rw [hcleaneq] at ha
    cases ha

/-- Witness for C4 (amended): two runs of the example task cycle from
the empty example state; the second run issues no mutating call. -/
theorem runSync_idempotent_witness :
    exSt0.WF ∧
    ((runSync exCfg (Except.ok [exProj]) (Except.ok [exTask]) true
        (runSync exCfg (Except.ok [exProj]) (Except.ok [exTask]) true
          exSt0).1).2.filter Action.isMutating) = [] := by
  have hwf : exSt0.WF := ⟨by decide, by decide, by decide, by decide, by decide⟩
  refine ⟨hwf, ?_⟩
  exact runSync_idempotent exCfg (Except.ok [exProj]) (Except.ok [exTask])
    exSt0 hwf (atMostOne_of_keyless exCfg exSt0 (by decide)) (by decide)
    (by decide)

/-- Counterexample for C4 as stated: from a reachable sink state holding
two live events under the same task identifier in one managed calendar,
the first successful run deletes only the indexed duplicate, and the
second run still issues a mutating delete for the survivor. -/
theorem runSync_idempotent_counterexample :
    ((runSync exCfg (Except.ok [exProj]) (Except.ok []) true
        (runSync exCfg (Except.ok [exProj]) (Except.ok []) true
          exStDup).1).2.filter Action.isMutating) =
      [Action.deleteEvent 10 0] ∧
    ((runSync exCfg (Except.ok [exProj]) (Except.ok []) true
        (runSync exCfg (Except.ok [exProj]) (Except.ok []) true
          exStDup).1).2.filter Action.isMutating) ≠ ([] : List Action) := by
  exact ⟨by decide, by decide⟩


/-! ### Claim C9: pacing of mutating calls -/

lemma ensure_fold_success (cfg : Config) (fails : Nat → Bool)
    (h : ∀ n, fails n = false) :
    ∀ (ps : List Project) (gcals0 : List Cal) (st : GState) (n : Nat)
      (tr : List Action),
      (ps.foldl (ensureCalendarStepF cfg fails) (gcals0, st, n, tr)).1 =
        (ps.foldl (ensureCalendarStep cfg) (gcals0, st, tr)).1 ∧
      (ps.foldl (ensureCalendarStepF cfg fails) (gcals0, st, n, tr)).2.1 =
        (ps.foldl (ensureCalendarStep cfg) (gcals0, st, tr)).2.1 ∧
      (ps.foldl (ensureCalendarStepF cfg fails) (gcals0, st, n, tr)).2.2.2 =
        (ps.foldl (ensureCalendarStep cfg) (gcals0, st, tr)).2.2 := by
  intro ps
  induction ps with
  | nil => intro gcals0 st n tr; exact ⟨rfl, rfl, rfl⟩
  | cons p tl ih =>
    intro gcals0 st n tr
    rw [List.foldl_cons, List.foldl_cons]
    cases hf : gcals0.find? (fun c => c.summary == calName cfg p.title) with
    | some c0 =>
      have hF : ensureCalendarStepF cfg fails (gcals0, st, n, tr) p =
          (gcals0, st, n, tr) := by
        simp [ensureCalendarStepF, hf]
      have hS : ensureCalendarStep cfg (gcals0, st, tr) p = (gcals0, st, tr) := by
        simp [ensureCalendarStep, hf]
      rw [hF, hS]
      exact ih gcals0 st n tr
    | none =>
      have hF : ensureCalendarStepF cfg fails (gcals0, st, n, tr) p =
          (gcals0 ++ [(createGoogleCalendar cfg st p.title).1],
           (createGoogleCalendar cfg st p.title).2, n + 1,
           tr ++ [Action.createCalendar (calName cfg p.title),
                  Action.sleep 200]) := by
        simp [ensureCalendarStepF, hf, h n]
      have hS : ensureCalendarStep cfg (gcals0, st, tr) p =
          (gcals0 ++ [(createGoogleCalendar cfg st p.title).1],
           (createGoogleCalendar cfg st p.title).2,
           tr ++ [Action.createCalendar (calName cfg p.title),
                  Action.sleep 200]) := by
        simp [ensureCalendarStep, hf]
      rw [hF, hS]
      exact ih _ _ _ _

lemma share_fold_success (cfg : Config) (fails : Nat → Bool)
    (h : ∀ n, fails n = false) :
    ∀ (cs : List Cal) (st : GState) (n : Nat) (tr : List Action),
      (cs.foldl (shareStepF cfg fails) (st, n, tr)).1 =
        (cs.foldl (shareStep cfg) (st, tr)).1 ∧
      (cs.foldl (shareStepF cfg fails) (st, n, tr)).2.2 =
        (cs.foldl (shareStep cfg) (st, tr)).2 := by
  intro cs
  induction cs with
  | nil => intro st n tr; exact ⟨rfl, rfl⟩
  | cons c tl ih =>
    intro st n tr
    rw [List.foldl_cons, List.foldl_cons]
    cases hf : st.calendars.find? (fun x => x.id == c.id) with
    | none =>
      have hF : shareStepF cfg fails (st, n, tr) c =
          (st, n, tr ++ [Action.sleep 200]) := by
        simp [shareStepF, hf]
      have hS : shareStep cfg (st, tr) c = (st, tr ++ [Action.sleep 200]) := by
        simp [shareStep, ensureCalendarIsShared, hf]
      rw [hF, hS]
      exact ih st n _
    | some sc =>
      by_cases hs : cfg.shareEmail ∈ sc.shared
      · have hF : shareStepF cfg fails (st, n, tr) c =
            (st, n, tr ++ [Action.sleep 200]) := by
          simp [shareStepF, hf, hs]
        have hS : shareStep cfg (st, tr) c = (st, tr ++ [Action.sleep 200]) := by
          simp [shareStep, ensureCalendarIsShared, hf, hs]
        rw [hF, hS]
        exact ih st n _
      · have hF : shareStepF cfg fails (st, n, tr) c =
            ({ st with
                calendars := st.calendars.map (fun x =>
                  if x.id == c.id then
                    { x with shared := x.shared ++ [cfg.shareEmail] }
                  else x) },
             n + 1,
             tr ++ [Action.aclInsert c.id cfg.shareEmail,
                    Action.sleep 200]) := by
          simp [shareStepF, hf, hs, h n]
        have hS : shareStep cfg (st, tr) c =
            ({ st with
                calendars := st.calendars.map (fun x =>
                  if x.id == c.id then
                    { x with shared := x.shared ++ [cfg.shareEmail] }
                  else x) },
             tr ++ [Action.aclInsert c.id cfg.shareEmail,
                    Action.sleep 200]) := by
          simp [shareStep, ensureCalendarIsShared, hf, hs]
        rw [hF, hS]
        exact ih _ _ _

lemma diff_fold_success (cfg : Config) (projects : List Project)
    (gcals : List Cal) (index : List (String × GEvent)) (fails : Nat → Bool)
    (h : ∀ n, fails n = false) :
    ∀ (ts : List Task) (st : GState) (n : Nat) (tr : List Action),
      (ts.foldl (syncTaskStepF cfg projects gcals index fails) (st, n, tr)).1 =
        (ts.foldl (syncTaskStep cfg projects gcals index) (st, tr)).1 ∧
      (ts.foldl (syncTaskStepF cfg projects gcals index fails) (st, n, tr)).2.2 =
        (ts.foldl (syncTaskStep cfg projects gcals index) (st, tr)).2 := by
  intro ts
  induction ts with
  | nil => intro st n tr; exact ⟨rfl, rfl⟩
  | cons t tl ih =>
    intro st n tr
    rw [List.foldl_cons, List.foldl_cons]
    cases hr : resolveProject projects t with
    | none =>
      have hF : syncTaskStepF cfg projects gcals index fails (st, n, tr) t =
          (st, n, tr) := by
        simp [syncTaskStepF, hr]
      have hS : syncTaskStep cfg projects gcals index (st, tr) t = (st, tr) := by
        simp [syncTaskStep, hr]
      rw [hF, hS]
      exact ih st n tr
    | some proj =>
      cases hf : gcals.find? (fun c => c.summary == calName cfg proj.title) with
      | none =>
        have hF : syncTaskStepF cfg projects gcals index fails (st, n, tr) t =
            (st, n, tr) := by
          simp [syncTaskStepF, hr, hf]
        have hS : syncTaskStep cfg projects gcals index (st, tr) t =
            (st, tr) := by
          simp [syncTaskStep, hr, hf]
        rw [hF, hS]
        exact ih st n tr
      | some g =>
        cases hm : mapGet index (taskKey t) with
        | none =>
          have hF : syncTaskStepF cfg projects gcals index fails (st, n, tr) t =
              (applyInsertEvent st g.id (buildGoogleEvent cfg t), n + 1,
               tr ++ [Action.insertEvent g.id (buildGoogleEvent cfg t),
                      Action.sleep 200]) := by
            simp [syncTaskStepF, hr, hf, hm, h n]
          have hS : syncTaskStep cfg projects gcals index (st, tr) t =
              (applyInsertEvent st g.id (buildGoogleEvent cfg t),
               tr ++ [Action.insertEvent g.id (buildGoogleEvent cfg t),
                      Action.sleep 200]) := by
            simp [syncTaskStep, hr, hf, hm]
          rw [hF, hS]
          exact ih _ _ _
        | some e =>
          by_cases hmv : (e.calendarId != g.id) = true
          · have hF : syncTaskStepF cfg projects gcals index fails (st, n, tr) t =
                (applyInsertEvent (applyDeleteEvent st e.calendarId e.id) g.id
                   (buildGoogleEvent cfg t), n + 1 + 1,
                 tr ++ [Action.deleteEvent e.calendarId e.id, Action.sleep 200,
                        Action.insertEvent g.id (buildGoogleEvent cfg t),
                        Action.sleep 200]) := by
              simp [syncTaskStepF, hr, hf, hm, hmv, h n, h (n + 1),
                List.append_assoc]
            have hS : syncTaskStep cfg projects gcals index (st, tr) t =
                (applyInsertEvent (applyDeleteEvent st e.calendarId e.id) g.id
                   (buildGoogleEvent cfg t),
                 tr ++ [Action.deleteEvent e.calendarId e.id, Action.sleep 200,
                        Action.insertEvent g.id (buildGoogleEvent cfg t),
                        Action.sleep 200]) := by
              simp [syncTaskStep, hr, hf, hm, hmv]
            rw [hF, hS]
            exact ih _ _ _
          · have hmv2 : (e.calendarId != g.id) = false := by simpa using hmv
            by_cases hcond : (decide (e.updated < t.updated_at)
                || e.transparency != "opaque") = true
            · have hF : syncTaskStepF cfg projects gcals index fails
                  (st, n, tr) t =
                  (applyUpdateEvent st e.calendarId e.id
                     (buildGoogleEvent cfg t), n + 1,
                   tr ++ [Action.updateEvent e.calendarId e.id
                       (buildGoogleEvent cfg t),
                     Action.sleep 200]) := by
                simp [syncTaskStepF, hr, hf, hm, hmv2, hcond, h n]
              have hS : syncTaskStep cfg projects gcals index (st, tr) t =
                  (applyUpdateEvent st e.calendarId e.id
                     (buildGoogleEvent cfg t),
                   tr ++ [Action.updateEvent e.calendarId e.id
                       (buildGoogleEvent cfg t),
                     Action.sleep 200]) := by
                simp [syncTaskStep, hr, hf, hm, hmv2, hcond]
              rw [hF, hS]
              exact ih _ _ _
            · have hcond2 : (decide (e.updated < t.updated_at)
                  || e.transparency != "opaque") = false := by simpa using hcond
              have hF : syncTaskStepF cfg projects gcals index fails
                  (st, n, tr) t = (st, n, tr) := by
                simp [syncTaskStepF, hr, hf, hm, hmv2, hcond2]
              have hS : syncTaskStep cfg projects gcals index (st, tr) t =
                  (st, tr) := by
                simp [syncTaskStep, hr, hf, hm, hmv2, hcond2]
              rw [hF, hS]
              exact ih st n tr

lemma clean_fold_success (u : List Task) (fails : Nat → Bool)
    (h : ∀ n, fails n = false) :
    ∀ (idx : List (String × GEvent)) (st : GState) (n : Nat)
      (tr : List Action),
      (idx.foldl (cleanupStepF u fails) (st, n, tr)).1 =
        (idx.foldl (cleanupStep u) (st, tr)).1 ∧
      (idx.foldl (cleanupStepF u fails) (st, n, tr)).2.2 =
        (idx.foldl (cleanupStep u) (st, tr)).2 := by
  intro idx
  induction idx with
  | nil => intro st n tr; exact ⟨rfl, rfl⟩
  | cons kv rest ih =>
    intro st n tr
    rw [List.foldl_cons, List.foldl_cons]
    by_cases hany : (u.any fun t => taskKey t == kv.1) = true
    · have hF : cleanupStepF u fails (st, n, tr) kv = (st, n, tr) := by
        simp [cleanupStepF, hany]
      have hS : cleanupStep u (st, tr) kv = (st, tr) := by
        simp [cleanupStep, hany]
      rw [hF, hS]
      exact ih st n tr
    · have hany2 : (u.any fun t => taskKey t == kv.1) = false := by
        simpa using hany
      have hF : cleanupStepF u fails (st, n, tr) kv =
          (applyDeleteEvent st kv.2.calendarId kv.2.id, n + 1,
           tr ++ [Action.deleteEvent kv.2.calendarId kv.2.id,
                  Action.sleep 200]) := by
        simp [cleanupStepF, hany2, h n]
      have hS : cleanupStep u (st, tr) kv =
          (applyDeleteEvent st kv.2.calendarId kv.2.id,
           tr ++ [Action.deleteEvent kv.2.calendarId kv.2.id,
                  Action.sleep 200]) := by
        simp [cleanupStep, hany2]
      rw [hF, hS]
      exact ih _ _ _

/-- Claim C9 (amended): the pacing delay lives inside each try block
after the awaited mutating call (and inside the calendar-creation
success branch), so a mutating call that throws skips its delay and the
next mutating call can be issued immediately; in a cycle in which every
mutating sink call succeeds, the failure-aware cycle emits exactly the
success-path call sequence, and in that sequence every mutating call
(create calendar, ACL insert, create, update or delete event) is
immediately followed by the fixed 200 ms pacing delay before any
further mutating call. -/
theorem runSyncF_pacing (cfg : Config) (fails : Nat → Bool)
    (pResp : Except Unit (List Project)) (tResp : Except Unit (List Task))
    (okb : Bool) (st0 : GState) (h : ∀ n, fails n = false) :
    (runSyncF cfg fails pResp tResp okb st0).2 =
      (runSync cfg pResp tResp okb st0).2 ∧
    paced (runSyncF cfg fails pResp tResp okb st0).2 = true := by
  obtain ⟨hg, hst1, htr1⟩ := ensure_fold_success cfg fails h
    (getVikunjaProjects pResp) (getManagedCalendars okb cfg st0) st0 0 []
  have hp1 : cycleGcalsF cfg fails pResp okb st0 = cycleGcals cfg pResp okb st0 := by
    show ((getVikunjaProjects pResp).foldl (ensureCalendarStepF cfg fails)
      (getManagedCalendars okb cfg st0, st0, 0, [])).1 = _
    rw [hg]
    rfl
  have hp2 : (cycleProvisionF cfg fails pResp okb st0).2.1 =
      (cycleProvision cfg pResp okb st0).2.1 := by
    show ((getVikunjaProjects pResp).foldl (ensureCalendarStepF cfg fails)
      (getManagedCalendars okb cfg st0, st0, 0, [])).2.1 = _
    rw [hst1]
    rfl
  have hp3 : (cycleProvisionF cfg fails pResp okb st0).2.2.2 =
      (cycleProvision cfg pResp okb st0).2.2 := by
    show ((getVikunjaProjects pResp).foldl (ensureCalendarStepF cfg fails)
      (getManagedCalendars okb cfg st0, st0, 0, [])).2.2.2 = _
    rw [htr1]
    rfl
  obtain ⟨hsst, hstr⟩ := share_fold_success cfg fails h
    (cycleGcalsF cfg fails pResp okb st0)
    (cycleProvisionF cfg fails pResp okb st0).2.1
    (cycleProvisionF cfg fails pResp okb st0).2.2.1 []
  have hsh1 : (cycleShareF cfg fails pResp okb st0).1 =
      (cycleShare cfg pResp okb st0).1 := by
    show ((cycleGcalsF cfg fails pResp okb st0).foldl (shareStepF cfg fails)
      ((cycleProvisionF cfg fails pResp okb st0).2.1,
       (cycleProvisionF cfg fails pResp okb st0).2.2.1, [])).1 = _
    rw [hsst, hp1, hp2]
    rfl
  have hsh2 : (cycleShareF cfg fails pResp okb st0).2.2 =
      (cycleShare cfg pResp okb st0).2 := by
    show ((cycleGcalsF cfg fails pResp okb st0).foldl (shareStepF cfg fails)
      ((cycleProvisionF cfg fails pResp okb st0).2.1,
       (cycleProvisionF cfg fails pResp okb st0).2.2.1, [])).2.2 = _
    rw [hstr, hp1, hp2]
    rfl
  have hidx : cycleIndexedF cfg fails pResp okb st0 =
      cycleIndexed cfg pResp okb st0 := by
    show indexEvents (cycleShareF cfg fails pResp okb st0).1
      (cycleGcalsF cfg fails pResp okb st0) = _
    rw [hsh1, hp1]
    rfl
  obtain ⟨hdst, hdtr⟩ := diff_fold_success cfg (getVikunjaProjects pResp)
    (cycleGcalsF cfg fails pResp okb st0)
    (cycleIndexedF cfg fails pResp okb st0).1 fails h
    (uncompletedTasks tResp) (cycleShareF cfg fails pResp okb st0).1
    (cycleShareF cfg fails pResp okb st0).2.1 []
  have hd1 : (cycleDiffF cfg fails pResp tResp okb st0).1 =
      (cycleDiff cfg pResp tResp okb st0).1 := by
    show ((uncompletedTasks tResp).foldl
      (syncTaskStepF cfg (getVikunjaProjects pResp)
        (cycleGcalsF cfg fails pResp okb st0)
        (cycleIndexedF cfg fails pResp okb st0).1 fails)
      ((cycleShareF cfg fails pResp okb st0).1,
       (cycleShareF cfg fails pResp okb st0).2.1, [])).1 = _
    rw [hdst, hp1, hidx, hsh1]
    rfl
  have hd2 : (cycleDiffF cfg fails pResp tResp okb st0).2.2 =
      (cycleDiff cfg pResp tResp okb st0).2 := by
    show ((uncompletedTasks tResp).foldl
      (syncTaskStepF cfg (getVikunjaProjects pResp)
        (cycleGcalsF cfg fails pResp okb st0)
        (cycleIndexedF cfg fails pResp okb st0).1 fails)
      ((cycleShareF cfg fails pResp okb st0).1,
       (cycleShareF cfg fails pResp okb st0).2.1, [])).2.2 = _
    rw [hdtr, hp1, hidx, hsh1]
    rfl
  obtain ⟨-, hctr⟩ := clean_fold_success (uncompletedTasks tResp) fails h
    (cycleIndexedF cfg fails pResp okb st0).1
    (cycleDiffF cfg fails pResp tResp okb st0).1
    (cycleDiffF cfg fails pResp tResp okb st0).2.1 []
  have hc2 : (cycleCleanupF cfg fails pResp tResp okb st0).2.2 =
      (cycleCleanup cfg pResp tResp okb st0).2 := by
    show ((cycleIndexedF cfg fails pResp okb st0).1.foldl
      (cleanupStepF (uncompletedTasks tResp) fails)
      ((cycleDiffF cfg fails pResp tResp okb st0).1,
       (cycleDiffF cfg fails pResp tResp okb st0).2.1, [])).2.2 = _
    rw [hctr, hidx, hd1]
    rfl
  have htrace : (runSyncF cfg fails pResp tResp okb st0).2 =
      (runSync cfg pResp tResp okb st0).2 := by
    show (cycleProvisionF cfg fails pResp okb st0).2.2.2
        ++ (cycleShareF cfg fails pResp okb st0).2.2
        ++ (cycleIndexedF cfg fails pResp okb st0).2
        ++ (cycleDiffF cfg fails pResp tResp okb st0).2.2
        ++ (cycleCleanupF cfg fails pResp tResp okb st0).2.2 = _
    rw [hp3, hsh2, hidx, hd2, hc2]
    rfl
  refine ⟨htrace, ?_⟩
  rw [htrace]
  exact runSync_trace_paced cfg pResp tResp okb st0

/-- Witness for C9 (amended): the all-success oracle on the example
cycle reproduces the success-path trace, which is paced. -/
theorem runSyncF_pacing_witness :
    (runSyncF exCfg (fun _ => false) (Except.ok [exProj])
        (Except.ok [exTask]) true exSt0).2 =
      (runSync exCfg (Except.ok [exProj]) (Except.ok [exTask]) true exSt0).2 ∧
    paced (runSyncF exCfg (fun _ => false) (Except.ok [exProj])
        (Except.ok [exTask]) true exSt0).2 = true :=
  runSyncF_pacing exCfg (fun _ => false) (Except.ok [exProj])
    (Except.ok [exTask]) true exSt0 (fun _ => rfl)

/-- Counterexample for C9 as stated: when the first cleanup delete
throws (even a tolerated 410), its pacing delay inside the try block is
skipped and the second delete is issued immediately, so the emitted call
sequence contains two adjacent mutating calls and is not paced. -/
theorem runSyncF_pacing_counterexample :
    (runSyncF exCfg (fun n => n == 0) (Except.ok [exProj]) (Except.ok [])
        true exStTwo).2 =
      [Action.sleep 200, Action.sleep 200, Action.deleteEvent 10 0,
       Action.deleteEvent 10 1, Action.sleep 200] ∧
    paced (runSyncF exCfg (fun n => n == 0) (Except.ok [exProj])
        (Except.ok []) true exStTwo).2 = false := by
  exact ⟨by decide, by decide⟩


end VikunjaGcalSync
